import Mathlib

/-!
# ubertracker: the tracker core

A shallow embedding of `tracker/models.go`, `tracker/parser.go`,
`tracker/worker.go` and `tracker/manager.go`, followed by the properties
established about them.

Conventions of the embedding.

* Go structs are Lean structures with the same field names. The field
  `Type` is spelled `Typ` (`Type` is reserved in Lean).
* A Go pointer field (`*StatusInfo`, `*CallToAction`, `*DeliveryInfo`) is an
  `Option`; a slice is a `List` (a nil slice and an empty slice are both `[]`).
  Orders are values: the orders handled by the tracker are freshly decoded
  from JSON, so no two feed cards share a pointer.
* Go's `int` is `Int`. The only arithmetic of the tracker core on an `int`
  is `30 + noChangeCount*10` in `AdaptiveInterval`; there each operation is
  reduced to 64 bits (`wrapInt64`), as on a 64-bit platform. The counters
  `failCount` and `noChangeCount` grow by one per polling cycle.
* Go's `string` is `String`.
* `MapEntity.Latitude` and `MapEntity.Longitude` (`float64`) are read by no
  function of the tracker core and are left out of `MapEntity`.
* Functions of the Go standard library are either modelled from their
  documentation (`stringsTrimSpace`, `strconvAtoi`, `stringsContains`) or taken
  as parameters (`strings.ToLower`, `json.Unmarshal`, `json.Marshal`).
-/

namespace Tracker

/-! ## Data model (`tracker/models.go`) -/

structure Contact where
  Title : String
  FormattedPhoneNumber : String
deriving DecidableEq, Repr

structure Item where
  Title : String
  Quantity : Int
  Subtitle : String
deriving DecidableEq, Repr

structure ActiveOrderOverview where
  Title : String
  Items : List Item
  Subtitle : String
deriving DecidableEq, Repr

structure SummaryText where
  Text : String
  InfoText : String
  InfoBody : String
deriving DecidableEq, Repr

structure SummaryContent where
  Text : String
deriving DecidableEq, Repr

structure SummaryWrapper where
  Summary : SummaryContent
deriving DecidableEq, Repr

structure StatusInfo where
  Title : String
  Subtitle : String
  StatusSummary : SummaryText
  TimelineSummary : String
  CurrentProgress : Int
  TotalProgress : Int
  TitleSummary : SummaryWrapper
deriving DecidableEq, Repr

structure CallToAction where
  Title : String
  Subtitle : String
deriving DecidableEq, Repr

structure PinInfo where
  Pin : String
deriving DecidableEq, Repr

structure CourierInfo where
  PinInfo : PinInfo
deriving DecidableEq, Repr

structure DeliveryInfo where
  Address : String
deriving DecidableEq, Repr

/-- The anonymous struct of `FeedCard.OrderSummary`. -/
structure OrderSummary where
  Total : String
deriving DecidableEq, Repr

structure FeedCard where
  Typ : String
  Status : Option StatusInfo
  CallToAction : Option CallToAction
  Courier : List CourierInfo
  Delivery : Option DeliveryInfo
  OrderSummary : OrderSummary
deriving DecidableEq, Repr

structure MapEntity where
  UUID : String
  Typ : String
  Title : String
  Subtitle : List String
deriving DecidableEq, Repr

structure BackgroundFeedCard where
  MapEntity : List MapEntity
  Typ : String
deriving DecidableEq, Repr

structure OrderInfo where
  OrderPhase : String
deriving DecidableEq, Repr

structure Order where
  Contacts : List Contact
  ActiveOrderOverview : ActiveOrderOverview
  FeedCards : List FeedCard
  BackgroundFeedCards : List BackgroundFeedCard
  OrderStatus : OrderInfo
deriving DecidableEq, Repr

structure Data where
  Orders : List Order
deriving DecidableEq, Repr

structure Response where
  Data : Data
deriving DecidableEq, Repr

/-- `OrderIdentity` (`tracker/models.go`). -/
structure OrderIdentity where
  UUID : String
  ChannelID : String
  GuildID : String
  ClientID : String
  CuistotID : String
deriving DecidableEq, Repr

/-- `TrackedOrder` (`tracker/models.go`). `LastUpdated` is a `time.Time`,
here the number of nanoseconds since the zero time (0 for the zero value). -/
structure TrackedOrder where
  UUID : String
  GuildID : String
  ChannelID : String
  LastStatus : String
  LastUpdated : Nat
  FullJSONData : String
  ClientID : String
  CuistotID : String
  LastProgress : Int
  LastText : String
  MessageID : String
  ETAMinutes : Int
deriving DecidableEq, Repr

/-! ## Go standard library functions used by the parser -/

/-- Go's `unicode.IsSpace`: the Latin-1 spaces `\t \n \v \f \r`, space,
U+0085, U+00A0, and the other code points with the White_Space property. -/
def isSpace (c : Char) : Bool :=
  let n := c.toNat
  (9 ≤ n && n ≤ 13) || n == 32 || n == 0x85 || n == 0xA0 || n == 0x1680 ||
  (0x2000 ≤ n && n ≤ 0x200A) || n == 0x2028 || n == 0x2029 || n == 0x202F ||
  n == 0x205F || n == 0x3000

/-- Go's `strings.TrimSpace`: drops the leading and the trailing white space. -/
def stringsTrimSpace (s : String) : String :=
  String.mk ((s.data.dropWhile isSpace).reverse.dropWhile isSpace).reverse

/-- The value of a run of decimal digits, or `none` when a character is not
one of `0`..`9`; `acc` is the value of the digits already read. -/
def parseDigits : List Char → Nat → Option Nat
  | [], acc => some acc
  | c :: cs, acc =>
    if 48 ≤ c.toNat ∧ c.toNat ≤ 57 then parseDigits cs (acc * 10 + (c.toNat - 48))
    else none

/-- Go's `strconv.Atoi` on a 64-bit platform: an optional sign, then one or
more decimal digits, with a value in the range of `int`; `none` stands for a
non-nil error (syntax or range). -/
def strconvAtoi (s : String) : Option Int :=
  let signed : Bool × List Char :=
    match s.data with
    | '-' :: r => (true, r)
    | '+' :: r => (false, r)
    | r => (false, r)
  if signed.2 = [] then none
  else
    match parseDigits signed.2 0 with
    | none => none
    | some n =>
      let v : Int := if signed.1 then -(n : Int) else (n : Int)
      if -(2 : Int) ^ 63 ≤ v ∧ v < (2 : Int) ^ 63 then some v else none

/-- Whether `sub` occurs in `l` at its head. -/
def hasPrefixChars : List Char → List Char → Bool
  | [], _ => true
  | _ :: _, [] => false
  | a :: sub, b :: l => a == b && hasPrefixChars sub l

/-- Whether `sub` occurs somewhere in `l`. -/
def containsChars (sub : List Char) : List Char → Bool
  | [] => hasPrefixChars sub []
  | b :: l => hasPrefixChars sub (b :: l) || containsChars sub l

/-- Go's `strings.Contains`. -/
def stringsContains (s substr : String) : Bool :=
  containsChars substr.data s.data

/-! ## Parser (`tracker/parser.go`) -/

def phaseCompleted : String := "COMPLETED"

/-- The inner loop of `ExtractETAFromOrder` over the entities of one card:
the first `LABEL` entity whose trimmed title `strconv.Atoi` accepts. -/
def scanEntities : List MapEntity → Option Int
  | [] => none
  | entity :: rest =>
    if entity.Typ = "LABEL" then
      match strconvAtoi (stringsTrimSpace entity.Title) with
      | some parsed => some parsed
      | none => scanEntities rest
    else scanEntities rest

/-- The outer loop of `ExtractETAFromOrder` over the background feed cards. -/
def scanCards : List BackgroundFeedCard → Option Int
  | [] => none
  | card :: rest =>
    match scanEntities card.MapEntity with
    | some parsed => some parsed
    | none => scanCards rest

def ExtractETAFromOrder (order : Order) : Int :=
  match scanCards order.BackgroundFeedCards with
  | some parsed => parsed
  | none => -1

structure preservedInfo where
  total : String
  address : String
  pin : String
deriving DecidableEq, Repr

/-- The loop `for _, c := range card.Courier` of `extractPreservedInfo`. -/
def extractPin (pin : String) : List CourierInfo → String
  | [] => pin
  | c :: rest => extractPin (if c.PinInfo.Pin ≠ "" then c.PinInfo.Pin else pin) rest

/-- One iteration of the loop of `extractPreservedInfo` over the feed cards. -/
def extractCard (p : preservedInfo) (card : FeedCard) : preservedInfo :=
  let total := if card.OrderSummary.Total ≠ "" then card.OrderSummary.Total else p.total
  let address :=
    match card.Delivery with
    | some d => if d.Address ≠ "" then d.Address else p.address
    | none => p.address
  { total := total, address := address, pin := extractPin p.pin card.Courier }

def extractPreservedInfo (o : Order) : preservedInfo :=
  o.FeedCards.foldl extractCard { total := "", address := "", pin := "" }

/-- The body of `restorePreservedInfo` on `fc := &o.FeedCards[0]`. -/
def restoreCard (fc : FeedCard) (p : preservedInfo) : FeedCard :=
  let fc1 : FeedCard :=
    if fc.OrderSummary.Total = "" ∧ p.total ≠ "" then
      { fc with OrderSummary := { fc.OrderSummary with Total := p.total } }
    else fc
  let fc2 : FeedCard :=
    if p.address ≠ "" then
      let d : DeliveryInfo :=
        match fc1.Delivery with
        | some d => d
        | none => { Address := "" }
      { fc1 with Delivery := some (if d.Address = "" then { d with Address := p.address } else d) }
    else fc1
  if p.pin ≠ "" then
    match fc2.Courier with
    | [] =>
      -- `fc.Courier = []CourierInfo{{}}`, whose empty PIN is then set to `p.pin`
      { fc2 with Courier := [{ PinInfo := { Pin := p.pin } }] }
    | c :: rest =>
      if c.PinInfo.Pin = "" then
        { fc2 with Courier := { c with PinInfo := { c.PinInfo with Pin := p.pin } } :: rest }
      else fc2
  else fc2

def restorePreservedInfo (o : Order) (p : preservedInfo) : Order :=
  match o.FeedCards with
  | [] => o
  | fc :: rest => { o with FeedCards := restoreCard fc p :: rest }

/-- `detectPhase`; `toLower` is Go's `strings.ToLower`. -/
def detectPhase (toLower : String → String) (newOrder : Order) : String :=
  let phase := newOrder.OrderStatus.OrderPhase
  if phase = phaseCompleted then
    if newOrder.FeedCards.any (fun card =>
        match card.CallToAction with
        | some cta => stringsContains (toLower cta.Title) "annul"
        | none => false) then "CANCELLED"
    else phase
  else phase

/-- The five assignments of step 4 of `MergeOrderData` on a status. -/
def completedStatus (s : StatusInfo) : StatusInfo :=
  { s with
    Title := "Commande Livrée"
    TitleSummary := { s.TitleSummary with
      Summary := { s.TitleSummary.Summary with Text := "Bon appétit ! La commande a été livrée." } }
    StatusSummary := { s.StatusSummary with Text := "Livraison terminée" }
    CurrentProgress := 5
    TotalProgress := 5 }

/-- The loop of step 4 of `MergeOrderData`: the first feed card with a
status gets the completed status, then the loop breaks. -/
def markCompleted : List FeedCard → List FeedCard
  | [] => []
  | card :: rest =>
    match card.Status with
    | some s => { card with Status := some (completedStatus s) } :: rest
    | none => card :: markCompleted rest

def MergeOrderData (toLower : String → String) (masterOrder newOrder : Order)
    (hasOldData : Bool) : Order × String :=
  -- 1. preserved data
  let kept0 : preservedInfo :=
    if hasOldData then extractPreservedInfo masterOrder
    else { total := "", address := "", pin := "" }
  let fresh := extractPreservedInfo newOrder
  let kept : preservedInfo :=
    { total := if fresh.total ≠ "" then fresh.total else kept0.total
      address := if fresh.address ≠ "" then fresh.address else kept0.address
      pin := if fresh.pin ≠ "" then fresh.pin else kept0.pin }
  -- 2. top-level fields
  let m1 : Order :=
    if newOrder.ActiveOrderOverview.Title ≠ "" then
      { masterOrder with ActiveOrderOverview := newOrder.ActiveOrderOverview }
    else masterOrder
  let m2 : Order :=
    if newOrder.Contacts.length > 0 then { m1 with Contacts := newOrder.Contacts } else m1
  -- 3. effective phase
  let newPhase := detectPhase toLower newOrder
  -- 4. feed cards
  let m3 : Order :=
    if newPhase = phaseCompleted then { m2 with FeedCards := markCompleted m2.FeedCards }
    else
      match newOrder.FeedCards with
      | first :: _ =>
        if first.Status.isSome then { m2 with FeedCards := newOrder.FeedCards } else m2
      | [] => m2
  let m4 : Order := { m3 with OrderStatus := { m3.OrderStatus with OrderPhase := newPhase } }
  -- 5. restoration
  (restorePreservedInfo m4 kept, newPhase)

/-! ## Reconciler and schedule policy (`tracker/worker.go`) -/

/-- What `OrderStore.GetSnapshot` returns: `(status, progress, text, rawJSON,
err)`; `err` is `true` for a non-nil error. -/
structure Snapshot where
  status : String
  progress : Int
  text : String
  rawJSON : String
  err : Bool
deriving DecidableEq, Repr

/-- The part of the `OrderStore` interface that the worker calls. The store
lives outside the tracker core; it is any function from a uuid to what
`GetSnapshot` returns for it, together with the answers of `GetMessageID`
(its error is ignored by the caller) and of `SaveOrder` (`none` for a nil
error). A store value stands for the answers of the store during one scan,
in which each method is called at most once. -/
structure OrderStore where
  GetSnapshot : String → Snapshot
  GetMessageID : String → String := fun _ => ""
  SaveOrder : TrackedOrder → Option String := fun _ => none

structure ReconcileResult where
  FinalJSON : String
  Phase : String
  Progress : Int
  Text : String
  Eta : Int
  ShouldEmit : Bool
deriving DecidableEq, Repr

/-- How a Go call ends: with a result and a nil error, with a non-nil
error, or in a run-time panic. -/
inductive Outcome (α : Type) where
  | ok (value : α)
  | error (msg : String)
  | panic
deriving DecidableEq, Repr

/-- The previous order and `hasOldData`, as `Reconcile` computes them from
the snapshot (lines 67 to 80); `unmarshal` is `json.Unmarshal` into a
`Response`, `none` standing for a non-nil error. -/
def priorOrder (unmarshal : String → Option Response) (snap : Snapshot)
    (newOrder : Order) : Order × Bool :=
  let decoded : Option Order :=
    if snap.err = false ∧ snap.rawJSON ≠ "" then
      match unmarshal snap.rawJSON with
      | some lastResp =>
        match lastResp.Data.Orders with
        | first :: _ => some first
        | [] => none
      | none => none
    else none
  match decoded with
  | some masterOrder => (masterOrder, true)
  | none => (newOrder, false)

/-- `Reconcile`; `toLower` is `strings.ToLower`, `unmarshal` is
`json.Unmarshal` into a `Response` and `marshal` is `json.Marshal` of a
`Response` (`none` standing for a non-nil error). -/
def Reconcile (toLower : String → String) (unmarshal : String → Option Response)
    (marshal : Response → Option String) (store : OrderStore) (uuid : String)
    (resp : Response) : Outcome ReconcileResult :=
  match resp.Data.Orders with
  | [] => Outcome.panic
  | newOrder :: others =>
    let snap := store.GetSnapshot uuid
    let prior := priorOrder unmarshal snap newOrder
    let hasOldData := prior.2
    let merged := MergeOrderData toLower prior.1 newOrder hasOldData
    let newPhase := merged.2
    let masterOrder : Order :=
      if newOrder.BackgroundFeedCards.length > 0 then
        { merged.1 with BackgroundFeedCards := newOrder.BackgroundFeedCards }
      else merged.1
    let resp1 : Response := { resp with Data := { resp.Data with Orders := masterOrder :: others } }
    match marshal resp1 with
    | none => Outcome.error "sérialisation JSON finale"
    | some finalJSON =>
      let status : Option StatusInfo :=
        match masterOrder.FeedCards with
        | first :: _ => first.Status
        | [] => none
      let newProgress : Int :=
        match status with
        | some s => s.CurrentProgress
        | none => 0
      let newText : String :=
        match status with
        | some s => s.StatusSummary.Text
        | none => ""
      let newETA := ExtractETAFromOrder masterOrder
      let shouldEmit : Bool :=
        !hasOldData || decide (newPhase ≠ snap.status) || decide (newProgress ≠ snap.progress) ||
          decide (newText ≠ snap.text) || decide (newETA ≥ 0)
      Outcome.ok
        { FinalJSON := finalJSON
          Phase := newPhase
          Progress := newProgress
          Text := newText
          Eta := newETA
          ShouldEmit := shouldEmit }

/-- The result of an arithmetic operation on Go's `int`, on a 64-bit
platform: the exact result reduced to two's complement on 64 bits. -/
def wrapInt64 (x : Int) : Int :=
  (x + 9223372036854775808) % 18446744073709551616 - 9223372036854775808

def AdaptiveInterval (eta noChangeCount : Int) : Int :=
  if eta ≥ 0 ∧ eta ≤ 5 then 15
  else if eta > 5 ∧ eta ≤ 15 then 25
  else
    let base := wrapInt64 (30 + wrapInt64 (noChangeCount * 10))
    if base > 120 then 120 else base

/-! ## `SafeTruncate` (`tracker/worker.go`)

`SafeTruncate` works on the bytes of a string: `len(s)` is a number of bytes
and `s[:maxLen]` cuts between bytes. Here, and only here, a Go string is the
list of its bytes. -/

/-- The slice expression `s[:hi]` on a string: it panics unless
`0 ≤ hi ≤ len(s)`. -/
def sliceTo (s : List UInt8) (hi : Int) : Outcome (List UInt8) :=
  if 0 ≤ hi ∧ hi ≤ (s.length : Int) then Outcome.ok (s.take hi.toNat) else Outcome.panic

def SafeTruncate (s : List UInt8) (maxLen : Int) : Outcome (List UInt8) :=
  if (s.length : Int) ≤ maxLen then Outcome.ok s else sliceTo s maxLen

/-! ## Worker (`tracker/worker.go`)

A scan talks to the fetcher, to the store and to the update channel. The
fetcher and the store are outside the tracker core: their answers during one
scan are the fields of a `ScanEnv`. What a scan sends on the update channel
is the list `sent` of its result. -/

/-- The surroundings of one scan. -/
structure ScanEnv where
  /-- The injected `fetchFn`: `none` for a non-nil error, else the bytes. -/
  fetchFn : String → Option String
  /-- The answers of the store during the scan. -/
  store : OrderStore
  /-- What `time.Now()` returns. -/
  now : Nat
  /-- Whether a `select` between a send on `updates` and `<-ctx.Done()` takes
  the `ctx.Done()` branch. It is `false` when the context is not cancelled:
  the send then blocks until it goes through. -/
  ctxDone : Bool

/-- `fetchAndParse`. -/
def fetchAndParse (unmarshal : String → Option Response) (fetchFn : String → Option String)
    (uuid : String) : Except String Response :=
  match fetchFn uuid with
  | none => Except.error "API"
  | some jsonBytes =>
    match unmarshal jsonBytes with
    | none => Except.error "JSON"
    | some resp =>
      if resp.Data.Orders.length = 0 then Except.error "aucune commande retournée"
      else Except.ok resp

/-- The `TrackedOrder` built by `emitUpdate` (lines 126 to 139). -/
def trackedOf (id : OrderIdentity) (r : ReconcileResult) (now : Nat)
    (existingMsgID : String) : TrackedOrder :=
  { UUID := id.UUID
    ChannelID := id.ChannelID
    GuildID := id.GuildID
    LastStatus := r.Phase
    LastUpdated := now
    FullJSONData := r.FinalJSON
    ClientID := id.ClientID
    CuistotID := id.CuistotID
    LastProgress := r.Progress
    LastText := r.Text
    MessageID := existingMsgID
    ETAMinutes := r.Eta }

/-- What `emitUpdate` does: the error it returns (`none` for nil), the order
it passed to `SaveOrder` and what it sent on `updates`. -/
structure EmitResult where
  err : Option String
  saved : TrackedOrder
  sent : List TrackedOrder
deriving DecidableEq, Repr

def emitUpdate (store : OrderStore) (id : OrderIdentity) (r : ReconcileResult) (now : Nat)
    (ctxDone : Bool) : EmitResult :=
  let existingMsgID := store.GetMessageID id.UUID
  let tracked := trackedOf id r now existingMsgID
  match store.SaveOrder tracked with
  | some e => { err := some ("SaveOrder: " ++ e), saved := tracked, sent := [] }
  | none => { err := none, saved := tracked, sent := if ctxDone then [] else [tracked] }

def maxFails : Int := 10

/-- The envelope sent by `scan` when `failCount` reaches `maxFails` (lines 184
to 190); the fields that the composite literal does not name are zero. -/
def failedEnvelope (id : OrderIdentity) : TrackedOrder :=
  { UUID := id.UUID
    ChannelID := id.ChannelID
    GuildID := id.GuildID
    LastStatus := "FAILED"
    LastText := "Suivi abandonné après trop d'échecs."
    LastUpdated := 0
    FullJSONData := ""
    ClientID := ""
    CuistotID := ""
    LastProgress := 0
    MessageID := ""
    ETAMinutes := 0 }

/-- What one call of the closure `scan` does: the new value of `failCount`,
what was sent on `updates`, and the boolean it returns (`true` to stop). -/
structure ScanResult where
  failCount : Int
  sent : List TrackedOrder
  stop : Bool
deriving DecidableEq, Repr

/-- The closure `scan` of `StartOrderWorker`; `failCount` is the value of the
captured variable when it is called. -/
def scan (toLower : String → String) (unmarshal : String → Option Response)
    (marshal : Response → Option String) (id : OrderIdentity) (failCount : Int)
    (env : ScanEnv) : Outcome ScanResult :=
  match fetchAndParse unmarshal env.fetchFn id.UUID with
  | Except.error _ =>
    let failCount1 := failCount + 1
    if failCount1 ≥ maxFails then
      Outcome.ok
        { failCount := failCount1
          sent := if env.ctxDone then [] else [failedEnvelope id]
          stop := true }
    else Outcome.ok { failCount := failCount1, sent := [], stop := false }
  | Except.ok resp =>
    match Reconcile toLower unmarshal marshal env.store id.UUID resp with
    | Outcome.panic => Outcome.panic
    | Outcome.error _ => Outcome.ok { failCount := 0, sent := [], stop := false }
    | Outcome.ok result =>
      Outcome.ok
        { failCount := 0
          sent :=
            if result.ShouldEmit then (emitUpdate env.store id result env.now env.ctxDone).sent
            else []
          stop := decide (result.Phase = "COMPLETED") || decide (result.Phase = "DELIVERED") ||
            decide (result.Phase = "CANCELLED") }

/-- The surroundings of one turn of the polling loop. -/
structure LoopEnv where
  /-- What `rand.Intn(21)` returns. -/
  jitter : Int
  /-- Whether the `select` of the sleep takes the `ctx.Done()` branch. -/
  ctxDoneInSleep : Bool
  /-- The surroundings of the scan of this turn. -/
  scanEnv : ScanEnv
  /-- The answers of the store after the scan (line 241). -/
  storeAfter : OrderStore

/-- The local variables of `StartOrderWorker`. -/
structure WorkerState where
  failCount : Int
  noChangeCount : Int
  lastKnownETA : Int
deriving DecidableEq, Repr

/-- The update of `lastKnownETA` after a scan (lines 241 to 248). -/
def refreshETA (unmarshal : String → Option Response) (snap : Snapshot)
    (lastKnownETA : Int) : Int :=
  if snap.err = false then
    match unmarshal snap.rawJSON with
    | some r =>
      match r.Data.Orders with
      | first :: _ =>
        if ExtractETAFromOrder first ≥ 0 then ExtractETAFromOrder first else lastKnownETA
      | [] => lastKnownETA
    | none => lastKnownETA
  else lastKnownETA

/-- How a run of the worker ends: `scan` returned true, the context was
cancelled during a sleep, the goroutine panicked, or the worker is still
polling when the described surroundings end. -/
inductive WorkerEnd where
  | stopped
  | cancelled
  | panicked
  | polling
deriving DecidableEq, Repr

/-- A run of the worker: what it sent on `updates`, in order, the number of
scans it made, the sleeps it asked for in seconds, its local variables at the
end and how it ended. -/
structure WorkerRun where
  sent : List TrackedOrder
  scans : Nat
  sleeps : List Int
  state : WorkerState
  ending : WorkerEnd
deriving DecidableEq, Repr

/-- The polling loop of `StartOrderWorker` (lines 223 to 255), one `LoopEnv`
for each turn. -/
def pollingLoop (toLower : String → String) (unmarshal : String → Option Response)
    (marshal : Response → Option String) (id : OrderIdentity) :
    WorkerState → List LoopEnv → WorkerRun
  | st, [] => { sent := [], scans := 0, sleeps := [], state := st, ending := WorkerEnd.polling }
  | st, env :: rest =>
    let interval := AdaptiveInterval st.lastKnownETA st.noChangeCount
    let sleepTime := interval + env.jitter
    if env.ctxDoneInSleep then
      { sent := [], scans := 0, sleeps := [sleepTime], state := st, ending := WorkerEnd.cancelled }
    else
      let prevFails := st.failCount
      match scan toLower unmarshal marshal id st.failCount env.scanEnv with
      | Outcome.ok r =>
        if r.stop then
          { sent := r.sent, scans := 1, sleeps := [sleepTime],
            state := { st with failCount := r.failCount }, ending := WorkerEnd.stopped }
        else
          let eta := refreshETA unmarshal (env.storeAfter.GetSnapshot id.UUID) st.lastKnownETA
          let noChange := if r.failCount = prevFails then st.noChangeCount + 1 else 0
          let next := pollingLoop toLower unmarshal marshal id
            { failCount := r.failCount, noChangeCount := noChange, lastKnownETA := eta } rest
          { next with
            sent := r.sent ++ next.sent
            scans := next.scans + 1
            sleeps := sleepTime :: next.sleeps }
      | _ =>
        { sent := [], scans := 1, sleeps := [sleepTime], state := st,
          ending := WorkerEnd.panicked }

/-- `StartOrderWorker`: the initial scan in the surroundings `first`, then
the polling loop. -/
def StartOrderWorker (toLower : String → String) (unmarshal : String → Option Response)
    (marshal : Response → Option String) (id : OrderIdentity) (first : ScanEnv)
    (turns : List LoopEnv) : WorkerRun :=
  match scan toLower unmarshal marshal id 0 first with
  | Outcome.ok r =>
    if r.stop then
      { sent := r.sent, scans := 1, sleeps := [],
        state := { failCount := r.failCount, noChangeCount := 0, lastKnownETA := -1 },
        ending := WorkerEnd.stopped }
    else
      let next := pollingLoop toLower unmarshal marshal id
        { failCount := r.failCount, noChangeCount := 0, lastKnownETA := -1 } turns
      { next with sent := r.sent ++ next.sent, scans := next.scans + 1 }
  | _ =>
    { sent := [], scans := 1, sleeps := [],
      state := { failCount := 0, noChangeCount := 0, lastKnownETA := -1 },
      ending := WorkerEnd.panicked }

/-! ## Manager (`tracker/manager.go`)

The registry `activeOrders` maps a uuid to the cancel function of a context;
a context is named by the number of the `context.WithCancel` call that made
it. Every access to the registry is made under `m.mutex`, so `StartTracking`,
`StopTracking` and the deferred clean-up of a worker goroutine are steps of a
transition system on the state below. -/

/-- A worker goroutine that has been spawned and has not yet run its
deferred clean-up: the identity it tracks and its own context. -/
structure Worker where
  id : OrderIdentity
  token : Nat
deriving DecidableEq, Repr

structure Manager where
  /-- The map `activeOrders`, `none` for an absent key. -/
  activeOrders : String → Option Nat
  /-- The contexts whose cancel function has been called. -/
  cancelled : List Nat
  /-- The worker goroutines still running. -/
  workers : List Worker
  /-- The number of contexts created so far. -/
  created : Nat

def NewManager : Manager :=
  { activeOrders := fun _ => none, cancelled := [], workers := [], created := 0 }

/-- `delete(m.activeOrders, uuid)`. -/
def deleteKey (reg : String → Option Nat) (uuid : String) : String → Option Nat :=
  fun k => if k = uuid then none else reg k

def Manager.StartTracking (m : Manager) (id : OrderIdentity) : Manager × Bool :=
  match m.activeOrders id.UUID with
  | some _ => (m, false)
  | none =>
    let token := m.created
    ({ activeOrders := fun k => if k = id.UUID then some token else m.activeOrders k
       cancelled := m.cancelled
       workers := m.workers ++ [{ id := id, token := token }]
       created := m.created + 1 }, true)

def Manager.StopTracking (m : Manager) (uuid : String) : Manager :=
  match m.activeOrders uuid with
  | some token =>
    { m with cancelled := token :: m.cancelled, activeOrders := deleteKey m.activeOrders uuid }
  | none => m

/-- The deferred function of the goroutine spawned by `StartTracking`, run
when `StartOrderWorker` returns in worker `w`: `delete(m.activeOrders,
id.UUID)` under the mutex, then `cancel()` of the worker's own context. -/
def Manager.workerExit (m : Manager) (w : Worker) : Manager :=
  { activeOrders := deleteKey m.activeOrders w.id.UUID
    cancelled := w.token :: m.cancelled
    workers := m.workers.filter (fun x => decide (x ≠ w))
    created := m.created }

/-- The operations that interleave on one manager. -/
inductive Op where
  | start (id : OrderIdentity)
  | stop (uuid : String)
  | exit (w : Worker)
deriving DecidableEq, Repr

/-- One step; a worker exits only if it is running. -/
def Manager.step (m : Manager) : Op → Manager
  | Op.start id => (m.StartTracking id).1
  | Op.stop uuid => m.StopTracking uuid
  | Op.exit w => if w ∈ m.workers then m.workerExit w else m

/-- The state after a sequence of operations on a new manager. -/
def Manager.run (ops : List Op) : Manager :=
  ops.foldl Manager.step NewManager

/-- The running workers of `uuid` whose context has not been cancelled. -/
def Manager.liveWorkers (m : Manager) (uuid : String) : List Worker :=
  m.workers.filter (fun w => decide (w.id.UUID = uuid) && !decide (w.token ∈ m.cancelled))

/-- `ResumableOrder` (`tracker/interfaces.go`). -/
structure ResumableOrder where
  UUID : String
  ChannelID : String
  GuildID : String
  ClientID : String
  CuistotID : String
deriving DecidableEq, Repr

/-- The conversion `OrderIdentity(o)`. -/
def identityOf (o : ResumableOrder) : OrderIdentity :=
  { UUID := o.UUID, ChannelID := o.ChannelID, GuildID := o.GuildID, ClientID := o.ClientID,
    CuistotID := o.CuistotID }

/-- The uuid an operation acts on. -/
def Op.uuid : Op → String
  | Op.start id => id.UUID
  | Op.stop uuid => uuid
  | Op.exit w => w.id.UUID

/-- What a call of `ResumeActiveOrders` did: the manager afterwards, the
identities it passed to `StartTracking`, in order, and the local `count`. -/
structure ResumeResult where
  manager : Manager
  calls : List OrderIdentity
  count : Int

/-- The loop `for _, o := range orders` of `ResumeActiveOrders`. The mutex is
held inside each `StartTracking` only: `meanwhile` gives, call after call,
the operations that other goroutines, the workers just spawned among them,
make on the manager between this call and the next iteration (none when the
list is exhausted). -/
def resumeLoop (m : Manager) : List ResumableOrder → List (List Op) → ResumeResult
  | [], _ => { manager := m, calls := [], count := 0 }
  | o :: rest, meanwhile =>
    let id := identityOf o
    let started := m.StartTracking id
    let next :=
      resumeLoop ((meanwhile.headD []).foldl Manager.step started.1) rest meanwhile.tail
    { manager := next.manager
      calls := id :: next.calls
      count := if started.2 then next.count + 1 else next.count }

/-- `ResumeActiveOrders`; `listed` is what `store.ListResumableOrders`
returns, `none` for a non-nil error, and `meanwhile` is what other goroutines
do during the loop. -/
def Manager.ResumeActiveOrders (m : Manager) (listed : Option (List ResumableOrder))
    (meanwhile : List (List Op)) : ResumeResult :=
  match listed with
  | none => { manager := m, calls := [], count := 0 }
  | some orders => resumeLoop m orders meanwhile

/-- A manager together with its `UpdateChannel`: whether the channel has
been closed, whether a call has panicked, and how many calls of `Shutdown`
are blocked in `m.wg.Wait()`. -/
structure ChannelManager where
  manager : Manager
  closed : Bool
  panicked : Bool
  waiting : Nat

/-- `NewManager` with its open channel. -/
def NewChannelManager : ChannelManager :=
  { manager := NewManager, closed := false, panicked := false, waiting := 0 }

/-- The loop of `Shutdown` under the mutex: every cancel function of the
registry is called and every entry is deleted. An entry of the registry is
put there by `StartTracking` together with a worker of the same uuid and
context, so the registered contexts are read from the running workers. -/
def cancelAll (m : Manager) : Manager :=
  { m with
    cancelled :=
      (m.workers.filter (fun w => decide (m.activeOrders w.id.UUID = some w.token))).map
        (fun w => w.token) ++ m.cancelled
    activeOrders := fun _ => none }

/-- The end of `Shutdown`. `m.wg.Wait()` returns when no worker goroutine is
left, whoever made it return; the call then runs `close(m.UpdateChannel)`,
which panics when the channel is already closed, as it is for the second of
two calls that were waiting. While a worker goroutine runs, the call stays
blocked and the channel is as it was. -/
def ChannelManager.release (s : ChannelManager) : ChannelManager :=
  if s.waiting = 0 ∨ s.manager.workers ≠ [] then s
  else
    { manager := s.manager
      closed := true
      panicked := s.panicked || s.closed || decide (1 < s.waiting)
      waiting := 0 }

/-- `Shutdown`: cancel and clear under the mutex, then wait for the workers
and close the channel. -/
def ChannelManager.Shutdown (s : ChannelManager) : ChannelManager :=
  ChannelManager.release { s with manager := cancelAll s.manager, waiting := s.waiting + 1 }

/-- The calls made on a manager, and the exit of a worker. -/
inductive Call where
  | start (id : OrderIdentity)
  | stop (uuid : String)
  | resume (listed : Option (List ResumableOrder)) (meanwhile : List (List Op))
  | exit (w : Worker)
  | shutdown
deriving DecidableEq, Repr

/-- One call; nothing runs after a panic, and a `Shutdown` that was blocked
goes on as soon as no worker is left. -/
def ChannelManager.step (s : ChannelManager) (c : Call) : ChannelManager :=
  if s.panicked then s
  else
    match c with
    | Call.start id =>
      ChannelManager.release { s with manager := (s.manager.StartTracking id).1 }
    | Call.stop uuid => ChannelManager.release { s with manager := s.manager.StopTracking uuid }
    | Call.resume listed meanwhile =>
      ChannelManager.release
        { s with manager := (s.manager.ResumeActiveOrders listed meanwhile).manager }
    | Call.exit w => ChannelManager.release { s with manager := s.manager.step (Op.exit w) }
    | Call.shutdown => s.Shutdown

/-- The state after a sequence of calls on a new manager. -/
def ChannelManager.run (calls : List Call) : ChannelManager :=
  calls.foldl ChannelManager.step NewChannelManager

/-! ## Reference definitions, in the words of the specification -/

/-- An entity that carries an ETA: its type is `LABEL` and its trimmed title
parses as a base-10 signed integer. -/
def isEtaLabel (e : MapEntity) : Bool :=
  decide (e.Typ = "LABEL") && (strconvAtoi (stringsTrimSpace e.Title)).isSome

/-- The map entities of an order in document order: background feed cards in
order, and the entities of each card in order. -/
def mapEntities (order : Order) : List MapEntity :=
  (order.BackgroundFeedCards.map (fun card => card.MapEntity)).flatten

/-- A disguised cancellation: some feed card has a call to action whose
lower-cased title contains `annul`. -/
def hasAnnulCallToAction (toLower : String → String) (o : Order) : Prop :=
  ∃ card ∈ o.FeedCards, ∃ cta : CallToAction,
    card.CallToAction = some cta ∧ stringsContains (toLower cta.Title) "annul" = true

/-- The last non-empty string of a list, `d` when there is none. -/
def lastNonEmptyD (d : String) (l : List String) : String :=
  ((l.filter (fun x => decide (x ≠ ""))).getLast?).getD d

/-- The last non-empty string of a list, empty when there is none. -/
def lastNonEmpty (l : List String) : String := lastNonEmptyD "" l

/-- The `order_summary.total` of every feed card, in order. -/
def cardTotals (o : Order) : List String :=
  o.FeedCards.map (fun card => card.OrderSummary.Total)

/-- The `delivery.formatted_address` of every feed card, in order (empty for
a card without `delivery`). -/
def cardAddresses (o : Order) : List String :=
  o.FeedCards.map (fun card =>
    match card.Delivery with
    | some d => d.Address
    | none => "")

/-- The courier PINs of every feed card, in order. -/
def cardPins (o : Order) : List String :=
  (o.FeedCards.map (fun card => card.Courier.map (fun c => c.PinInfo.Pin))).flatten

/-- The `order_summary.total` of the first feed card, if there is one. -/
def firstTotal (o : Order) : Option String :=
  o.FeedCards.head?.map (fun card => card.OrderSummary.Total)

/-- The `delivery.formatted_address` of the first feed card, if it has a
`delivery`. -/
def firstAddress (o : Order) : Option String :=
  o.FeedCards.head?.bind (fun card => card.Delivery.map (fun d => d.Address))

/-- The PIN of `courier[0]` of the first feed card, if it has a courier. -/
def firstPin (o : Order) : Option String :=
  o.FeedCards.head?.bind (fun card => card.Courier.head?.map (fun c => c.PinInfo.Pin))

/-- The stored `raw_json` decodes to a `Response` with at least one order. -/
def storedDecodes (unmarshal : String → Option Response) (snap : Snapshot) : Prop :=
  ∃ lastResp, unmarshal snap.rawJSON = some lastResp ∧ lastResp.Data.Orders ≠ []

/-! ## Intermediate values of `MergeOrderData` -/

/-- The preserved values `kept` that `MergeOrderData` restores (step 1,
lines 108 to 122). -/
def keptInfo (masterOrder newOrder : Order) (hasOldData : Bool) : preservedInfo :=
  let kept0 : preservedInfo :=
    if hasOldData then extractPreservedInfo masterOrder
    else { total := "", address := "", pin := "" }
  let fresh := extractPreservedInfo newOrder
  { total := if fresh.total ≠ "" then fresh.total else kept0.total
    address := if fresh.address ≠ "" then fresh.address else kept0.address
    pin := if fresh.pin ≠ "" then fresh.pin else kept0.pin }

/-- The feed cards of the merged order before restoration (step 4, lines 136
to 151). -/
def updatedCards (toLower : String → String) (masterOrder newOrder : Order) : List FeedCard :=
  if detectPhase toLower newOrder = phaseCompleted then markCompleted masterOrder.FeedCards
  else
    match newOrder.FeedCards with
    | first :: _ => if first.Status.isSome then newOrder.FeedCards else masterOrder.FeedCards
    | [] => masterOrder.FeedCards

/-! ## Sample values, after `tests/testutil/factories.go` and the tests -/

/-- The zero value `StatusInfo{}`. -/
def StatusInfo.zero : StatusInfo :=
  { Title := "", Subtitle := "", StatusSummary := { Text := "", InfoText := "", InfoBody := "" },
    TimelineSummary := "", CurrentProgress := 0, TotalProgress := 0,
    TitleSummary := { Summary := { Text := "" } } }

/-- The zero value `FeedCard{}`. -/
def FeedCard.zero : FeedCard :=
  { Typ := "", Status := none, CallToAction := none, Courier := [], Delivery := none,
    OrderSummary := { Total := "" } }

/-- The zero value `Order{}`. -/
def Order.zero : Order :=
  { Contacts := [], ActiveOrderOverview := { Title := "", Items := [], Subtitle := "" },
    FeedCards := [], BackgroundFeedCards := [], OrderStatus := { OrderPhase := "" } }

/-- The order of `NewTestOrder().Build()`: one feed card with a status at
progress 2 of 5. -/
def sampleOrder : Order :=
  { Order.zero with
    ActiveOrderOverview := { Title := "Test Restaurant", Items := [], Subtitle := "" }
    FeedCards := [{ FeedCard.zero with
      Status := some { StatusInfo.zero with
        CurrentProgress := 2, TotalProgress := 5, Title := "En préparation" } }] }

/-- The order of `NewTestOrder().WithTotal(..).WithAddress(..).WithPIN(..)`. -/
def sampleOrderWith (total address pin : String) : Order :=
  { sampleOrder with
    FeedCards := sampleOrder.FeedCards.map (fun card =>
      { card with
        OrderSummary := { Total := total }
        Delivery := some { Address := address }
        Courier := [{ PinInfo := { Pin := pin } }] }) }

/-- A stored order whose first feed card has the total `10.00€` and whose
second feed card has the total `20.00€`, an address and a courier PIN. -/
def twoTotalsOrder : Order :=
  { Order.zero with
    FeedCards :=
      [{ FeedCard.zero with OrderSummary := { Total := "10.00€" } },
       { FeedCard.zero with
         OrderSummary := { Total := "20.00€" }
         Delivery := some { Address := "12 Rue de la Paix" }
         Courier := [{ PinInfo := { Pin := "4321" } }] }] }

/-- An incoming order in phase `ACTIVE` whose only feed card has a total,
an address and a PIN but no status. -/
def statuslessOrder : Order :=
  { Order.zero with
    OrderStatus := { OrderPhase := "ACTIVE" }
    FeedCards :=
      [{ FeedCard.zero with
         OrderSummary := { Total := "12.50€" }
         Delivery := some { Address := "5 Avenue Foch" }
         Courier := [{ PinInfo := { Pin := "2222" } }] }] }

/-- The order of `NewTestOrder().Build()` with the phase `COMPLETED`, as in
`TestMergeOrderData_CompletedOverridesStatus`. -/
def completedOrder : Order :=
  { sampleOrder with OrderStatus := { OrderPhase := "COMPLETED" } }

/-- A lower-casing function for the examples: it lower-cases the letters `A`
to `Z`, as `strings.ToLower` does on them. -/
def asciiToLower (s : String) : String :=
  String.mk (s.data.map Char.toLower)

/-- The incoming order of `TestMergeOrderData_DetectsCancelledViaCTA`: phase
`COMPLETED` with the call to action `Commande annulée`. -/
def cancelledOrder : Order :=
  { completedOrder with
    FeedCards := completedOrder.FeedCards.map (fun card =>
      { card with CallToAction := some { Title := "Commande annulée", Subtitle := "" } }) }

/-- An order with two background feed cards: a restaurant and a `LABEL` that
is not a number, then a `LABEL` of 5 between blanks and a `LABEL` of 7. -/
def etaOrder : Order :=
  { sampleOrder with
    BackgroundFeedCards :=
      [{ Typ := "", MapEntity :=
          [{ UUID := "", Typ := "RESTAURANT", Title := "McDonalds", Subtitle := [] },
           { UUID := "", Typ := "LABEL", Title := "bientôt", Subtitle := [] }] },
       { Typ := "", MapEntity :=
          [{ UUID := "", Typ := "LABEL", Title := "  5  ", Subtitle := [] },
           { UUID := "", Typ := "LABEL", Title := "7", Subtitle := [] }] }] }

/-- An order in phase `ACTIVE` with no feed card and no background feed card. -/
def activeOrder : Order :=
  { Order.zero with OrderStatus := { OrderPhase := "ACTIVE" } }

/-- The response whose only order is `activeOrder`. -/
def activeResponse : Response := { Data := { Orders := [activeOrder] } }

/-- The JSON text `{"data":{"orders":[{"orderInfo":{"orderPhase":"ACTIVE"}}]}}`,
which `json.Unmarshal` decodes to `activeResponse`. -/
def activeJSON : String :=
  "\x7b\"data\":\x7b\"orders\":[\x7b\"orderInfo\":\x7b\"orderPhase\":\"ACTIVE\"\x7d\x7d]\x7d\x7d"

/-- A stand-in for `json.Unmarshal` in the examples: it decodes `activeJSON`
and rejects every other text, the empty one included. -/
def sampleUnmarshal (s : String) : Option Response :=
  if s = activeJSON then some activeResponse else none

/-- A stand-in for `json.Marshal` in the examples: it never fails. -/
def sampleMarshal (_ : Response) : Option String := some activeJSON

/-- A store whose `GetSnapshot` returns the snapshot `(ACTIVE, 0, "",
activeJSON)` without error. -/
def seededStore : OrderStore :=
  { GetSnapshot := fun _ =>
      { status := "ACTIVE", progress := 0, text := "", rawJSON := activeJSON, err := false } }

/-- A store whose `GetSnapshot` returns the same snapshot together with a
non-nil error. -/
def failingStore : OrderStore :=
  { GetSnapshot := fun _ =>
      { status := "ACTIVE", progress := 0, text := "", rawJSON := activeJSON, err := true } }

/-- The identity used by `tests/tracker/manager_test.go`. -/
def sampleIdentity : OrderIdentity :=
  { UUID := "uuid-1", ChannelID := "ch-1", GuildID := "g1", ClientID := "c1", CuistotID := "k1" }

/-- The interleaving `StartTracking`, `StopTracking`, `StartTracking` on one
uuid, followed by the deferred clean-up of the first worker, which was
stopped but had not yet returned when the second one was started. -/
def staleExitTrace : List Op :=
  [Op.start sampleIdentity, Op.stop "uuid-1", Op.start sampleIdentity,
    Op.exit { id := sampleIdentity, token := 0 }]

/-- The response whose only order is `order`. -/
def responseOf (order : Order) : Response := { Data := { Orders := [order] } }

/-- The JSON text `{"data":{"orders":[{"orderInfo":{"orderPhase":"FAILED"}}]}}`. -/
def failedJSON : String :=
  "\x7b\"data\":\x7b\"orders\":[\x7b\"orderInfo\":\x7b\"orderPhase\":\"FAILED\"\x7d\x7d]\x7d\x7d"

/-- The JSON text `{"data":{"orders":[{"orderInfo":{"orderPhase":"COMPLETED"}}]}}`. -/
def completedJSON : String :=
  "\x7b\"data\":\x7b\"orders\":[\x7b\"orderInfo\":\x7b\"orderPhase\":\"COMPLETED\"\x7d\x7d]\x7d\x7d"

/-- An order in the given phase with no feed card and no background feed
card. -/
def phaseOrder (phase : String) : Order :=
  { Order.zero with OrderStatus := { OrderPhase := phase } }

/-- A stand-in for `json.Unmarshal` in the examples of the worker: it decodes
`activeJSON`, `failedJSON` and `completedJSON` and rejects every other text. -/
def workerUnmarshal (s : String) : Option Response :=
  if s = activeJSON then some (responseOf (phaseOrder "ACTIVE"))
  else if s = failedJSON then some (responseOf (phaseOrder "FAILED"))
  else if s = completedJSON then some (responseOf (phaseOrder "COMPLETED"))
  else none

/-- A store that holds no snapshot and accepts every write. -/
def emptyStore : OrderStore :=
  { GetSnapshot := fun _ => { status := "", progress := 0, text := "", rawJSON := "", err := false } }

/-- A store that holds no snapshot and whose `SaveOrder` fails. -/
def readOnlyStore : OrderStore :=
  { GetSnapshot := fun _ => { status := "", progress := 0, text := "", rawJSON := "", err := false }
    SaveOrder := fun _ => some "database is locked" }

/-- The surroundings of a scan whose fetch returns `body`, with the store
`store`, at time 1, the context being cancelled or not. -/
def scanEnvOf (body : Option String) (store : OrderStore) (ctxDone : Bool) : ScanEnv :=
  { fetchFn := fun _ => body, store := store, now := 1, ctxDone := ctxDone }

/-- A turn of the polling loop with no jitter and no cancellation during the
sleep, around the scan `env`. -/
def turnOf (env : ScanEnv) : LoopEnv :=
  { jitter := 0, ctxDoneInSleep := false, scanEnv := env, storeAfter := env.store }

/-- A reconcile result in phase `ACTIVE` at progress 2. -/
def sampleResult : ReconcileResult :=
  { FinalJSON := activeJSON, Phase := "ACTIVE", Progress := 2, Text := "En préparation",
    Eta := -1, ShouldEmit := true }

/-- A failed scan: the fetch returns an error, the bytes do not decode, or
the decoded response has no order. -/
def fetchFails (unmarshal : String → Option Response) (id : OrderIdentity)
    (env : ScanEnv) : Bool :=
  match fetchAndParse unmarshal env.fetchFn id.UUID with
  | Except.error _ => true
  | Except.ok _ => false

/-- The number of consecutive failed scans at the end of a sequence of scans,
that is, since the last successful fetch. -/
def trailingFailures (unmarshal : String → Option Response) (id : OrderIdentity)
    (envs : List ScanEnv) : Nat :=
  (envs.reverse.takeWhile (fetchFails unmarshal id)).length

/-- The counter obtained from `failCount` by adding one for a failed scan and
going back to 0 for a successful fetch, along a sequence of scans. -/
def failCountAfter (unmarshal : String → Option Response) (id : OrderIdentity) :
    Int → List ScanEnv → Int
  | failCount, [] => failCount
  | failCount, env :: rest =>
    failCountAfter unmarshal id (if fetchFails unmarshal id env then failCount + 1 else 0) rest

/-- Surroundings in which the fetch of every scan fails and the context is
never cancelled. -/
def alwaysFailing (unmarshal : String → Option Response) (id : OrderIdentity)
    (turns : List LoopEnv) : Prop :=
  ∀ t ∈ turns, fetchFails unmarshal id t.scanEnv = true ∧ t.ctxDoneInSleep = false ∧
    t.scanEnv.ctxDone = false

/-- Nine turns of the polling loop in each of which the fetch returns an
error, with a context that is never cancelled. -/
def nineFailingTurns : List LoopEnv :=
  List.replicate 9 (turnOf (scanEnvOf none emptyStore false))

/-- The order that `Reconcile` serialises and reads its result from: the
merged order with the background feed cards of the incoming order when it has
some (lines 83 to 88). -/
def reconciledOrder (toLower : String → String) (unmarshal : String → Option Response)
    (snap : Snapshot) (newOrder : Order) : Order :=
  let prior := priorOrder unmarshal snap newOrder
  let merged := MergeOrderData toLower prior.1 newOrder prior.2
  if newOrder.BackgroundFeedCards.length > 0 then
    { merged.1 with BackgroundFeedCards := newOrder.BackgroundFeedCards }
  else merged.1

/-- The status of the first feed card of an order, if there is one. -/
def firstStatus (o : Order) : Option StatusInfo :=
  match o.FeedCards with
  | first :: _ => first.Status
  | [] => none

/-- The `current_progress` of a status, 0 when there is none. -/
def progressOf (status : Option StatusInfo) : Int :=
  match status with
  | some s => s.CurrentProgress
  | none => 0

/-- The `status_summary.text` of a status, empty when there is none. -/
def textOf (status : Option StatusInfo) : String :=
  match status with
  | some s => s.StatusSummary.Text
  | none => ""

/-- An order in phase `ACTIVE` whose only background feed card has a `LABEL`
entity of title 12. -/
def labelOrder : Order :=
  { phaseOrder "ACTIVE" with
    BackgroundFeedCards :=
      [{ Typ := "", MapEntity := [{ UUID := "", Typ := "LABEL", Title := "12", Subtitle := [] }] }] }

/-- The JSON text that `json.Unmarshal` decodes to `responseOf labelOrder`:
```
{"data":{"orders":[{"backgroundFeedCards":[{"mapEntity":[{"type":"LABEL","title":"12"}]}],"orderInfo":{"orderPhase":"ACTIVE"}}]}}
```
-/
def labelJSON : String :=
  "\x7b\"data\":\x7b\"orders\":[\x7b\"backgroundFeedCards\":[\x7b\"mapEntity\":[\x7b\"type\":\"LABEL\",\"title\":\"12\"\x7d]\x7d],\"orderInfo\":\x7b\"orderPhase\":\"ACTIVE\"\x7d\x7d]\x7d\x7d"

/-- The order of `NewTestOrder().WithPhase("ACTIVE").Build()`. -/
def preparingOrder : Order :=
  { sampleOrder with OrderStatus := { OrderPhase := "ACTIVE" } }

/-- The JSON text that `json.Unmarshal` decodes to `responseOf preparingOrder`:
```
{"data":{"orders":[{"activeOrderOverview":{"title":"Test Restaurant"},"feedCards":[{"status":{"title":"En préparation","currentProgress":2,"totalProgressSegments":5}}],"orderInfo":{"orderPhase":"ACTIVE"}}]}}
```
-/
def preparingJSON : String :=
  "\x7b\"data\":\x7b\"orders\":[\x7b\"activeOrderOverview\":\x7b\"title\":\"Test Restaurant\"\x7d,\"feedCards\":[\x7b\"status\":\x7b\"title\":\"En préparation\",\"currentProgress\":2,\"totalProgressSegments\":5\x7d\x7d],\"orderInfo\":\x7b\"orderPhase\":\"ACTIVE\"\x7d\x7d]\x7d\x7d"

/-- The order stored after a disguised cancellation: `cancelledOrder` with
the phase `CANCELLED`. -/
def storedCancelledOrder : Order :=
  { cancelledOrder with OrderStatus := { OrderPhase := "CANCELLED" } }

/-- The JSON text that `json.Unmarshal` decodes to
`responseOf storedCancelledOrder`:
```
{"data":{"orders":[{"activeOrderOverview":{"title":"Test Restaurant"},"feedCards":[{"status":{"title":"En préparation","currentProgress":2,"totalProgressSegments":5},"callToAction":{"title":"Commande annulée"}}],"orderInfo":{"orderPhase":"CANCELLED"}}]}}
```
-/
def storedCancelledJSON : String :=
  "\x7b\"data\":\x7b\"orders\":[\x7b\"activeOrderOverview\":\x7b\"title\":\"Test Restaurant\"\x7d,\"feedCards\":[\x7b\"status\":\x7b\"title\":\"En préparation\",\"currentProgress\":2,\"totalProgressSegments\":5\x7d,\"callToAction\":\x7b\"title\":\"Commande annulée\"\x7d\x7d],\"orderInfo\":\x7b\"orderPhase\":\"CANCELLED\"\x7d\x7d]\x7d\x7d"

/-- A stand-in for `json.Unmarshal` in the examples of the reconciler: it
decodes `activeJSON`, `labelJSON`, `preparingJSON` and `storedCancelledJSON`
and rejects every other text, the empty one included. -/
def storedUnmarshal (s : String) : Option Response :=
  if s = activeJSON then some activeResponse
  else if s = labelJSON then some (responseOf labelOrder)
  else if s = preparingJSON then some (responseOf preparingOrder)
  else if s = storedCancelledJSON then some (responseOf storedCancelledOrder)
  else none

/-- A store whose `GetSnapshot` returns the given snapshot without error. -/
def storeWith (status : String) (progress : Int) (text rawJSON : String) : OrderStore :=
  { GetSnapshot := fun _ =>
      { status := status, progress := progress, text := text, rawJSON := rawJSON, err := false } }

/-- Card `b` is card `a` up to a total, a delivery address or a `courier[0]`
PIN filled in where `a` had none: the type, the status, the call to action
and the couriers after the first are those of `a`, and no non-empty total,
address or `courier[0]` PIN of `a` is changed. -/
def filledFrom (a b : FeedCard) : Prop :=
  b.Typ = a.Typ ∧ b.Status = a.Status ∧ b.CallToAction = a.CallToAction ∧
  b.Courier.tail = a.Courier.tail ∧
  (a.OrderSummary.Total ≠ "" → b.OrderSummary = a.OrderSummary) ∧
  (∀ d, a.Delivery = some d → d.Address ≠ "" → b.Delivery = some d) ∧
  (∀ c, a.Courier.head? = some c → c.PinInfo.Pin ≠ "" → b.Courier.head? = some c)

/-- A master order with one contact, as in
`TestMergeOrderData_PreservesContactInfo`. -/
def contactOrder : Order :=
  { sampleOrder with Contacts := [{ Title := "Jean", FormattedPhoneNumber := "" }] }

/-- The snapshot returned for a uuid the store does not hold: the empty
tuple and no error. -/
def emptySnapshot : Snapshot :=
  { status := "", progress := 0, text := "", rawJSON := "", err := false }

/-- A turn of the polling loop whose scan fetches `activeJSON` and after
which the store holds the snapshot `(ACTIVE, 0, "", activeJSON)`, an order
without any `LABEL`. -/
def activeTurn : LoopEnv :=
  { jitter := 0, ctxDoneInSleep := false,
    scanEnv := scanEnvOf (some activeJSON) emptyStore false,
    storeAfter := storeWith "ACTIVE" 0 "" activeJSON }

/-- The distinct uuids of `orders` that are not keys of the registry of `m`. -/
def freshUUIDs (m : Manager) (orders : List ResumableOrder) : Finset String :=
  (orders.map (fun o => o.UUID)).toFinset.filter (fun u => m.activeOrders u = none)

/-- The two resumable orders of `TestManager_ResumeActiveOrders`. -/
def resumableOrders : List ResumableOrder :=
  [{ UUID := "uuid-1", ChannelID := "ch-1", GuildID := "g1", ClientID := "c1", CuistotID := "k1" },
   { UUID := "uuid-2", ChannelID := "ch-2", GuildID := "g1", ClientID := "c2", CuistotID := "k2" }]

/-- Every entry of the registry belongs to a running worker of the same
uuid and context. -/
def registryBacked (m : Manager) : Prop :=
  ∀ u t, m.activeOrders u = some t → ∃ w ∈ m.workers, w.id.UUID = u ∧ w.token = t

/-- The worker that `StartTracking` spawns for the first of `resumableOrders`
on a new manager. -/
def firstResumed : Worker :=
  { id := sampleIdentity, token := 0 }

/-- The calls of `staleExitTrace`, followed by `Shutdown`. -/
def orphanCalls : List Call :=
  [Call.start sampleIdentity, Call.stop "uuid-1", Call.start sampleIdentity,
    Call.exit { id := sampleIdentity, token := 0 }, Call.shutdown]

/-! ## The merge with its index and pointer operations checked

`MergeOrderData` and the functions it calls, once more, with every slice
index `s[i]` and every read or write through a pointer written as an
operation that panics when the index is out of range or the pointer is nil,
guarded by the tests the Go code makes before it. A `range` loop gives the
elements of the slice and cannot leave it. -/

/-- Sequencing: what follows a panic or an error does not run. -/
def Outcome.andThen {α β : Type} (x : Outcome α) (f : α → Outcome β) : Outcome β :=
  match x with
  | Outcome.ok a => f a
  | Outcome.error msg => Outcome.error msg
  | Outcome.panic => Outcome.panic

/-- The read `s[i]`. -/
def indexAt {α : Type} (s : List α) (i : Nat) : Outcome α :=
  match s.get? i with
  | some x => Outcome.ok x
  | none => Outcome.panic

/-- The write `s[i] = v`. -/
def setAt {α : Type} (s : List α) (i : Nat) (v : α) : Outcome (List α) :=
  if i < s.length then Outcome.ok (s.set i v) else Outcome.panic

/-- The access `p.f` through a pointer `p`. -/
def deref {α : Type} (p : Option α) : Outcome α :=
  match p with
  | some x => Outcome.ok x
  | none => Outcome.panic

/-- One iteration of the loop of `extractPreservedInfo`:
`card.Delivery != nil && card.Delivery.Address != ""` reads through
`card.Delivery` only after the nil test. -/
def extractCardChecked (p : preservedInfo) (card : FeedCard) : Outcome preservedInfo :=
  let total := if card.OrderSummary.Total ≠ "" then card.OrderSummary.Total else p.total
  (if card.Delivery.isSome then
      (deref card.Delivery).andThen fun d =>
        Outcome.ok (if d.Address ≠ "" then d.Address else p.address)
    else Outcome.ok p.address).andThen fun address =>
  Outcome.ok { total := total, address := address, pin := extractPin p.pin card.Courier }

def extractPreservedInfoChecked (o : Order) : Outcome preservedInfo :=
  o.FeedCards.foldl (fun acc card => acc.andThen fun p => extractCardChecked p card)
    (Outcome.ok { total := "", address := "", pin := "" })

/-- The loop of `detectPhase`: `card.CallToAction != nil && ...` reads the
title only after the nil test; `true` is the early `return "CANCELLED"`. -/
def annulChecked (toLower : String → String) : List FeedCard → Outcome Bool
  | [] => Outcome.ok false
  | card :: rest =>
    (if card.CallToAction.isSome then
        (deref card.CallToAction).andThen fun cta =>
          Outcome.ok (stringsContains (toLower cta.Title) "annul")
      else Outcome.ok false).andThen fun hit =>
    if hit then Outcome.ok true else annulChecked toLower rest

def detectPhaseChecked (toLower : String → String) (newOrder : Order) : Outcome String :=
  let phase := newOrder.OrderStatus.OrderPhase
  if phase = phaseCompleted then
    (annulChecked toLower newOrder.FeedCards).andThen fun hit =>
      Outcome.ok (if hit then "CANCELLED" else phase)
  else Outcome.ok phase

/-- The loop `for i, card := range masterOrder.FeedCards` of step 4, at
index `i` with `cards` still to visit: when `card.Status != nil` the
assignments go through `masterOrder.FeedCards[i].Status`. -/
def markCompletedChecked (all : List FeedCard) : List FeedCard → Nat → Outcome (List FeedCard)
  | [], _ => Outcome.ok all
  | card :: rest, i =>
    if card.Status.isSome then
      (indexAt all i).andThen fun fc =>
      (deref fc.Status).andThen fun s =>
      setAt all i { fc with Status := some (completedStatus s) }
    else markCompletedChecked all rest (i + 1)

/-- `restorePreservedInfo`, with `fc := &o.FeedCards[0]` read after the
length test, modified and written back. -/
def restorePreservedInfoChecked (o : Order) (p : preservedInfo) : Outcome Order :=
  if o.FeedCards.length = 0 then Outcome.ok o
  else
    (indexAt o.FeedCards 0).andThen fun fc =>
    let fc1 : FeedCard :=
      if fc.OrderSummary.Total = "" ∧ p.total ≠ "" then
        { fc with OrderSummary := { fc.OrderSummary with Total := p.total } }
      else fc
    (if p.address ≠ "" then
        let fcd : FeedCard :=
          if fc1.Delivery.isNone then { fc1 with Delivery := some { Address := "" } } else fc1
        (deref fcd.Delivery).andThen fun d =>
          if d.Address = "" then
            Outcome.ok { fcd with Delivery := some { d with Address := p.address } }
          else Outcome.ok fcd
      else Outcome.ok fc1).andThen fun fc2 =>
    (if p.pin ≠ "" then
        let fcc : FeedCard :=
          if fc2.Courier.length = 0 then { fc2 with Courier := [{ PinInfo := { Pin := "" } }] }
          else fc2
        (indexAt fcc.Courier 0).andThen fun c =>
          if c.PinInfo.Pin = "" then
            (setAt fcc.Courier 0 { c with PinInfo := { c.PinInfo with Pin := p.pin } }).andThen
              fun cs => Outcome.ok { fcc with Courier := cs }
          else Outcome.ok fcc
      else Outcome.ok fc2).andThen fun fc3 =>
    (setAt o.FeedCards 0 fc3).andThen fun cards => Outcome.ok { o with FeedCards := cards }

/-- `MergeOrderData` over the checked operations;
`len(newOrder.FeedCards) > 0 && newOrder.FeedCards[0].Status != nil` reads
the first card only after the length test. -/
def MergeOrderDataChecked (toLower : String → String) (masterOrder newOrder : Order)
    (hasOldData : Bool) : Outcome (Order × String) :=
  (if hasOldData then extractPreservedInfoChecked masterOrder
    else Outcome.ok { total := "", address := "", pin := "" }).andThen fun kept0 =>
  (extractPreservedInfoChecked newOrder).andThen fun fresh =>
  let kept : preservedInfo :=
    { total := if fresh.total ≠ "" then fresh.total else kept0.total
      address := if fresh.address ≠ "" then fresh.address else kept0.address
      pin := if fresh.pin ≠ "" then fresh.pin else kept0.pin }
  let m1 : Order :=
    if newOrder.ActiveOrderOverview.Title ≠ "" then
      { masterOrder with ActiveOrderOverview := newOrder.ActiveOrderOverview }
    else masterOrder
  let m2 : Order :=
    if newOrder.Contacts.length > 0 then { m1 with Contacts := newOrder.Contacts } else m1
  (detectPhaseChecked toLower newOrder).andThen fun newPhase =>
  (if newPhase = phaseCompleted then
      (markCompletedChecked m2.FeedCards m2.FeedCards 0).andThen fun cards =>
        Outcome.ok { m2 with FeedCards := cards }
    else if newOrder.FeedCards.length > 0 then
      (indexAt newOrder.FeedCards 0).andThen fun first =>
        Outcome.ok (if first.Status.isSome then { m2 with FeedCards := newOrder.FeedCards }
          else m2)
    else Outcome.ok m2).andThen fun m3 =>
  let m4 : Order := { m3 with OrderStatus := { m3.OrderStatus with OrderPhase := newPhase } }
  (restorePreservedInfoChecked m4 kept).andThen fun merged => Outcome.ok (merged, newPhase)

/-- An order without feed cards, as in `TestMergeOrderData_EmptyFeedCards_NoPanic`. -/
def noCardsOrder : Order := { Order.zero with FeedCards := [] }

/-- The feed cards after `restorePreservedInfo`: the first card, if there is
one, is restored. -/
def restoreFirst (cards : List FeedCard) (p : preservedInfo) : List FeedCard :=
  match cards with
  | [] => []
  | fc :: rest => restoreCard fc p :: rest

/-- Step 4 of `MergeOrderData` takes the feed cards of the incoming order:
the effective phase is not `COMPLETED` and the first feed card of the
incoming order has a status (lines 147 to 150). -/
def cardsReplaced (toLower : String → String) (incoming : Order) : Prop :=
  detectPhase toLower incoming ≠ phaseCompleted ∧ (firstStatus incoming).isSome = true

/-! ## Properties -/

/-! ### Schedule policy -/

theorem wrapInt64_of_fits (x : Int) (h1 : -9223372036854775808 ≤ x)
    (h2 : x ≤ 9223372036854775807) : wrapInt64 x = x := by
  unfold wrapInt64
  omega

/-- The backoff `30 + noChangeCount*10`, computed on `int`, is the exact
value reduced once. -/
theorem wrapInt64_backoff (n : Int) :
    wrapInt64 (30 + wrapInt64 (n * 10)) = wrapInt64 (30 + 10 * n) := by
  unfold wrapInt64
  omega

theorem adaptiveInterval_backoff (eta n : Int) (h1 : ¬ (eta ≥ 0 ∧ eta ≤ 5))
    (h2 : ¬ (eta > 5 ∧ eta ≤ 15)) :
    AdaptiveInterval eta n = min (wrapInt64 (30 + 10 * n)) 120 := by
  unfold AdaptiveInterval
  rw [if_neg h1, if_neg h2, wrapInt64_backoff]
  simp only []
  by_cases h3 : wrapInt64 (30 + 10 * n) > 120
  · rw [if_pos h3]; omega
  · rw [if_neg h3]; omega

/-- C8, as stated, fails: with an unknown ETA and `n = 922337203685477581`
the product `n * 10` does not fit in 64 bits, the backoff computed on `int`
is negative and the interval is `-9223372036854775776`, not
`min (30 + 10 * n) 120 = 120`. -/
theorem adaptiveInterval_backoff_overflows :
    (-1 : Int) ≤ 15 ∧
    AdaptiveInterval (-1) 922337203685477581 = -9223372036854775776 ∧
    min (30 + 10 * (922337203685477581 : Int)) 120 = 120 ∧
    AdaptiveInterval (-1) 922337203685477581 ≠ min (30 + 10 * (922337203685477581 : Int)) 120 := by
  decide

/-- C8, amended: for every `noChangeCount` and every `eta ≤ 15`,
`AdaptiveInterval` follows the schedule table: 15 when `0 ≤ eta ≤ 5`, 25 when
`6 ≤ eta ≤ 15`, and `min w 120` when `eta < 0`, where `w` is `30 + 10 * n`
reduced to two's complement on 64 bits; `w` is `30 + 10 * n` itself whenever
this value is between `-2^63` and `2^63 - 1`. -/
theorem adaptiveInterval_table (eta n : Int) (h : eta ≤ 15) :
    (AdaptiveInterval eta n =
      if 0 ≤ eta ∧ eta ≤ 5 then 15
      else if 6 ≤ eta ∧ eta ≤ 15 then 25
      else min (wrapInt64 (30 + 10 * n)) 120) ∧
    (-9223372036854775808 ≤ 30 + 10 * n → 30 + 10 * n ≤ 9223372036854775807 →
      AdaptiveInterval eta n =
        if 0 ≤ eta ∧ eta ≤ 5 then 15
        else if 6 ≤ eta ∧ eta ≤ 15 then 25
        else min (30 + 10 * n) 120) := by
  have hmain : AdaptiveInterval eta n =
      if 0 ≤ eta ∧ eta ≤ 5 then 15
      else if 6 ≤ eta ∧ eta ≤ 15 then 25
      else min (wrapInt64 (30 + 10 * n)) 120 := by
    by_cases h1 : 0 ≤ eta ∧ eta ≤ 5
    · have h1' : eta ≥ 0 ∧ eta ≤ 5 := h1
      unfold AdaptiveInterval
      rw [if_pos h1', if_pos h1]
    · have h1' : ¬ (eta ≥ 0 ∧ eta ≤ 5) := h1
      by_cases h2 : 6 ≤ eta ∧ eta ≤ 15
      · have h2' : eta > 5 ∧ eta ≤ 15 := ⟨by omega, h2.2⟩
        unfold AdaptiveInterval
        rw [if_neg h1', if_pos h2', if_neg h1, if_pos h2]
      · have h2' : ¬ (eta > 5 ∧ eta ≤ 15) := fun hc => h2 ⟨by omega, hc.2⟩
        rw [if_neg h1, if_neg h2]
        exact adaptiveInterval_backoff eta n h1' h2'
  refine ⟨hmain, fun hlo hhi => ?_⟩
  rw [hmain, wrapInt64_of_fits _ hlo hhi]

/-- Witness of the amended C8 at `eta = -1`, `n = 5` (the backoff row, 80
seconds). -/
theorem adaptiveInterval_table_witness :
    (-1 : Int) ≤ 15 ∧
      AdaptiveInterval (-1) 5 =
        (if 0 ≤ (-1 : Int) ∧ (-1 : Int) ≤ 5 then 15
        else if 6 ≤ (-1 : Int) ∧ (-1 : Int) ≤ 15 then 25
        else min (30 + 10 * 5) 120) ∧
      AdaptiveInterval (-1) 5 = 80 :=
  ⟨by decide, (adaptiveInterval_table (-1) 5 (by decide)).2 (by decide) (by decide),
    by decide⟩

/-- C9, as stated, fails: with `eta = 16` and one cycle without change the
interval is 40 seconds, not 30; with `n = 9223372036854775807` the backoff
computed on `int` is 20. -/
theorem adaptiveInterval_far_not_constant :
    (16 : Int) ≥ 16 ∧ AdaptiveInterval 16 1 = 40 ∧ AdaptiveInterval 16 1 ≠ 30 ∧
    AdaptiveInterval 16 9223372036854775807 = 20 := by
  decide

/-- C9, amended: for every `eta ≥ 16` and every `noChangeCount`,
`AdaptiveInterval` is `min w 120`, the same backoff as for an unknown ETA,
where `w` is `30 + 10 * n` reduced to two's complement on 64 bits; `w` is
`30 + 10 * n` itself whenever this value is between `-2^63` and `2^63 - 1`;
the interval is 30 when `n = 0`. -/
theorem adaptiveInterval_far (eta n : Int) (h : 16 ≤ eta) :
    AdaptiveInterval eta n = min (wrapInt64 (30 + 10 * n)) 120 ∧
    (-9223372036854775808 ≤ 30 + 10 * n → 30 + 10 * n ≤ 9223372036854775807 →
      AdaptiveInterval eta n = min (30 + 10 * n) 120) ∧
    AdaptiveInterval eta 0 = 30 := by
  have h1 : ¬ (eta ≥ 0 ∧ eta ≤ 5) := fun hc => by omega
  have h2 : ¬ (eta > 5 ∧ eta ≤ 15) := fun hc => by omega
  refine ⟨adaptiveInterval_backoff eta n h1 h2, fun hlo hhi => ?_, ?_⟩
  · rw [adaptiveInterval_backoff eta n h1 h2, wrapInt64_of_fits _ hlo hhi]
  · rw [adaptiveInterval_backoff eta 0 h1 h2]
    decide

/-- Witness of the amended C9 at `eta = 20`, `n = 3`. -/
theorem adaptiveInterval_far_witness :
    (16 : Int) ≤ 20 ∧ AdaptiveInterval 20 3 = min (30 + 10 * 3) 120 ∧
      AdaptiveInterval 20 0 = 30 :=
  ⟨by decide, (adaptiveInterval_far 20 3 (by decide)).2.1 (by decide) (by decide),
    (adaptiveInterval_far 20 3 (by decide)).2.2⟩

/-! ### Phase detection -/

theorem detectPhase_any (toLower : String → String) (o : Order) :
    (o.FeedCards.any (fun card =>
        match card.CallToAction with
        | some cta => stringsContains (toLower cta.Title) "annul"
        | none => false) = true) ↔ hasAnnulCallToAction toLower o := by
  unfold hasAnnulCallToAction
  rw [List.any_eq_true]
  constructor
  · rintro ⟨card, hmem, hc⟩
    cases hcta : card.CallToAction with
    | none => rw [hcta] at hc; exact absurd hc (by simp)
    | some cta => rw [hcta] at hc; exact ⟨card, hmem, cta, hcta, hc⟩
  · rintro ⟨card, hmem, cta, hcta, hc⟩
    refine ⟨card, hmem, ?_⟩
    rw [hcta]; exact hc

theorem mergeOrderData_snd (toLower : String → String) (master incoming : Order)
    (hasOldData : Bool) :
    (MergeOrderData toLower master incoming hasOldData).2 = detectPhase toLower incoming := rfl

/-- C5: for every master, incoming and `hasOldData`, the phase returned by
`MergeOrderData` is `CANCELLED` when incoming's phase is `COMPLETED` and some
incoming feed card has a call to action whose lower-cased title contains
`annul`, and is incoming's phase unchanged otherwise. -/
theorem mergeOrderData_phase (toLower : String → String) (master incoming : Order)
    (hasOldData : Bool) :
    (incoming.OrderStatus.OrderPhase = "COMPLETED" ∧ hasAnnulCallToAction toLower incoming →
      (MergeOrderData toLower master incoming hasOldData).2 = "CANCELLED") ∧
    (¬ (incoming.OrderStatus.OrderPhase = "COMPLETED" ∧ hasAnnulCallToAction toLower incoming) →
      (MergeOrderData toLower master incoming hasOldData).2 = incoming.OrderStatus.OrderPhase) := by
  rw [mergeOrderData_snd]
  unfold detectPhase
  simp only [phaseCompleted]
  constructor
  · rintro ⟨hp, ha⟩
    rw [if_pos hp, if_pos ((detectPhase_any toLower incoming).mpr ha)]
  · intro hn
    by_cases hp : incoming.OrderStatus.OrderPhase = "COMPLETED"
    · have ha : ¬ hasAnnulCallToAction toLower incoming := fun ha => hn ⟨hp, ha⟩
      rw [if_pos hp, if_neg (fun hc => ha ((detectPhase_any toLower incoming).mp hc))]
    · rw [if_neg hp]

/-! ### ETA extraction -/

theorem scanEntities_find (es : List MapEntity) :
    scanEntities es =
      match es.find? isEtaLabel with
      | some e => strconvAtoi (stringsTrimSpace e.Title)
      | none => none := by
  induction es with
  | nil => rfl
  | cons e rest ih =>
    unfold scanEntities
    by_cases ht : e.Typ = "LABEL"
    · rw [if_pos ht]
      cases hp : strconvAtoi (stringsTrimSpace e.Title) with
      | none =>
        have hq : isEtaLabel e = false := by simp [isEtaLabel, hp]
        simp only [List.find?_cons, hq]
        exact ih
      | some v =>
        have hq : isEtaLabel e = true := by simp [isEtaLabel, hp, ht]
        simp only [List.find?_cons, hq, hp]
    · rw [if_neg ht]
      have hq : isEtaLabel e = false := by simp [isEtaLabel, ht]
      simp only [List.find?_cons, hq]
      exact ih

theorem scanEntities_some_of_find (es : List MapEntity) (e : MapEntity)
    (h : es.find? isEtaLabel = some e) :
    ∃ v, strconvAtoi (stringsTrimSpace e.Title) = some v := by
  have hq : isEtaLabel e = true := List.find?_some h
  unfold isEtaLabel at hq
  rw [Bool.and_eq_true] at hq
  exact Option.isSome_iff_exists.mp hq.2

theorem scanCards_find (cards : List BackgroundFeedCard) :
    scanCards cards =
      match ((cards.map (fun card => card.MapEntity)).flatten).find? isEtaLabel with
      | some e => strconvAtoi (stringsTrimSpace e.Title)
      | none => none := by
  induction cards with
  | nil => rfl
  | cons card rest ih =>
    unfold scanCards
    rw [List.map_cons, List.flatten_cons, List.find?_append, scanEntities_find]
    cases hf : card.MapEntity.find? isEtaLabel with
    | none =>
      simp only [Option.or]
      exact ih
    | some e =>
      obtain ⟨v, hv⟩ := scanEntities_some_of_find _ e hf
      simp only [Option.or, hv]

/-- C7: `ExtractETAFromOrder` returns the integer parsed from the first
entity, in document order, whose type is `LABEL` and whose trimmed title
parses as a base-10 signed integer; it returns -1 when no entity qualifies.
A title `0` yields 0 and a title of 5 between blanks yields 5. -/
theorem extractETA_first_label (order : Order) :
    (∀ e, (mapEntities order).find? isEtaLabel = some e →
      strconvAtoi (stringsTrimSpace e.Title) = some (ExtractETAFromOrder order)) ∧
    ((mapEntities order).find? isEtaLabel = none → ExtractETAFromOrder order = -1) ∧
    strconvAtoi (stringsTrimSpace "0") = some 0 ∧
    strconvAtoi (stringsTrimSpace "  5  ") = some 5 := by
  refine ⟨?_, ?_, by decide, by decide⟩
  · intro e he
    obtain ⟨v, hv⟩ := scanEntities_some_of_find _ e he
    unfold ExtractETAFromOrder
    unfold mapEntities at he
    rw [scanCards_find, he]
    simp only [hv]
  · intro hn
    unfold ExtractETAFromOrder
    unfold mapEntities at hn
    rw [scanCards_find, hn]

/-! ### Preserved fields -/

theorem lastNonEmptyD_cons (d x : String) (l : List String) :
    lastNonEmptyD d (x :: l) = lastNonEmptyD (if x ≠ "" then x else d) l := by
  unfold lastNonEmptyD
  by_cases hx : x = ""
  · simp [hx]
  · simp only [List.filter_cons, hx, ne_eq, not_false_eq_true, decide_True, if_true,
      List.getLast?_cons]
    cases (List.filter (fun x => decide (x ≠ "")) l).getLast? <;> rfl

theorem lastNonEmptyD_append (d : String) (l₁ l₂ : List String) :
    lastNonEmptyD d (l₁ ++ l₂) = lastNonEmptyD (lastNonEmptyD d l₁) l₂ := by
  induction l₁ generalizing d with
  | nil => rfl
  | cons x l ih => rw [List.cons_append, lastNonEmptyD_cons, lastNonEmptyD_cons, ih]

theorem extractPin_eq (pin : String) (cs : List CourierInfo) :
    extractPin pin cs = lastNonEmptyD pin (cs.map (fun c => c.PinInfo.Pin)) := by
  induction cs generalizing pin with
  | nil => rfl
  | cons c rest ih => rw [extractPin, ih, List.map_cons, lastNonEmptyD_cons]

theorem foldl_extractCard (p : preservedInfo) (cards : List FeedCard) :
    cards.foldl extractCard p =
      { total := lastNonEmptyD p.total (cards.map (fun card => card.OrderSummary.Total))
        address := lastNonEmptyD p.address (cards.map (fun card =>
          match card.Delivery with
          | some d => d.Address
          | none => ""))
        pin := lastNonEmptyD p.pin
          ((cards.map (fun card => card.Courier.map (fun c => c.PinInfo.Pin))).flatten) } := by
  induction cards generalizing p with
  | nil => rfl
  | cons card rest ih =>
    rw [List.foldl_cons, ih]
    simp only [List.map_cons, List.flatten_cons, lastNonEmptyD_cons, lastNonEmptyD_append,
      extractCard, extractPin_eq]
    cases hd : card.Delivery with
    | none => simp
    | some d => simp

/-- `extractPreservedInfo` collects the last non-empty total, address and
PIN met when scanning the feed cards in order. -/
theorem extractPreservedInfo_eq (o : Order) :
    extractPreservedInfo o =
      { total := lastNonEmpty (cardTotals o)
        address := lastNonEmpty (cardAddresses o)
        pin := lastNonEmpty (cardPins o) } := by
  unfold extractPreservedInfo
  rw [foldl_extractCard]
  rfl

/-! ### Structure of the merged feed cards -/

theorem restorePreservedInfo_feedCards (o : Order) (p : preservedInfo) :
    (restorePreservedInfo o p).FeedCards =
      match o.FeedCards with
      | [] => []
      | fc :: rest => restoreCard fc p :: rest := by
  unfold restorePreservedInfo
  cases h : o.FeedCards with
  | nil => simp only [h]
  | cons fc rest => simp only []

theorem mergeOrderData_fst (toLower : String → String) (master incoming : Order)
    (hasOldData : Bool) :
    ∃ m : Order,
      (MergeOrderData toLower master incoming hasOldData).1 =
        restorePreservedInfo m (keptInfo master incoming hasOldData) ∧
      m.FeedCards = updatedCards toLower master incoming := by
  refine ⟨_, rfl, ?_⟩
  unfold updatedCards
  by_cases hp : detectPhase toLower incoming = phaseCompleted <;>
    by_cases h1 : incoming.ActiveOrderOverview.Title = "" <;>
    by_cases h2 : incoming.Contacts.length > 0 <;>
    cases hin : incoming.FeedCards with
    | nil => simp [hp, h1, h2]
    | cons first others =>
      by_cases hs : first.Status.isSome = true <;> simp [hp, h1, h2, hs]

theorem mergeOrderData_feedCards (toLower : String → String) (master incoming : Order)
    (hasOldData : Bool) :
    (MergeOrderData toLower master incoming hasOldData).1.FeedCards =
      match updatedCards toLower master incoming with
      | [] => []
      | fc :: rest => restoreCard fc (keptInfo master incoming hasOldData) :: rest := by
  obtain ⟨m, hm, hcards⟩ := mergeOrderData_fst toLower master incoming hasOldData
  rw [hm, restorePreservedInfo_feedCards, hcards]

theorem restoreCard_status (fc : FeedCard) (p : preservedInfo) :
    (restoreCard fc p).Status = fc.Status := by
  unfold restoreCard
  simp only []
  split_ifs <;> (try split) <;> (try split_ifs) <;> rfl

theorem restoreCard_total (fc : FeedCard) (p : preservedInfo) :
    (restoreCard fc p).OrderSummary.Total =
      if fc.OrderSummary.Total = "" then p.total else fc.OrderSummary.Total := by
  unfold restoreCard
  simp only []
  by_cases ht : fc.OrderSummary.Total = "" <;> by_cases hp : p.total = "" <;>
    split_ifs <;> (try split) <;> (try split_ifs) <;> simp_all

theorem restoreCard_delivery (fc : FeedCard) (p : preservedInfo) (h : p.address ≠ "") :
    (restoreCard fc p).Delivery =
      some (match fc.Delivery with
        | some d => if d.Address = "" then { d with Address := p.address } else d
        | none => { Address := p.address }) := by
  unfold restoreCard
  simp only []
  cases hd : fc.Delivery <;>
    split_ifs <;> (try split) <;> (try split_ifs) <;> simp_all

theorem restoreCard_courier (fc : FeedCard) (p : preservedInfo) (h : p.pin ≠ "") :
    (restoreCard fc p).Courier =
      match fc.Courier with
      | [] => [{ PinInfo := { Pin := p.pin } }]
      | c :: rest =>
        if c.PinInfo.Pin = "" then { c with PinInfo := { c.PinInfo with Pin := p.pin } } :: rest
        else c :: rest := by
  unfold restoreCard
  simp only []
  cases hc : fc.Courier <;>
    split_ifs <;> (try split) <;> (try split_ifs) <;> simp_all

theorem lastNonEmptyD_of_forall_empty (d : String) (l : List String)
    (h : ∀ x ∈ l, x = "") : lastNonEmptyD d l = d := by
  induction l with
  | nil => rfl
  | cons x l ih =>
    rw [lastNonEmptyD_cons, if_neg (by simp [h x (List.mem_cons_self x l)])]
    exact ih (fun y hy => h y (List.mem_cons_of_mem x hy))

theorem lastNonEmptyD_ne_empty (d : String) (l : List String)
    (h : d ≠ "" ∨ ∃ x ∈ l, x ≠ "") : lastNonEmptyD d l ≠ "" := by
  induction l generalizing d with
  | nil =>
    rcases h with h | ⟨x, hx, _⟩
    · exact h
    · exact absurd hx (List.not_mem_nil x)
  | cons y l ih =>
    rw [lastNonEmptyD_cons]
    apply ih
    by_cases hy : y = ""
    · rcases h with h | ⟨x, hx, hne⟩
      · left; rw [if_neg (by simp [hy])]; exact h
      · rcases List.mem_cons.mp hx with rfl | hx
        · exact absurd hy hne
        · right; exact ⟨x, hx, hne⟩
    · left; rw [if_pos hy]; exact hy

theorem markCompleted_head (fc : FeedCard) (rest : List FeedCard) :
    ∃ fc1 rest1, markCompleted (fc :: rest) = fc1 :: rest1 ∧
      fc1.OrderSummary = fc.OrderSummary ∧ fc1.Delivery = fc.Delivery ∧
      fc1.Courier = fc.Courier := by
  unfold markCompleted
  cases fc.Status with
  | none => exact ⟨_, _, rfl, rfl, rfl, rfl⟩
  | some s => exact ⟨_, _, rfl, rfl, rfl, rfl⟩

/-- The first card before restoration is incoming's first card, or agrees
with master's first card on total, delivery and courier. -/
theorem updatedCards_head (toLower : String → String) (master incoming : Order)
    (fc : FeedCard) (rest : List FeedCard) (hm : master.FeedCards = fc :: rest) :
    ∃ fc1 rest1, updatedCards toLower master incoming = fc1 :: rest1 ∧
      ((fc1.OrderSummary = fc.OrderSummary ∧ fc1.Delivery = fc.Delivery ∧
          fc1.Courier = fc.Courier) ∨
        incoming.FeedCards = fc1 :: rest1) := by
  unfold updatedCards
  by_cases hp : detectPhase toLower incoming = phaseCompleted
  · rw [if_pos hp, hm]
    obtain ⟨fc1, rest1, h1, h2⟩ := markCompleted_head fc rest
    exact ⟨fc1, rest1, h1, Or.inl h2⟩
  · rw [if_neg hp]
    cases hin : incoming.FeedCards with
    | nil => exact ⟨fc, rest, hm, Or.inl ⟨rfl, rfl, rfl⟩⟩
    | cons first others =>
      by_cases hs : first.Status.isSome = true
      · simp only [hs, if_true]
        exact ⟨first, others, rfl, Or.inr rfl⟩
      · simp only [hs]
        exact ⟨fc, rest, hm, Or.inl ⟨rfl, rfl, rfl⟩⟩

theorem keptInfo_total_ne (master incoming : Order)
    (h : ∃ x ∈ cardTotals master, x ≠ "") : (keptInfo master incoming true).total ≠ "" := by
  unfold keptInfo
  simp only [if_true]
  by_cases hf : (extractPreservedInfo incoming).total = ""
  · rw [if_neg (by simp [hf]), extractPreservedInfo_eq]
    exact lastNonEmptyD_ne_empty _ _ (Or.inr h)
  · rw [if_pos hf]; exact hf

theorem keptInfo_address_ne (master incoming : Order)
    (h : ∃ x ∈ cardAddresses master, x ≠ "") : (keptInfo master incoming true).address ≠ "" := by
  unfold keptInfo
  simp only [if_true]
  by_cases hf : (extractPreservedInfo incoming).address = ""
  · rw [if_neg (by simp [hf]), extractPreservedInfo_eq]
    exact lastNonEmptyD_ne_empty _ _ (Or.inr h)
  · rw [if_pos hf]; exact hf

theorem keptInfo_pin_ne (master incoming : Order)
    (h : ∃ x ∈ cardPins master, x ≠ "") : (keptInfo master incoming true).pin ≠ "" := by
  unfold keptInfo
  simp only [if_true]
  by_cases hf : (extractPreservedInfo incoming).pin = ""
  · rw [if_neg (by simp [hf]), extractPreservedInfo_eq]
    exact lastNonEmptyD_ne_empty _ _ (Or.inr h)
  · rw [if_pos hf]; exact hf

theorem restoreCard_total_ne (fc : FeedCard) (p : preservedInfo) (h : p.total ≠ "") :
    (restoreCard fc p).OrderSummary.Total ≠ "" := by
  rw [restoreCard_total]
  by_cases ht : fc.OrderSummary.Total = ""
  · rw [if_pos ht]; exact h
  · rw [if_neg ht]; exact ht

theorem restoreCard_address_ne (fc : FeedCard) (p : preservedInfo) (h : p.address ≠ "") :
    ∃ d, (restoreCard fc p).Delivery = some d ∧ d.Address ≠ "" := by
  refine ⟨_, restoreCard_delivery fc p h, ?_⟩
  cases fc.Delivery with
  | none => exact h
  | some d =>
    by_cases hd : d.Address = ""
    · simp only [hd, if_true]; exact h
    · simp only [hd, if_false]; exact hd

theorem restoreCard_pin_ne (fc : FeedCard) (p : preservedInfo) (h : p.pin ≠ "") :
    ∃ c cs, (restoreCard fc p).Courier = c :: cs ∧ c.PinInfo.Pin ≠ "" := by
  rw [restoreCard_courier fc p h]
  cases fc.Courier with
  | nil => exact ⟨_, _, rfl, h⟩
  | cons c cs =>
    by_cases hc : c.PinInfo.Pin = ""
    · simp only [hc, if_true]; exact ⟨_, _, rfl, h⟩
    · simp only [hc, if_false]; exact ⟨_, _, rfl, hc⟩

/-- The merged order has a first feed card as soon as master has one: it is
the restored first card of `updatedCards`. -/
theorem mergeOrderData_first (toLower : String → String) (master incoming : Order)
    (hasOldData : Bool) (fc : FeedCard) (rest : List FeedCard)
    (hm : master.FeedCards = fc :: rest) :
    ∃ fc1 rest1,
      (MergeOrderData toLower master incoming hasOldData).1.FeedCards =
        restoreCard fc1 (keptInfo master incoming hasOldData) :: rest1 ∧
      ((fc1.OrderSummary = fc.OrderSummary ∧ fc1.Delivery = fc.Delivery ∧
          fc1.Courier = fc.Courier) ∨
        incoming.FeedCards = fc1 :: rest1) := by
  obtain ⟨fc1, rest1, hu, hor⟩ := updatedCards_head toLower master incoming fc rest hm
  refine ⟨fc1, rest1, ?_, hor⟩
  rw [mergeOrderData_feedCards, hu]

/-- C4: preserved fields are monotone across a merge with `hasOldData = true`:
if some feed card of master carries a non-empty total (respectively delivery
address, courier PIN), the merged order has a first feed card whose total
(respectively `delivery.formatted_address`, PIN of `courier[0]`) is non-empty. -/
theorem preserved_fields_monotone (toLower : String → String) (master incoming : Order) :
    ((∃ card ∈ master.FeedCards, card.OrderSummary.Total ≠ "") →
      ∃ t, firstTotal (MergeOrderData toLower master incoming true).1 = some t ∧ t ≠ "") ∧
    ((∃ card ∈ master.FeedCards, ∃ d, card.Delivery = some d ∧ d.Address ≠ "") →
      ∃ a, firstAddress (MergeOrderData toLower master incoming true).1 = some a ∧ a ≠ "") ∧
    ((∃ card ∈ master.FeedCards, ∃ c ∈ card.Courier, c.PinInfo.Pin ≠ "") →
      ∃ p, firstPin (MergeOrderData toLower master incoming true).1 = some p ∧ p ≠ "") := by
  refine ⟨?_, ?_, ?_⟩
  · rintro ⟨card, hmem, hne⟩
    have hk : (keptInfo master incoming true).total ≠ "" :=
      keptInfo_total_ne master incoming
        ⟨card.OrderSummary.Total, List.mem_map.mpr ⟨card, hmem, rfl⟩, hne⟩
    obtain ⟨fc, rest, hm⟩ := List.exists_cons_of_ne_nil (List.ne_nil_of_mem hmem)
    obtain ⟨fc1, rest1, hmerged, -⟩ := mergeOrderData_first toLower master incoming true fc rest hm
    refine ⟨_, ?_, restoreCard_total_ne fc1 _ hk⟩
    unfold firstTotal
    rw [hmerged]; rfl
  · rintro ⟨card, hmem, d, hd, hne⟩
    have hk : (keptInfo master incoming true).address ≠ "" :=
      keptInfo_address_ne master incoming
        ⟨d.Address, List.mem_map.mpr ⟨card, hmem, by rw [hd]⟩, hne⟩
    obtain ⟨fc, rest, hm⟩ := List.exists_cons_of_ne_nil (List.ne_nil_of_mem hmem)
    obtain ⟨fc1, rest1, hmerged, -⟩ := mergeOrderData_first toLower master incoming true fc rest hm
    obtain ⟨d1, hd1, hne1⟩ := restoreCard_address_ne fc1 _ hk
    refine ⟨d1.Address, ?_, hne1⟩
    unfold firstAddress
    rw [hmerged]
    simp only [List.head?_cons, Option.some_bind, hd1, Option.map_some']
  · rintro ⟨card, hmem, c, hc, hne⟩
    have hk : (keptInfo master incoming true).pin ≠ "" :=
      keptInfo_pin_ne master incoming
        ⟨c.PinInfo.Pin, List.mem_flatten.mpr
          ⟨card.Courier.map (fun c => c.PinInfo.Pin), List.mem_map.mpr ⟨card, hmem, rfl⟩,
            List.mem_map.mpr ⟨c, hc, rfl⟩⟩, hne⟩
    obtain ⟨fc, rest, hm⟩ := List.exists_cons_of_ne_nil (List.ne_nil_of_mem hmem)
    obtain ⟨fc1, rest1, hmerged, -⟩ := mergeOrderData_first toLower master incoming true fc rest hm
    obtain ⟨c1, cs1, hc1, hne1⟩ := restoreCard_pin_ne fc1 _ hk
    refine ⟨c1.PinInfo.Pin, ?_, hne1⟩
    unfold firstPin
    rw [hmerged]
    simp only [List.head?_cons, Option.some_bind, hc1, Option.map_some']

/-- Witness of C4: a stored order with a total, an address and a PIN, merged
with an incoming order that has none of them. -/
theorem preserved_fields_monotone_witness :
    ((∃ card ∈ (sampleOrderWith "20.00€" "12 Rue de la Paix" "4321").FeedCards,
        card.OrderSummary.Total ≠ "") ∧
      ∃ t, firstTotal (MergeOrderData id (sampleOrderWith "20.00€" "12 Rue de la Paix" "4321")
        sampleOrder true).1 = some t ∧ t ≠ "") ∧
    ((∃ card ∈ (sampleOrderWith "20.00€" "12 Rue de la Paix" "4321").FeedCards,
        ∃ d, card.Delivery = some d ∧ d.Address ≠ "") ∧
      ∃ a, firstAddress (MergeOrderData id (sampleOrderWith "20.00€" "12 Rue de la Paix" "4321")
        sampleOrder true).1 = some a ∧ a ≠ "") ∧
    ((∃ card ∈ (sampleOrderWith "20.00€" "12 Rue de la Paix" "4321").FeedCards,
        ∃ c ∈ card.Courier, c.PinInfo.Pin ≠ "") ∧
      ∃ p, firstPin (MergeOrderData id (sampleOrderWith "20.00€" "12 Rue de la Paix" "4321")
        sampleOrder true).1 = some p ∧ p ≠ "") := by
  have h1 : ∃ card ∈ (sampleOrderWith "20.00€" "12 Rue de la Paix" "4321").FeedCards,
      card.OrderSummary.Total ≠ "" := ⟨_, List.mem_cons_self _ _, by decide⟩
  have h2 : ∃ card ∈ (sampleOrderWith "20.00€" "12 Rue de la Paix" "4321").FeedCards,
      ∃ d, card.Delivery = some d ∧ d.Address ≠ "" :=
    ⟨_, List.mem_cons_self _ _, _, rfl, by decide⟩
  have h3 : ∃ card ∈ (sampleOrderWith "20.00€" "12 Rue de la Paix" "4321").FeedCards,
      ∃ c ∈ card.Courier, c.PinInfo.Pin ≠ "" :=
    ⟨_, List.mem_cons_self _ _, _, List.mem_cons_self _ _, by decide⟩
  exact ⟨⟨h1, (preserved_fields_monotone id _ sampleOrder).1 h1⟩,
    ⟨h2, (preserved_fields_monotone id _ sampleOrder).2.1 h2⟩,
    ⟨h3, (preserved_fields_monotone id _ sampleOrder).2.2 h3⟩⟩

theorem restoreCard_total_eq (fc : FeedCard) (p : preservedInfo)
    (h : fc.OrderSummary.Total = "" ∨ fc.OrderSummary.Total = p.total) :
    (restoreCard fc p).OrderSummary.Total = p.total := by
  rw [restoreCard_total]
  by_cases ht : fc.OrderSummary.Total = ""
  · rw [if_pos ht]
  · rw [if_neg ht]
    rcases h with h | h
    · exact absurd h ht
    · exact h

theorem restoreCard_address_eq (fc : FeedCard) (p : preservedInfo) (hp : p.address ≠ "")
    (h : ∀ d, fc.Delivery = some d → d.Address = "" ∨ d.Address = p.address) :
    (restoreCard fc p).Delivery.map (fun d => d.Address) = some p.address := by
  rw [restoreCard_delivery fc p hp]
  cases hd : fc.Delivery with
  | none => rfl
  | some d =>
    by_cases hz : d.Address = ""
    · simp only [hz, if_true, Option.map_some']
    · simp only [hz, if_false, Option.map_some']
      rcases h d hd with h | h
      · exact absurd h hz
      · rw [h]

theorem restoreCard_pin_eq (fc : FeedCard) (p : preservedInfo) (hp : p.pin ≠ "")
    (h : ∀ c cs, fc.Courier = c :: cs → c.PinInfo.Pin = "" ∨ c.PinInfo.Pin = p.pin) :
    (restoreCard fc p).Courier.head?.map (fun c => c.PinInfo.Pin) = some p.pin := by
  rw [restoreCard_courier fc p hp]
  cases hc : fc.Courier with
  | nil => rfl
  | cons c cs =>
    by_cases hz : c.PinInfo.Pin = ""
    · simp only [hz, if_true, List.head?_cons, Option.map_some']
    · simp only [hz, if_false, List.head?_cons, Option.map_some']
      rcases h c cs hc with h | h
      · exact absurd h hz
      · rw [h]

theorem keptInfo_of_empty_incoming (master incoming : Order)
    (ht : ∀ x ∈ cardTotals incoming, x = "") (ha : ∀ x ∈ cardAddresses incoming, x = "")
    (hp : ∀ x ∈ cardPins incoming, x = "") :
    keptInfo master incoming true =
      { total := lastNonEmpty (cardTotals master)
        address := lastNonEmpty (cardAddresses master)
        pin := lastNonEmpty (cardPins master) } := by
  unfold keptInfo
  simp only [if_true]
  rw [extractPreservedInfo_eq incoming, extractPreservedInfo_eq master]
  simp only [lastNonEmpty, lastNonEmptyD_of_forall_empty "" _ ht,
    lastNonEmptyD_of_forall_empty "" _ ha, lastNonEmptyD_of_forall_empty "" _ hp]
  simp

/-- C2, as stated, fails: master's feed cards carry the total `20.00€` (the
last non-empty one), an address and a PIN, no feed card of the incoming order
carries any of them, and the first feed card of the merged order has the
total `10.00€`, the one master's first feed card already had. -/
theorem preservation_first_card_total_kept :
    lastNonEmpty (cardTotals twoTotalsOrder) = "20.00€" ∧
    lastNonEmpty (cardAddresses twoTotalsOrder) = "12 Rue de la Paix" ∧
    lastNonEmpty (cardPins twoTotalsOrder) = "4321" ∧
    (∀ x ∈ cardTotals completedOrder, x = "") ∧
    (∀ x ∈ cardAddresses completedOrder, x = "") ∧
    (∀ x ∈ cardPins completedOrder, x = "") ∧
    firstTotal (MergeOrderData id twoTotalsOrder completedOrder true).1 = some "10.00€" ∧
    firstTotal (MergeOrderData id twoTotalsOrder completedOrder true).1 ≠ some "20.00€" := by
  decide

theorem restoreCard_total_keep (fc : FeedCard) (p : preservedInfo)
    (h : fc.OrderSummary.Total ≠ "") :
    (restoreCard fc p).OrderSummary.Total = fc.OrderSummary.Total := by
  rw [restoreCard_total, if_neg h]

theorem restoreCard_delivery_keep (fc : FeedCard) (p : preservedInfo) (d : DeliveryInfo)
    (hd : fc.Delivery = some d) (h : d.Address ≠ "") :
    (restoreCard fc p).Delivery = some d := by
  by_cases hp : p.address = ""
  · unfold restoreCard
    simp only []
    split_ifs <;> (try split) <;> (try split_ifs) <;> simp_all
  · rw [restoreCard_delivery fc p hp, hd]
    simp only [h, if_false]

theorem restoreCard_courier_keep (fc : FeedCard) (p : preservedInfo) (c : CourierInfo)
    (cs : List CourierInfo) (hc : fc.Courier = c :: cs) (h : c.PinInfo.Pin ≠ "") :
    (restoreCard fc p).Courier = c :: cs := by
  by_cases hp : p.pin = ""
  · unfold restoreCard
    simp only []
    split_ifs <;> (try split) <;> (try split_ifs) <;> simp_all
  · rw [restoreCard_courier fc p hp, hc]
    simp only [h, if_false]

theorem restoreCard_total_iff (fc : FeedCard) (p : preservedInfo) :
    (restoreCard fc p).OrderSummary.Total = p.total ↔
      (fc.OrderSummary.Total = "" ∨ fc.OrderSummary.Total = p.total) := by
  constructor
  · intro h
    by_cases h0 : fc.OrderSummary.Total = ""
    · exact Or.inl h0
    · rw [restoreCard_total_keep fc p h0] at h
      exact Or.inr h
  · exact restoreCard_total_eq fc p

theorem restoreCard_address_iff (fc : FeedCard) (p : preservedInfo) (hp : p.address ≠ "") :
    (restoreCard fc p).Delivery.map (fun d => d.Address) = some p.address ↔
      ∀ d, fc.Delivery = some d → d.Address = "" ∨ d.Address = p.address := by
  constructor
  · intro h d hd
    by_cases h0 : d.Address = ""
    · exact Or.inl h0
    · rw [restoreCard_delivery_keep fc p d hd h0] at h
      exact Or.inr (Option.some.inj h)
  · exact restoreCard_address_eq fc p hp

theorem restoreCard_pin_iff (fc : FeedCard) (p : preservedInfo) (hp : p.pin ≠ "") :
    (restoreCard fc p).Courier.head?.map (fun c => c.PinInfo.Pin) = some p.pin ↔
      ∀ c cs, fc.Courier = c :: cs → c.PinInfo.Pin = "" ∨ c.PinInfo.Pin = p.pin := by
  constructor
  · intro h c cs hc
    by_cases h0 : c.PinInfo.Pin = ""
    · exact Or.inl h0
    · rw [restoreCard_courier_keep fc p c cs hc h0] at h
      exact Or.inr (Option.some.inj h)
  · exact restoreCard_pin_eq fc p hp

/-- When step 4 takes the feed cards of the incoming order, they are the
feed cards before restoration, and there is a first one. -/
theorem updatedCards_replaced (toLower : String → String) (master incoming : Order)
    (h : cardsReplaced toLower incoming) :
    ∃ fc1 rest1, updatedCards toLower master incoming = fc1 :: rest1 ∧
      incoming.FeedCards = fc1 :: rest1 := by
  obtain ⟨hp, hs⟩ := h
  unfold updatedCards
  rw [if_neg hp]
  unfold firstStatus at hs
  cases hin : incoming.FeedCards with
  | nil => rw [hin] at hs; exact absurd hs (by simp)
  | cons first others =>
    rw [hin] at hs
    simp only [] at hs
    simp only [hs, if_true]
    exact ⟨first, others, rfl, rfl⟩

/-- When step 4 keeps the feed cards of master, the first card before
restoration has the total, the delivery and the couriers of master's first
card. -/
theorem updatedCards_kept (toLower : String → String) (master incoming : Order)
    (h : ¬ cardsReplaced toLower incoming) (fc : FeedCard) (rest : List FeedCard)
    (hm : master.FeedCards = fc :: rest) :
    ∃ fc1 rest1, updatedCards toLower master incoming = fc1 :: rest1 ∧
      fc1.OrderSummary = fc.OrderSummary ∧ fc1.Delivery = fc.Delivery ∧
      fc1.Courier = fc.Courier := by
  unfold updatedCards
  by_cases hp : detectPhase toLower incoming = phaseCompleted
  · rw [if_pos hp, hm]
    exact markCompleted_head fc rest
  · rw [if_neg hp]
    cases hin : incoming.FeedCards with
    | nil => exact ⟨fc, rest, hm, rfl, rfl, rfl⟩
    | cons first others =>
      have hs : ¬ first.Status.isSome = true := fun hs =>
        h ⟨hp, by unfold firstStatus; rw [hin]; exact hs⟩
      simp only [hs]
      exact ⟨fc, rest, hm, rfl, rfl, rfl⟩

/-- C2, amended: in a merge with `hasOldData = true` where master's feed cards
carry a total `t`, an address `a` and a courier PIN `p` (the last non-empty
values met when scanning the cards in order) and no feed card of incoming
carries a non-empty total, address or PIN: the first feed card of the merged
order has total `t` exactly when the feed cards of incoming replace master's
(the effective phase is not `COMPLETED` and incoming's first feed card has a
status) or the total of master's first feed card is empty or `t`; and
likewise the address `a` and the `courier[0]` PIN `p`, with the address and
the `courier[0]` PIN of master's first feed card. -/
theorem preservation_first_card (toLower : String → String) (master incoming : Order)
    (t a p : String)
    (ht : lastNonEmpty (cardTotals master) = t) (ht0 : t ≠ "")
    (ha : lastNonEmpty (cardAddresses master) = a) (ha0 : a ≠ "")
    (hp : lastNonEmpty (cardPins master) = p) (hp0 : p ≠ "")
    (hit : ∀ x ∈ cardTotals incoming, x = "")
    (hia : ∀ x ∈ cardAddresses incoming, x = "")
    (hip : ∀ x ∈ cardPins incoming, x = "") :
    (firstTotal (MergeOrderData toLower master incoming true).1 = some t ↔
      (cardsReplaced toLower incoming ∨
        ∀ x, firstTotal master = some x → x = "" ∨ x = t)) ∧
    (firstAddress (MergeOrderData toLower master incoming true).1 = some a ↔
      (cardsReplaced toLower incoming ∨
        ∀ x, firstAddress master = some x → x = "" ∨ x = a)) ∧
    (firstPin (MergeOrderData toLower master incoming true).1 = some p ↔
      (cardsReplaced toLower incoming ∨
        ∀ x, firstPin master = some x → x = "" ∨ x = p)) := by
  have hk := keptInfo_of_empty_incoming master incoming hit hia hip
  rw [ht, ha, hp] at hk
  have hne : master.FeedCards ≠ [] := by
    intro hnil
    apply ht0
    rw [← ht]
    simp [cardTotals, hnil, lastNonEmpty, lastNonEmptyD]
  obtain ⟨fc, rest, hm⟩ := List.exists_cons_of_ne_nil hne
  have hcards := mergeOrderData_feedCards toLower master incoming true
  rw [hk] at hcards
  have hK : ∀ fc1 : FeedCard,
      ((restoreCard fc1 { total := t, address := a, pin := p }).OrderSummary.Total = t ↔
        (fc1.OrderSummary.Total = "" ∨ fc1.OrderSummary.Total = t)) ∧
      ((restoreCard fc1 { total := t, address := a, pin := p }).Delivery.map
          (fun d => d.Address) = some a ↔
        ∀ d, fc1.Delivery = some d → d.Address = "" ∨ d.Address = a) ∧
      ((restoreCard fc1 { total := t, address := a, pin := p }).Courier.head?.map
          (fun c => c.PinInfo.Pin) = some p ↔
        ∀ c cs, fc1.Courier = c :: cs → c.PinInfo.Pin = "" ∨ c.PinInfo.Pin = p) :=
    fun fc1 => ⟨restoreCard_total_iff fc1 _, restoreCard_address_iff fc1 _ ha0,
      restoreCard_pin_iff fc1 _ hp0⟩
  by_cases hr : cardsReplaced toLower incoming
  · obtain ⟨fc1, rest1, hu, hin⟩ := updatedCards_replaced toLower master incoming hr
    rw [hu] at hcards
    simp only [] at hcards
    have hmem : fc1 ∈ incoming.FeedCards := by rw [hin]; exact List.mem_cons_self _ _
    refine ⟨⟨fun _ => Or.inl hr, fun _ => ?_⟩, ⟨fun _ => Or.inl hr, fun _ => ?_⟩,
      ⟨fun _ => Or.inl hr, fun _ => ?_⟩⟩
    · unfold firstTotal
      rw [hcards]
      simp only [List.head?_cons, Option.map_some']
      rw [(hK fc1).1.mpr (Or.inl (hit _ (List.mem_map.mpr ⟨fc1, hmem, rfl⟩)))]
    · unfold firstAddress
      rw [hcards]
      simp only [List.head?_cons, Option.some_bind]
      refine (hK fc1).2.1.mpr (fun d hd => Or.inl ?_)
      exact hia _ (List.mem_map.mpr ⟨fc1, hmem, by rw [hd]⟩)
    · unfold firstPin
      rw [hcards]
      simp only [List.head?_cons, Option.some_bind]
      refine (hK fc1).2.2.mpr (fun c cs hc => Or.inl ?_)
      exact hip _ (List.mem_flatten.mpr
        ⟨fc1.Courier.map (fun c => c.PinInfo.Pin), List.mem_map.mpr ⟨fc1, hmem, rfl⟩,
          List.mem_map.mpr ⟨c, by rw [hc]; exact List.mem_cons_self _ _, rfl⟩⟩)
  · obtain ⟨fc1, rest1, hu, h1, h2, h3⟩ :=
      updatedCards_kept toLower master incoming hr fc rest hm
    rw [hu] at hcards
    simp only [] at hcards
    refine ⟨?_, ?_, ?_⟩
    · have hmerged : firstTotal (MergeOrderData toLower master incoming true).1 =
          some (restoreCard fc1 { total := t, address := a, pin := p }).OrderSummary.Total := by
        unfold firstTotal
        rw [hcards]
        rfl
      have hfirst : firstTotal master = some fc1.OrderSummary.Total := by
        unfold firstTotal
        rw [hm, h1]
        rfl
      rw [hmerged, hfirst]
      constructor
      · intro h
        right
        intro x hx
        rw [← Option.some.inj hx]
        exact (hK fc1).1.mp (Option.some.inj h)
      · rintro (h | h)
        · exact absurd h hr
        · rw [(hK fc1).1.mpr (h _ rfl)]
    · have hmerged : firstAddress (MergeOrderData toLower master incoming true).1 =
          (restoreCard fc1 { total := t, address := a, pin := p }).Delivery.map
            (fun d => d.Address) := by
        unfold firstAddress
        rw [hcards]
        rfl
      have hfirst : firstAddress master = fc1.Delivery.map (fun d => d.Address) := by
        unfold firstAddress
        rw [hm, h2]
        rfl
      rw [hmerged, hfirst, (hK fc1).2.1]
      constructor
      · intro h
        right
        intro x hx
        cases hd : fc1.Delivery with
        | none => rw [hd] at hx; exact absurd hx (by simp)
        | some d =>
          rw [hd] at hx
          rw [← Option.some.inj hx]
          exact h d hd
      · rintro (h | h)
        · exact absurd h hr
        · intro d hd
          exact h _ (by rw [hd]; rfl)
    · have hmerged : firstPin (MergeOrderData toLower master incoming true).1 =
          (restoreCard fc1 { total := t, address := a, pin := p }).Courier.head?.map
            (fun c => c.PinInfo.Pin) := by
        unfold firstPin
        rw [hcards]
        rfl
      have hfirst : firstPin master = fc1.Courier.head?.map (fun c => c.PinInfo.Pin) := by
        unfold firstPin
        rw [hm, h3]
        rfl
      rw [hmerged, hfirst, (hK fc1).2.2]
      constructor
      · intro h
        right
        intro x hx
        cases hc : fc1.Courier with
        | nil => rw [hc] at hx; exact absurd hx (by simp)
        | cons c cs =>
          rw [hc] at hx
          rw [← Option.some.inj hx]
          exact h c cs hc
      · rintro (h | h)
        · exact absurd h hr
        · intro c cs hc
          exact h _ (by rw [hc]; rfl)

/-- Witness of the amended C2. In the merge of
`TestMergeOrderData_PreservesAllFields` and in the merge of `twoTotalsOrder`
with an incoming order in phase `ACTIVE` whose first card has a status, the
feed cards of incoming replace master's and the three values are restored;
when the incoming order is `COMPLETED`, master's cards are kept, the total of
master's first card is `10.00€` and the merged first card does not have the
total `20.00€`, while its address and PIN, empty in master's first card, are
restored. -/
theorem preservation_first_card_witness :
    (firstTotal (MergeOrderData id (sampleOrderWith "20.00€" "12 Rue de la Paix" "4321")
      sampleOrder true).1 = some "20.00€" ∧
    firstAddress (MergeOrderData id (sampleOrderWith "20.00€" "12 Rue de la Paix" "4321")
      sampleOrder true).1 = some "12 Rue de la Paix" ∧
    firstPin (MergeOrderData id (sampleOrderWith "20.00€" "12 Rue de la Paix" "4321")
      sampleOrder true).1 = some "4321") ∧
    (firstTotal (MergeOrderData id twoTotalsOrder preparingOrder true).1 = some "20.00€" ∧
    firstAddress (MergeOrderData id twoTotalsOrder preparingOrder true).1 =
      some "12 Rue de la Paix" ∧
    firstPin (MergeOrderData id twoTotalsOrder preparingOrder true).1 = some "4321") ∧
    (¬ firstTotal (MergeOrderData id twoTotalsOrder completedOrder true).1 = some "20.00€" ∧
    firstAddress (MergeOrderData id twoTotalsOrder completedOrder true).1 =
      some "12 Rue de la Paix" ∧
    firstPin (MergeOrderData id twoTotalsOrder completedOrder true).1 = some "4321") :=
  ⟨⟨(preservation_first_card id (sampleOrderWith "20.00€" "12 Rue de la Paix" "4321")
        sampleOrder "20.00€" "12 Rue de la Paix" "4321" (by decide) (by decide) (by decide)
        (by decide) (by decide) (by decide) (by decide) (by decide) (by decide)).1.mpr
        (Or.inl ⟨by decide, by decide⟩),
      (preservation_first_card id (sampleOrderWith "20.00€" "12 Rue de la Paix" "4321")
        sampleOrder "20.00€" "12 Rue de la Paix" "4321" (by decide) (by decide) (by decide)
        (by decide) (by decide) (by decide) (by decide) (by decide) (by decide)).2.1.mpr
        (Or.inl ⟨by decide, by decide⟩),
      (preservation_first_card id (sampleOrderWith "20.00€" "12 Rue de la Paix" "4321")
        sampleOrder "20.00€" "12 Rue de la Paix" "4321" (by decide) (by decide) (by decide)
        (by decide) (by decide) (by decide) (by decide) (by decide) (by decide)).2.2.mpr
        (Or.inl ⟨by decide, by decide⟩)⟩,
    ⟨(preservation_first_card id twoTotalsOrder preparingOrder "20.00€" "12 Rue de la Paix"
        "4321" (by decide) (by decide) (by decide) (by decide) (by decide) (by decide)
        (by decide) (by decide) (by decide)).1.mpr (Or.inl ⟨by decide, by decide⟩),
      (preservation_first_card id twoTotalsOrder preparingOrder "20.00€" "12 Rue de la Paix"
        "4321" (by decide) (by decide) (by decide) (by decide) (by decide) (by decide)
        (by decide) (by decide) (by decide)).2.1.mpr (Or.inl ⟨by decide, by decide⟩),
      (preservation_first_card id twoTotalsOrder preparingOrder "20.00€" "12 Rue de la Paix"
        "4321" (by decide) (by decide) (by decide) (by decide) (by decide) (by decide)
        (by decide) (by decide) (by decide)).2.2.mpr (Or.inl ⟨by decide, by decide⟩)⟩,
    ⟨fun h => by
        rcases (preservation_first_card id twoTotalsOrder completedOrder "20.00€"
          "12 Rue de la Paix" "4321" (by decide) (by decide) (by decide) (by decide)
          (by decide) (by decide) (by decide) (by decide) (by decide)).1.mp h with hr | hf
        · exact absurd hr.1 (by decide)
        · exact absurd (hf "10.00€" (by decide)) (by decide),
      (preservation_first_card id twoTotalsOrder completedOrder "20.00€" "12 Rue de la Paix"
        "4321" (by decide) (by decide) (by decide) (by decide) (by decide) (by decide)
        (by decide) (by decide) (by decide)).2.1.mpr
        (Or.inr (fun x hx => Or.inl (by
          have h : firstAddress twoTotalsOrder = none := by decide
          rw [h] at hx
          exact absurd hx (by simp)))),
      (preservation_first_card id twoTotalsOrder completedOrder "20.00€" "12 Rue de la Paix"
        "4321" (by decide) (by decide) (by decide) (by decide) (by decide) (by decide)
        (by decide) (by decide) (by decide)).2.2.mpr
        (Or.inr (fun x hx => Or.inl (by
          have h : firstPin twoTotalsOrder = none := by decide
          rw [h] at hx
          exact absurd hx (by simp))))⟩⟩

/-- C3, as stated, fails: master's and incoming's first feed cards both
carry a total, an address and a `courier[0]` PIN, and the merged first feed
card carries master's values, because the first feed card of the incoming
order has no status and master's feed cards are kept. -/
theorem fresh_value_not_taken :
    firstTotal (sampleOrderWith "10.00€" "12 Rue de la Paix" "1111") = some "10.00€" ∧
    firstTotal statuslessOrder = some "12.50€" ∧
    firstTotal (MergeOrderData id (sampleOrderWith "10.00€" "12 Rue de la Paix" "1111")
      statuslessOrder true).1 = some "10.00€" ∧
    firstAddress (sampleOrderWith "10.00€" "12 Rue de la Paix" "1111") =
      some "12 Rue de la Paix" ∧
    firstAddress statuslessOrder = some "5 Avenue Foch" ∧
    firstAddress (MergeOrderData id (sampleOrderWith "10.00€" "12 Rue de la Paix" "1111")
      statuslessOrder true).1 = some "12 Rue de la Paix" ∧
    firstPin (sampleOrderWith "10.00€" "12 Rue de la Paix" "1111") = some "1111" ∧
    firstPin statuslessOrder = some "2222" ∧
    firstPin (MergeOrderData id (sampleOrderWith "10.00€" "12 Rue de la Paix" "1111")
      statuslessOrder true).1 = some "1111" := by
  decide

/-- C3, amended: in a merge with `hasOldData = true` whose effective phase is
not `COMPLETED` and where incoming's first feed card carries a status,
whenever both master's and incoming's first feed card carry a non-empty value
for a preserved field (total, delivery address, `courier[0]` PIN), the merged
first feed card carries incoming's value for that field. -/
theorem fresh_wins (toLower : String → String) (master incoming : Order)
    (hphase : (MergeOrderData toLower master incoming true).2 ≠ "COMPLETED")
    (hstatus : ∃ fc, incoming.FeedCards.head? = some fc ∧ fc.Status.isSome = true) :
    (∀ x y, firstTotal master = some x → x ≠ "" → firstTotal incoming = some y → y ≠ "" →
      firstTotal (MergeOrderData toLower master incoming true).1 = some y) ∧
    (∀ x y, firstAddress master = some x → x ≠ "" → firstAddress incoming = some y → y ≠ "" →
      firstAddress (MergeOrderData toLower master incoming true).1 = some y) ∧
    (∀ x y, firstPin master = some x → x ≠ "" → firstPin incoming = some y → y ≠ "" →
      firstPin (MergeOrderData toLower master incoming true).1 = some y) := by
  obtain ⟨first, hhead, hs⟩ := hstatus
  rw [mergeOrderData_snd] at hphase
  obtain ⟨others, hin⟩ : ∃ others, incoming.FeedCards = first :: others := by
    cases hc : incoming.FeedCards with
    | nil => rw [hc] at hhead; exact absurd hhead (by simp)
    | cons f others =>
      rw [hc] at hhead
      simp only [List.head?_cons, Option.some.injEq] at hhead
      exact ⟨others, by rw [hhead]⟩
  have hu : updatedCards toLower master incoming = first :: others := by
    have hphase1 : ¬ detectPhase toLower incoming = phaseCompleted := hphase
    unfold updatedCards
    rw [if_neg hphase1, hin]
    simp only [hs, if_true]
  have hmerged : (MergeOrderData toLower master incoming true).1.FeedCards =
      restoreCard first (keptInfo master incoming true) :: others := by
    rw [mergeOrderData_feedCards, hu]
  refine ⟨?_, ?_, ?_⟩
  · intro x y _ _ hy hy0
    have hyt : first.OrderSummary.Total = y := by
      simpa [firstTotal, hin] using hy
    unfold firstTotal
    rw [hmerged]
    simp only [List.head?_cons, Option.map_some']
    rw [restoreCard_total_keep first _ (by rw [hyt]; exact hy0), hyt]
  · intro x y _ _ hy hy0
    obtain ⟨d, hd, hda⟩ : ∃ d, first.Delivery = some d ∧ d.Address = y := by
      simpa [firstAddress, hin] using hy
    unfold firstAddress
    rw [hmerged]
    simp only [List.head?_cons, Option.some_bind]
    rw [restoreCard_delivery_keep first _ d hd (by rw [hda]; exact hy0)]
    simp only [Option.map_some', hda]
  · intro x y _ _ hy hy0
    obtain ⟨c, hc, hcp⟩ : ∃ c, first.Courier.head? = some c ∧ c.PinInfo.Pin = y := by
      simpa [firstPin, hin] using hy
    obtain ⟨cs, hcs⟩ : ∃ cs, first.Courier = c :: cs := by
      cases hl : first.Courier with
      | nil => rw [hl] at hc; exact absurd hc (by simp)
      | cons c1 cs =>
        rw [hl] at hc
        simp only [List.head?_cons, Option.some.injEq] at hc
        exact ⟨cs, by rw [hc]⟩
    unfold firstPin
    rw [hmerged]
    simp only [List.head?_cons, Option.some_bind]
    rw [restoreCard_courier_keep first _ c cs hcs (by rw [hcp]; exact hy0)]
    simp only [List.head?_cons, Option.map_some', hcp]

/-- Witness of the amended C3: the merges of
`TestMergeOrderData_FreshTotalOverridesOld` and
`TestMergeOrderData_NewDataOverridesPIN`. -/
theorem fresh_wins_witness :
    firstTotal (MergeOrderData id (sampleOrderWith "10.00€" "12 Rue de la Paix" "1111")
      (sampleOrderWith "12.50€" "5 Avenue Foch" "2222") true).1 = some "12.50€" ∧
    firstAddress (MergeOrderData id (sampleOrderWith "10.00€" "12 Rue de la Paix" "1111")
      (sampleOrderWith "12.50€" "5 Avenue Foch" "2222") true).1 = some "5 Avenue Foch" ∧
    firstPin (MergeOrderData id (sampleOrderWith "10.00€" "12 Rue de la Paix" "1111")
      (sampleOrderWith "12.50€" "5 Avenue Foch" "2222") true).1 = some "2222" :=
  have h := fresh_wins id (sampleOrderWith "10.00€" "12 Rue de la Paix" "1111")
    (sampleOrderWith "12.50€" "5 Avenue Foch" "2222") (by decide) ⟨_, rfl, rfl⟩
  ⟨h.1 "10.00€" "12.50€" (by decide) (by decide) (by decide) (by decide),
    h.2.1 "12 Rue de la Paix" "5 Avenue Foch" (by decide) (by decide) (by decide) (by decide),
    h.2.2 "1111" "2222" (by decide) (by decide) (by decide) (by decide)⟩

/-! ### Completed orders -/

theorem exists_first_status (l : List FeedCard)
    (h : ∃ card ∈ l, card.Status.isSome = true) :
    ∃ pre card s post, l = pre ++ card :: post ∧ (∀ c ∈ pre, c.Status = none) ∧
      card.Status = some s := by
  induction l with
  | nil =>
    obtain ⟨card, hmem, _⟩ := h
    exact absurd hmem (List.not_mem_nil card)
  | cons x l ih =>
    cases hx : x.Status with
    | some s => exact ⟨[], x, s, l, rfl, fun c hc => absurd hc (List.not_mem_nil c), hx⟩
    | none =>
      have h1 : ∃ card ∈ l, card.Status.isSome = true := by
        obtain ⟨card, hmem, hs⟩ := h
        rcases List.mem_cons.mp hmem with rfl | hmem
        · rw [hx] at hs; exact absurd hs (by simp)
        · exact ⟨card, hmem, hs⟩
      obtain ⟨pre, card, s, post, hl, hpre, hc⟩ := ih h1
      refine ⟨x :: pre, card, s, post, by rw [hl]; rfl, ?_, hc⟩
      intro c hcm
      rcases List.mem_cons.mp hcm with rfl | hcm
      · exact hx
      · exact hpre c hcm

theorem markCompleted_append (pre post : List FeedCard) (card : FeedCard) (s : StatusInfo)
    (hpre : ∀ c ∈ pre, c.Status = none) (hc : card.Status = some s) :
    markCompleted (pre ++ card :: post) =
      pre ++ { card with Status := some (completedStatus s) } :: post := by
  induction pre with
  | nil =>
    simp only [List.nil_append]
    unfold markCompleted
    rw [hc]
  | cons x pre ih =>
    simp only [List.cons_append]
    unfold markCompleted
    rw [hpre x (List.mem_cons_self x pre)]
    simp only []
    rw [ih (fun c hcm => hpre c (List.mem_cons_of_mem x hcm))]

theorem mergeOrderData_statuses (toLower : String → String) (master incoming : Order)
    (hasOldData : Bool) :
    (MergeOrderData toLower master incoming hasOldData).1.FeedCards.map (fun c => c.Status) =
      (updatedCards toLower master incoming).map (fun c => c.Status) := by
  rw [mergeOrderData_feedCards]
  cases updatedCards toLower master incoming with
  | nil => rfl
  | cons fc rest => simp only [List.map_cons, restoreCard_status]

/-- C6: when `MergeOrderData` returns the phase `COMPLETED` and master has a
feed card carrying a status, the lowest-index status-carrying feed card of
the merged order has `current_progress = 5`, `total_progress = 5`, the title
`Commande Livrée` and the summary text `Livraison terminée`, and the status
of every other feed card is the same as in master. -/
theorem completed_overrides_status (toLower : String → String) (master incoming : Order)
    (hasOldData : Bool)
    (hphase : (MergeOrderData toLower master incoming hasOldData).2 = "COMPLETED")
    (hst : ∃ card ∈ master.FeedCards, card.Status.isSome = true) :
    ∃ pre card s post s1,
      master.FeedCards = pre ++ card :: post ∧ (∀ c ∈ pre, c.Status = none) ∧
      card.Status = some s ∧
      (MergeOrderData toLower master incoming hasOldData).1.FeedCards.map (fun c => c.Status) =
        pre.map (fun c => c.Status) ++ some s1 :: post.map (fun c => c.Status) ∧
      s1.CurrentProgress = 5 ∧ s1.TotalProgress = 5 ∧ s1.Title = "Commande Livrée" ∧
      s1.StatusSummary.Text = "Livraison terminée" := by
  obtain ⟨pre, card, s, post, hl, hpre, hc⟩ := exists_first_status master.FeedCards hst
  rw [mergeOrderData_snd] at hphase
  have hphase1 : detectPhase toLower incoming = phaseCompleted := hphase
  refine ⟨pre, card, s, post, completedStatus s, hl, hpre, hc, ?_, rfl, rfl, rfl, rfl⟩
  rw [mergeOrderData_statuses]
  unfold updatedCards
  rw [if_pos hphase1, hl, markCompleted_append pre post card s hpre hc]
  simp only [List.map_append, List.map_cons]

/-- Witness of C6: the merge of `TestMergeOrderData_CompletedOverridesStatus`. -/
theorem completed_overrides_status_witness :
    ∃ pre card s post s1,
      sampleOrder.FeedCards = pre ++ card :: post ∧ (∀ c ∈ pre, c.Status = none) ∧
      card.Status = some s ∧
      (MergeOrderData id sampleOrder completedOrder true).1.FeedCards.map (fun c => c.Status) =
        pre.map (fun c => c.Status) ++ some s1 :: post.map (fun c => c.Status) ∧
      s1.CurrentProgress = 5 ∧ s1.TotalProgress = 5 ∧ s1.Title = "Commande Livrée" ∧
      s1.StatusSummary.Text = "Livraison terminée" :=
  completed_overrides_status id sampleOrder completedOrder true (by decide)
    ⟨_, List.mem_cons_self _ _, rfl⟩

/-! ### Witnesses for phase detection and ETA extraction -/

/-- Witness of C5: the disguised cancellation of
`TestMergeOrderData_DetectsCancelledViaCTA`, and an order in phase `ACTIVE`. -/
theorem mergeOrderData_phase_witness :
    ((cancelledOrder.OrderStatus.OrderPhase = "COMPLETED" ∧
        hasAnnulCallToAction asciiToLower cancelledOrder) ∧
      (MergeOrderData asciiToLower sampleOrder cancelledOrder true).2 = "CANCELLED") ∧
    (¬ (activeOrder.OrderStatus.OrderPhase = "COMPLETED" ∧
        hasAnnulCallToAction asciiToLower activeOrder) ∧
      (MergeOrderData asciiToLower sampleOrder activeOrder true).2 = "ACTIVE") := by
  have h1 : cancelledOrder.OrderStatus.OrderPhase = "COMPLETED" ∧
      hasAnnulCallToAction asciiToLower cancelledOrder :=
    ⟨rfl, _, List.mem_cons_self _ _, _, rfl, by decide⟩
  have h2 : ¬ (activeOrder.OrderStatus.OrderPhase = "COMPLETED" ∧
      hasAnnulCallToAction asciiToLower activeOrder) := fun h => absurd h.1 (by decide)
  exact ⟨⟨h1, (mergeOrderData_phase asciiToLower sampleOrder cancelledOrder true).1 h1⟩,
    ⟨h2, (mergeOrderData_phase asciiToLower sampleOrder activeOrder true).2 h2⟩⟩

/-- Witness of C7: in `etaOrder` the first qualifying entity is the `LABEL`
of 5 between blanks, after a `LABEL` that does not parse; `sampleOrder` has
no background feed card. -/
theorem extractETA_first_label_witness :
    ((mapEntities etaOrder).find? isEtaLabel =
        some { UUID := "", Typ := "LABEL", Title := "  5  ", Subtitle := [] } ∧
      strconvAtoi (stringsTrimSpace "  5  ") = some (ExtractETAFromOrder etaOrder) ∧
      ExtractETAFromOrder etaOrder = 5) ∧
    ((mapEntities sampleOrder).find? isEtaLabel = none ∧
      ExtractETAFromOrder sampleOrder = -1) :=
  ⟨⟨by decide,
      (extractETA_first_label etaOrder).1
        { UUID := "", Typ := "LABEL", Title := "  5  ", Subtitle := [] } (by decide),
      by decide⟩,
    ⟨by decide, (extractETA_first_label sampleOrder).2.1 (by decide)⟩⟩

/-! ### Reconciler -/

theorem priorOrder_snd (unmarshal : String → Option Response) (snap : Snapshot)
    (newOrder : Order) (hempty : unmarshal "" = none) :
    (priorOrder unmarshal snap newOrder).2 = true ↔
      (snap.err = false ∧ storedDecodes unmarshal snap) := by
  unfold priorOrder storedDecodes
  by_cases he : snap.err = false
  · by_cases hj : snap.rawJSON = ""
    · simp [he, hj, hempty]
    · cases hu : unmarshal snap.rawJSON with
      | none => simp [he, hj, hu]
      | some lastResp =>
        cases ho : lastResp.Data.Orders with
        | nil => simp [he, hj, hu, ho]
        | cons first others => simp [he, hj, hu, ho]
  · simp [he]

/-- C1, as stated, fails: `GetSnapshot` returns a snapshot whose `raw_json`
decodes to a `Response` with one order, together with a non-nil error. The
phase, progress and text are those of the snapshot and there is no ETA, yet
`ShouldEmit` is true, because `Reconcile` sets `hasOldData` only when
`GetSnapshot` returned no error. -/
theorem reconcile_emits_on_snapshot_error :
    ∃ r, Reconcile asciiToLower sampleUnmarshal sampleMarshal failingStore "uuid-1"
        activeResponse = Outcome.ok r ∧
      storedDecodes sampleUnmarshal (failingStore.GetSnapshot "uuid-1") ∧
      r.Phase = (failingStore.GetSnapshot "uuid-1").status ∧
      r.Progress = (failingStore.GetSnapshot "uuid-1").progress ∧
      r.Text = (failingStore.GetSnapshot "uuid-1").text ∧
      r.Eta < 0 ∧
      r.ShouldEmit = true :=
  ⟨_, rfl, ⟨activeResponse, by decide, by decide⟩, by decide, by decide, by decide, by decide,
    by decide⟩

/-- C1, amended: for every store, uuid and response with at least one order,
the `ShouldEmit` of the result of `Reconcile` is
`(not has_old_data) OR (Phase != prior status) OR (Progress != prior progress)
OR (Text != prior text) OR (Eta >= 0)`, where `has_old_data` is true exactly
when `GetSnapshot` returned no error and the stored `raw_json` decodes to a
`Response` with at least one order; and `Reconcile` returns such a result as
soon as `json.Marshal` does not fail. `hempty` is the fact that
`json.Unmarshal` rejects an empty input. -/
theorem reconcile_shouldEmit (toLower : String → String)
    (unmarshal : String → Option Response) (marshal : Response → Option String)
    (store : OrderStore) (uuid : String) (resp : Response)
    (hresp : resp.Data.Orders ≠ []) (hempty : unmarshal "" = none) :
    (∀ r, Reconcile toLower unmarshal marshal store uuid resp = Outcome.ok r →
      (r.ShouldEmit = true ↔
        (¬ ((store.GetSnapshot uuid).err = false ∧
            storedDecodes unmarshal (store.GetSnapshot uuid)) ∨
          r.Phase ≠ (store.GetSnapshot uuid).status ∨
          r.Progress ≠ (store.GetSnapshot uuid).progress ∨
          r.Text ≠ (store.GetSnapshot uuid).text ∨
          r.Eta ≥ 0))) ∧
    ((∀ x, (marshal x).isSome = true) →
      ∃ r, Reconcile toLower unmarshal marshal store uuid resp = Outcome.ok r) := by
  obtain ⟨newOrder, others, horders⟩ := List.exists_cons_of_ne_nil hresp
  constructor
  · intro r hr
    unfold Reconcile at hr
    rw [horders] at hr
    simp only [] at hr
    split at hr
    · exact absurd hr (by simp)
    · simp only [Outcome.ok.injEq] at hr
      subst hr
      simp only [Bool.or_eq_true, Bool.not_eq_true', decide_eq_true_eq, ← Bool.not_eq_true,
        priorOrder_snd unmarshal (store.GetSnapshot uuid) newOrder hempty]
      tauto
  · intro hm
    unfold Reconcile
    rw [horders]
    simp only []
    split
    · rename_i heq
      rw [← Option.not_isSome_iff_eq_none] at heq
      exact absurd (hm _) heq
    · exact ⟨_, rfl⟩

/-- Witness of the amended C1: a store seeded with the snapshot
`(ACTIVE, 0, "", activeJSON)` and the same order coming in: nothing changed
and there is no ETA, so `ShouldEmit` is false. -/
theorem reconcile_shouldEmit_witness :
    activeResponse.Data.Orders ≠ [] ∧ sampleUnmarshal "" = none ∧
    ∃ r, Reconcile asciiToLower sampleUnmarshal sampleMarshal seededStore "uuid-1"
        activeResponse = Outcome.ok r ∧
      r.ShouldEmit = false ∧
      (r.ShouldEmit = true ↔
        (¬ ((seededStore.GetSnapshot "uuid-1").err = false ∧
            storedDecodes sampleUnmarshal (seededStore.GetSnapshot "uuid-1")) ∨
          r.Phase ≠ (seededStore.GetSnapshot "uuid-1").status ∨
          r.Progress ≠ (seededStore.GetSnapshot "uuid-1").progress ∨
          r.Text ≠ (seededStore.GetSnapshot "uuid-1").text ∨
          r.Eta ≥ 0)) :=
  ⟨by decide, by decide, _, rfl, by decide,
    (reconcile_shouldEmit asciiToLower sampleUnmarshal sampleMarshal seededStore "uuid-1"
      activeResponse (by decide) (by decide)).1 _ rfl⟩

/-! ### Manager registry -/

/-- C10 on the code: after `staleExitTrace` the second worker of `uuid-1` is
running with a context that has not been cancelled, and `uuid-1` is no longer
a key of the registry, because the clean-up of the first worker deleted the
entry of the second one. `StartTracking` then returns true once more, and
two workers with uncancelled contexts track `uuid-1`. -/
theorem stale_exit_unregisters_live_worker :
    { id := sampleIdentity, token := 0 } ∈
      (Manager.run [Op.start sampleIdentity, Op.stop "uuid-1", Op.start sampleIdentity]).workers ∧
    (Manager.run staleExitTrace).liveWorkers "uuid-1" = [{ id := sampleIdentity, token := 1 }] ∧
    (Manager.run staleExitTrace).activeOrders "uuid-1" = none ∧
    ((Manager.run staleExitTrace).StartTracking sampleIdentity).2 = true ∧
    (Manager.run (staleExitTrace ++ [Op.start sampleIdentity])).liveWorkers "uuid-1" =
      [{ id := sampleIdentity, token := 1 }, { id := sampleIdentity, token := 2 }] ∧
    (Manager.run (staleExitTrace ++ [Op.start sampleIdentity])).activeOrders "uuid-1" =
      some 2 := by
  decide

/-! ### Duplicate suppression -/

/-- C11: `StartTracking` returns false if and only if `id.UUID` is already a
key of the registry; when it returns false the registry is unchanged and no
worker is spawned; when it returns true the registry afterwards contains
`id.UUID`, every other entry is unchanged and one worker is spawned. -/
theorem startTracking_duplicate (m : Manager) (id : OrderIdentity) :
    ((m.StartTracking id).2 = false ↔ (m.activeOrders id.UUID).isSome = true) ∧
    ((m.StartTracking id).2 = false →
      (m.StartTracking id).1.activeOrders = m.activeOrders ∧
      (m.StartTracking id).1.workers = m.workers) ∧
    ((m.StartTracking id).2 = true →
      ((m.StartTracking id).1.activeOrders id.UUID).isSome = true ∧
      (∀ k, k ≠ id.UUID → (m.StartTracking id).1.activeOrders k = m.activeOrders k) ∧
      ∃ w, w.id = id ∧ (m.StartTracking id).1.workers = m.workers ++ [w]) := by
  unfold Manager.StartTracking
  cases h : m.activeOrders id.UUID with
  | some token => simp
  | none =>
    simp only [Option.isSome_none, Bool.true_eq_false, iff_false, Bool.false_eq_true,
      not_false_eq_true, false_implies, true_and, forall_const, if_true, Option.isSome_some]
    refine ⟨?_, ⟨_, rfl, rfl⟩⟩
    intro k hk
    simp only [hk, if_false]

/-- Witness of C11: a first `StartTracking` on a new manager returns true
and registers the uuid, a second one returns false and changes nothing. -/
theorem startTracking_duplicate_witness :
    ((NewManager.StartTracking sampleIdentity).2 = true ∧
      ((NewManager.StartTracking sampleIdentity).1.activeOrders sampleIdentity.UUID).isSome
        = true) ∧
    (((NewManager.StartTracking sampleIdentity).1.StartTracking sampleIdentity).2 = false ∧
      ((NewManager.StartTracking sampleIdentity).1.StartTracking sampleIdentity).1.workers =
        (NewManager.StartTracking sampleIdentity).1.workers) :=
  ⟨⟨by decide,
      ((startTracking_duplicate NewManager sampleIdentity).2.2 (by decide)).1⟩,
    ⟨by decide,
      ((startTracking_duplicate (NewManager.StartTracking sampleIdentity).1 sampleIdentity).2.1
        (by decide)).2⟩⟩

/-! ### Emitter -/

/-- C20: `emitUpdate` sends on the update channel only after the store write
succeeded. If `SaveOrder` returns an error, `emitUpdate` returns an error and
sends nothing; if `SaveOrder` succeeds and the context is not cancelled, it
returns no error and sends exactly one `TrackedOrder`, the one passed to
`SaveOrder`, whose `LastStatus`, `LastProgress`, `LastText`, `FullJSONData`
and `ETAMinutes` are the `Phase`, `Progress`, `Text`, `FinalJSON` and `Eta`
of the `ReconcileResult`. -/
theorem emitUpdate_after_save (store : OrderStore) (id : OrderIdentity) (r : ReconcileResult)
    (now : Nat) (ctxDone : Bool) :
    ((store.SaveOrder (emitUpdate store id r now ctxDone).saved).isSome = true →
      (emitUpdate store id r now ctxDone).err.isSome = true ∧
      (emitUpdate store id r now ctxDone).sent = []) ∧
    (store.SaveOrder (emitUpdate store id r now ctxDone).saved = none → ctxDone = false →
      (emitUpdate store id r now ctxDone).err = none ∧
      (emitUpdate store id r now ctxDone).sent = [(emitUpdate store id r now ctxDone).saved]) ∧
    ((emitUpdate store id r now ctxDone).saved.LastStatus = r.Phase ∧
      (emitUpdate store id r now ctxDone).saved.LastProgress = r.Progress ∧
      (emitUpdate store id r now ctxDone).saved.LastText = r.Text ∧
      (emitUpdate store id r now ctxDone).saved.FullJSONData = r.FinalJSON ∧
      (emitUpdate store id r now ctxDone).saved.ETAMinutes = r.Eta) := by
  have hsaved : (emitUpdate store id r now ctxDone).saved =
      trackedOf id r now (store.GetMessageID id.UUID) := by
    unfold emitUpdate
    simp only []
    split <;> rfl
  rw [hsaved]
  refine ⟨?_, ?_, ⟨rfl, rfl, rfl, rfl, rfl⟩⟩
  · intro hs
    unfold emitUpdate
    simp only []
    cases h : store.SaveOrder (trackedOf id r now (store.GetMessageID id.UUID)) with
    | none => rw [h] at hs; exact absurd hs (by simp)
    | some e => simp
  · intro hs hc
    unfold emitUpdate
    simp only [hs, hc]
    simp

/-- Witness of C20: a store that rejects the write, and a store that accepts
it with a context that is not cancelled. -/
theorem emitUpdate_after_save_witness :
    ((readOnlyStore.SaveOrder
          (emitUpdate readOnlyStore sampleIdentity sampleResult 1 false).saved).isSome = true ∧
      (emitUpdate readOnlyStore sampleIdentity sampleResult 1 false).err.isSome = true ∧
      (emitUpdate readOnlyStore sampleIdentity sampleResult 1 false).sent = []) ∧
    (emptyStore.SaveOrder (emitUpdate emptyStore sampleIdentity sampleResult 1 false).saved
        = none ∧
      (emitUpdate emptyStore sampleIdentity sampleResult 1 false).err = none ∧
      (emitUpdate emptyStore sampleIdentity sampleResult 1 false).sent =
        [(emitUpdate emptyStore sampleIdentity sampleResult 1 false).saved]) :=
  ⟨⟨by decide,
      (emitUpdate_after_save readOnlyStore sampleIdentity sampleResult 1 false).1 (by decide)⟩,
    ⟨by decide,
      (emitUpdate_after_save emptyStore sampleIdentity sampleResult 1 false).2.1 (by decide)
        rfl⟩⟩

/-! ### One scan of the worker -/

theorem scan_of_fetch_error (toLower : String → String) (unmarshal : String → Option Response)
    (marshal : Response → Option String) (id : OrderIdentity) (failCount : Int) (env : ScanEnv)
    (msg : String) (hf : fetchAndParse unmarshal env.fetchFn id.UUID = Except.error msg) :
    scan toLower unmarshal marshal id failCount env =
      if failCount + 1 ≥ maxFails then
        Outcome.ok
          { failCount := failCount + 1
            sent := if env.ctxDone then [] else [failedEnvelope id]
            stop := true }
      else Outcome.ok { failCount := failCount + 1, sent := [], stop := false } := by
  unfold scan
  rw [hf]

theorem scan_of_reconcile_ok (toLower : String → String) (unmarshal : String → Option Response)
    (marshal : Response → Option String) (id : OrderIdentity) (failCount : Int) (env : ScanEnv)
    (resp : Response) (result : ReconcileResult)
    (hf : fetchAndParse unmarshal env.fetchFn id.UUID = Except.ok resp)
    (hr : Reconcile toLower unmarshal marshal env.store id.UUID resp = Outcome.ok result) :
    scan toLower unmarshal marshal id failCount env =
      Outcome.ok
        { failCount := 0
          sent :=
            if result.ShouldEmit then (emitUpdate env.store id result env.now env.ctxDone).sent
            else []
          stop := decide (result.Phase = "COMPLETED") || decide (result.Phase = "DELIVERED") ||
            decide (result.Phase = "CANCELLED") } := by
  unfold scan
  rw [hf]
  simp only [hr]

/-- C14: for every scan whose fetch and reconcile succeed, the scan requests
stop if and only if the reconciled phase is `COMPLETED`, `DELIVERED` or
`CANCELLED`. -/
theorem scan_stop_iff_terminal (toLower : String → String)
    (unmarshal : String → Option Response) (marshal : Response → Option String)
    (id : OrderIdentity) (failCount : Int) (env : ScanEnv) (resp : Response)
    (result : ReconcileResult)
    (hf : fetchAndParse unmarshal env.fetchFn id.UUID = Except.ok resp)
    (hr : Reconcile toLower unmarshal marshal env.store id.UUID resp = Outcome.ok result) :
    ∃ r, scan toLower unmarshal marshal id failCount env = Outcome.ok r ∧
      (r.stop = true ↔
        (result.Phase = "COMPLETED" ∨ result.Phase = "DELIVERED" ∨
          result.Phase = "CANCELLED")) := by
  refine ⟨_, scan_of_reconcile_ok toLower unmarshal marshal id failCount env resp result hf hr,
    ?_⟩
  simp only [Bool.or_eq_true, decide_eq_true_eq, or_assoc]

/-- Witness of C14: a scan that fetches an order in phase `COMPLETED` on a
first poll requests stop. -/
theorem scan_stop_iff_terminal_witness :
    ∃ r, scan asciiToLower workerUnmarshal sampleMarshal sampleIdentity 0
        (scanEnvOf (some completedJSON) emptyStore false) = Outcome.ok r ∧
      (r.stop = true ↔
        ("COMPLETED" = "COMPLETED" ∨ "COMPLETED" = "DELIVERED" ∨ "COMPLETED" = "CANCELLED")) :=
  scan_stop_iff_terminal asciiToLower workerUnmarshal sampleMarshal sampleIdentity 0
    (scanEnvOf (some completedJSON) emptyStore false) (responseOf (phaseOrder "COMPLETED"))
    { FinalJSON := activeJSON, Phase := "COMPLETED", Progress := 0, Text := "", Eta := -1,
      ShouldEmit := true } rfl (by decide)

/-- C13, as stated, fails: the fetch and the reconcile of a scan succeed with
the reconciled phase `FAILED`, the scan does not request stop, and the worker
makes a further poll. -/
theorem failed_phase_does_not_stop :
    fetchAndParse workerUnmarshal (scanEnvOf (some failedJSON) emptyStore false).fetchFn
      sampleIdentity.UUID = Except.ok (responseOf (phaseOrder "FAILED")) ∧
    (∃ result, Reconcile asciiToLower workerUnmarshal sampleMarshal emptyStore
        sampleIdentity.UUID (responseOf (phaseOrder "FAILED")) = Outcome.ok result ∧
      result.Phase = "FAILED") ∧
    (∃ r, scan asciiToLower workerUnmarshal sampleMarshal sampleIdentity 0
        (scanEnvOf (some failedJSON) emptyStore false) = Outcome.ok r ∧ r.stop = false) ∧
    (StartOrderWorker asciiToLower workerUnmarshal sampleMarshal sampleIdentity
        (scanEnvOf (some failedJSON) emptyStore false)
        [turnOf (scanEnvOf (some failedJSON) emptyStore false)]).scans = 2 ∧
    (StartOrderWorker asciiToLower workerUnmarshal sampleMarshal sampleIdentity
        (scanEnvOf (some failedJSON) emptyStore false)
        [turnOf (scanEnvOf (some failedJSON) emptyStore false)]).ending = WorkerEnd.polling :=
  ⟨rfl, ⟨_, rfl, by decide⟩, ⟨_, rfl, by decide⟩, by decide, by decide⟩

/-- C13, amended: for every scan whose fetch and reconcile succeed with a
reconciled phase `COMPLETED`, `DELIVERED` or `CANCELLED`, the scan requests
stop, so the worker exits and performs no further poll, whatever surroundings
follow: as the initial scan, and as the scan of a turn of the polling loop
whose sleep was not cancelled. -/
theorem terminal_phase_stops (toLower : String → String)
    (unmarshal : String → Option Response) (marshal : Response → Option String)
    (id : OrderIdentity) (env : ScanEnv) (resp : Response) (result : ReconcileResult)
    (hf : fetchAndParse unmarshal env.fetchFn id.UUID = Except.ok resp)
    (hr : Reconcile toLower unmarshal marshal env.store id.UUID resp = Outcome.ok result)
    (hphase : result.Phase = "COMPLETED" ∨ result.Phase = "DELIVERED" ∨
      result.Phase = "CANCELLED") :
    (∀ failCount, ∃ r, scan toLower unmarshal marshal id failCount env = Outcome.ok r ∧
      r.stop = true) ∧
    (∀ turns,
      (StartOrderWorker toLower unmarshal marshal id env turns).ending = WorkerEnd.stopped ∧
      (StartOrderWorker toLower unmarshal marshal id env turns).scans = 1) ∧
    (∀ st jitter storeAfter rest,
      (pollingLoop toLower unmarshal marshal id st
        ({ jitter := jitter, ctxDoneInSleep := false, scanEnv := env,
           storeAfter := storeAfter } :: rest)).ending = WorkerEnd.stopped ∧
      (pollingLoop toLower unmarshal marshal id st
        ({ jitter := jitter, ctxDoneInSleep := false, scanEnv := env,
           storeAfter := storeAfter } :: rest)).scans = 1) := by
  have hstop : (decide (result.Phase = "COMPLETED") || decide (result.Phase = "DELIVERED") ||
      decide (result.Phase = "CANCELLED")) = true := by
    simp only [Bool.or_eq_true, decide_eq_true_eq, or_assoc]
    exact hphase
  have hscan := fun failCount =>
    scan_of_reconcile_ok toLower unmarshal marshal id failCount env resp result hf hr
  refine ⟨fun failCount => ⟨_, hscan failCount, hstop⟩, ?_, ?_⟩
  · intro turns
    unfold StartOrderWorker
    rw [hscan 0]
    simp only [hstop, if_true, and_self]
  · intro st jitter storeAfter rest
    unfold pollingLoop
    simp only [Bool.false_eq_true, if_false, hscan st.failCount, hstop, if_true, and_self]

/-- Witness of the amended C13: a worker whose first fetch returns an order
in phase `COMPLETED` stops after one scan, though a further turn is described. -/
theorem terminal_phase_stops_witness :
    (StartOrderWorker asciiToLower workerUnmarshal sampleMarshal sampleIdentity
      (scanEnvOf (some completedJSON) emptyStore false)
      [turnOf (scanEnvOf (some activeJSON) emptyStore false)]).ending = WorkerEnd.stopped ∧
    (StartOrderWorker asciiToLower workerUnmarshal sampleMarshal sampleIdentity
      (scanEnvOf (some completedJSON) emptyStore false)
      [turnOf (scanEnvOf (some activeJSON) emptyStore false)]).scans = 1 :=
  (terminal_phase_stops asciiToLower workerUnmarshal sampleMarshal sampleIdentity
    (scanEnvOf (some completedJSON) emptyStore false) (responseOf (phaseOrder "COMPLETED"))
    { FinalJSON := activeJSON, Phase := "COMPLETED", Progress := 0, Text := "", Eta := -1,
      ShouldEmit := true } rfl (by decide) (Or.inl rfl)).2.1
    [turnOf (scanEnvOf (some activeJSON) emptyStore false)]

/-- C15, as stated, fails: the fetch of a scan succeeds, the reconcile result
has `ShouldEmit = true` and the phase `COMPLETED`, `SaveOrder` fails, nothing
is sent, and the scan requests stop instead of continue. -/
theorem save_error_on_terminal_phase_stops :
    fetchAndParse workerUnmarshal (scanEnvOf (some completedJSON) readOnlyStore false).fetchFn
      sampleIdentity.UUID = Except.ok (responseOf (phaseOrder "COMPLETED")) ∧
    (∃ result, Reconcile asciiToLower workerUnmarshal sampleMarshal readOnlyStore
        sampleIdentity.UUID (responseOf (phaseOrder "COMPLETED")) = Outcome.ok result ∧
      result.ShouldEmit = true ∧ result.Phase = "COMPLETED" ∧
      (emitUpdate readOnlyStore sampleIdentity result 1 false).err.isSome = true) ∧
    (∃ r, scan asciiToLower workerUnmarshal sampleMarshal sampleIdentity 3
        (scanEnvOf (some completedJSON) readOnlyStore false) = Outcome.ok r ∧
      r.sent = [] ∧ r.stop = true) :=
  ⟨rfl, ⟨_, rfl, by decide, by decide, by decide⟩, ⟨_, rfl, by decide, by decide⟩⟩

/-- C15, amended: for every scan whose fetch succeeds and whose reconcile
result has `ShouldEmit = true`, if `SaveOrder` fails then nothing is sent on
the update channel, `failCount` is not incremented (it is reset to 0), and
the scan requests continue unless the reconciled phase is `COMPLETED`,
`DELIVERED` or `CANCELLED`, in which case it requests stop. -/
theorem save_error_skips_emission (toLower : String → String)
    (unmarshal : String → Option Response) (marshal : Response → Option String)
    (id : OrderIdentity) (failCount : Int) (env : ScanEnv) (resp : Response)
    (result : ReconcileResult)
    (hf : fetchAndParse unmarshal env.fetchFn id.UUID = Except.ok resp)
    (hr : Reconcile toLower unmarshal marshal env.store id.UUID resp = Outcome.ok result)
    (hemit : result.ShouldEmit = true)
    (hsave : (env.store.SaveOrder
      (trackedOf id result env.now (env.store.GetMessageID id.UUID))).isSome = true) :
    ∃ r, scan toLower unmarshal marshal id failCount env = Outcome.ok r ∧
      r.sent = [] ∧ r.failCount = 0 ∧
      (r.stop = false ↔
        ¬ (result.Phase = "COMPLETED" ∨ result.Phase = "DELIVERED" ∨
          result.Phase = "CANCELLED")) := by
  refine ⟨_, scan_of_reconcile_ok toLower unmarshal marshal id failCount env resp result hf hr,
    ?_, rfl, ?_⟩
  · simp only [hemit, if_true]
    unfold emitUpdate
    simp only []
    cases h : env.store.SaveOrder (trackedOf id result env.now (env.store.GetMessageID id.UUID))
      with
    | none => rw [h] at hsave; exact absurd hsave (by simp)
    | some e => rfl
  · simp only [Bool.or_eq_false_iff, decide_eq_false_iff_not, not_or, and_assoc]

/-- Witness of the amended C15: a scan that fetches an order in phase
`ACTIVE` while `SaveOrder` fails sends nothing and requests continue. -/
theorem save_error_skips_emission_witness :
    ∃ r, scan asciiToLower workerUnmarshal sampleMarshal sampleIdentity 3
        (scanEnvOf (some activeJSON) readOnlyStore false) = Outcome.ok r ∧
      r.sent = [] ∧ r.failCount = 0 ∧
      (r.stop = false ↔
        ¬ ("ACTIVE" = "COMPLETED" ∨ "ACTIVE" = "DELIVERED" ∨ "ACTIVE" = "CANCELLED")) :=
  save_error_skips_emission asciiToLower workerUnmarshal sampleMarshal sampleIdentity 3
    (scanEnvOf (some activeJSON) readOnlyStore false) (responseOf (phaseOrder "ACTIVE"))
    { FinalJSON := activeJSON, Phase := "ACTIVE", Progress := 0, Text := "", Eta := -1,
      ShouldEmit := true } rfl (by decide) rfl (by decide)

/-! ### Failure counting -/

theorem fetchAndParse_orders_ne_nil (unmarshal : String → Option Response)
    (fetchFn : String → Option String) (uuid : String) (resp : Response)
    (h : fetchAndParse unmarshal fetchFn uuid = Except.ok resp) : resp.Data.Orders ≠ [] := by
  unfold fetchAndParse at h
  cases hf : fetchFn uuid with
  | none => rw [hf] at h; exact absurd h (by simp)
  | some jsonBytes =>
    rw [hf] at h
    simp only [] at h
    cases hu : unmarshal jsonBytes with
    | none => rw [hu] at h; exact absurd h (by simp)
    | some r =>
      rw [hu] at h
      simp only [] at h
      by_cases hl : r.Data.Orders.length = 0
      · rw [if_pos hl] at h; exact absurd h (by simp)
      · rw [if_neg hl] at h
        simp only [Except.ok.injEq] at h
        subst h
        intro hnil
        exact hl (by rw [hnil]; rfl)

theorem reconcile_ne_panic (toLower : String → String) (unmarshal : String → Option Response)
    (marshal : Response → Option String) (store : OrderStore) (uuid : String)
    (resp : Response) (h : resp.Data.Orders ≠ []) :
    Reconcile toLower unmarshal marshal store uuid resp ≠ Outcome.panic := by
  obtain ⟨newOrder, others, horders⟩ := List.exists_cons_of_ne_nil h
  unfold Reconcile
  rw [horders]
  simp only []
  split <;> simp

/-- A scan never panics, and its `failCount` is one more than before after a
failed scan and 0 after a successful fetch. -/
theorem scan_failCount (toLower : String → String) (unmarshal : String → Option Response)
    (marshal : Response → Option String) (id : OrderIdentity) (failCount : Int)
    (env : ScanEnv) :
    ∃ r, scan toLower unmarshal marshal id failCount env = Outcome.ok r ∧
      r.failCount = if fetchFails unmarshal id env then failCount + 1 else 0 := by
  cases hf : fetchAndParse unmarshal env.fetchFn id.UUID with
  | error msg =>
    have hfails : fetchFails unmarshal id env = true := by simp [fetchFails, hf]
    rw [scan_of_fetch_error toLower unmarshal marshal id failCount env msg hf, hfails]
    by_cases hm : failCount + 1 ≥ maxFails
    · rw [if_pos hm]; exact ⟨_, rfl, by simp⟩
    · rw [if_neg hm]; exact ⟨_, rfl, by simp⟩
  | ok resp =>
    have hfails : fetchFails unmarshal id env = false := by simp [fetchFails, hf]
    rw [hfails]
    have hne := reconcile_ne_panic toLower unmarshal marshal env.store id.UUID resp
      (fetchAndParse_orders_ne_nil unmarshal env.fetchFn id.UUID resp hf)
    unfold scan
    rw [hf]
    simp only []
    cases hr : Reconcile toLower unmarshal marshal env.store id.UUID resp with
    | panic => exact absurd hr hne
    | error msg => exact ⟨_, rfl, by simp⟩
    | ok result => exact ⟨_, rfl, by simp⟩

theorem pollingLoop_failCount (toLower : String → String)
    (unmarshal : String → Option Response) (marshal : Response → Option String)
    (id : OrderIdentity) (turns : List LoopEnv) (st : WorkerState)
    (h : (pollingLoop toLower unmarshal marshal id st turns).ending = WorkerEnd.polling) :
    (pollingLoop toLower unmarshal marshal id st turns).state.failCount =
      failCountAfter unmarshal id st.failCount (turns.map (fun t => t.scanEnv)) := by
  induction turns generalizing st with
  | nil => rfl
  | cons env rest ih =>
    obtain ⟨r, hscan, hfc⟩ := scan_failCount toLower unmarshal marshal id st.failCount env.scanEnv
    unfold pollingLoop at h ⊢
    by_cases hc : env.ctxDoneInSleep = true
    · simp only [hc, if_true] at h
      exact absurd h (by decide)
    · simp only [hc, Bool.false_eq_true, if_false, hscan] at h ⊢
      by_cases hs : r.stop = true
      · simp only [hs, if_true] at h
        exact absurd h (by decide)
      · simp only [hs, Bool.false_eq_true, if_false] at h ⊢
        rw [ih _ h]
        simp only [List.map_cons, failCountAfter, hfc]

theorem failCountAfter_append (unmarshal : String → Option Response) (id : OrderIdentity)
    (failCount : Int) (envs : List ScanEnv) (env : ScanEnv) :
    failCountAfter unmarshal id failCount (envs ++ [env]) =
      if fetchFails unmarshal id env then failCountAfter unmarshal id failCount envs + 1
      else 0 := by
  induction envs generalizing failCount with
  | nil => rfl
  | cons e rest ih =>
    simp only [List.cons_append, failCountAfter]
    exact ih _

theorem trailingFailures_append (unmarshal : String → Option Response) (id : OrderIdentity)
    (envs : List ScanEnv) (env : ScanEnv) :
    trailingFailures unmarshal id (envs ++ [env]) =
      if fetchFails unmarshal id env then trailingFailures unmarshal id envs + 1 else 0 := by
  unfold trailingFailures
  rw [List.reverse_append, List.reverse_singleton, List.singleton_append, List.takeWhile_cons]
  by_cases hf : fetchFails unmarshal id env = true
  · simp only [hf, if_true, List.length_cons]
  · simp only [hf, Bool.false_eq_true, if_false, List.length_nil]

theorem failCountAfter_eq_trailing (unmarshal : String → Option Response) (id : OrderIdentity)
    (envs : List ScanEnv) :
    failCountAfter unmarshal id 0 envs = (trailingFailures unmarshal id envs : Int) := by
  induction envs using List.reverseRecOn with
  | nil => rfl
  | append_singleton envs env ih =>
    rw [failCountAfter_append, trailingFailures_append, ih]
    by_cases hf : fetchFails unmarshal id env = true
    · simp only [hf, if_true, Nat.cast_add, Nat.cast_one]
    · simp only [hf, Bool.false_eq_true, if_false, Nat.cast_zero]

theorem pollingLoop_always_failing (toLower : String → String)
    (unmarshal : String → Option Response) (marshal : Response → Option String)
    (id : OrderIdentity) (k : Nat) (turns : List LoopEnv) (st : WorkerState)
    (hfc : st.failCount + (k : Int) + 1 = 10) (hlen : k + 1 ≤ turns.length)
    (hall : alwaysFailing unmarshal id turns) :
    (pollingLoop toLower unmarshal marshal id st turns).scans = k + 1 ∧
    (pollingLoop toLower unmarshal marshal id st turns).sent = [failedEnvelope id] ∧
    (pollingLoop toLower unmarshal marshal id st turns).ending = WorkerEnd.stopped := by
  induction k generalizing turns st with
  | zero =>
    cases turns with
    | nil => exact absurd hlen (by simp)
    | cons env rest =>
      obtain ⟨hf, hs, hd⟩ := hall env (List.mem_cons_self env rest)
      obtain ⟨msg, hmsg⟩ : ∃ msg, fetchAndParse unmarshal env.scanEnv.fetchFn id.UUID =
          Except.error msg := by
        unfold fetchFails at hf
        cases hc : fetchAndParse unmarshal env.scanEnv.fetchFn id.UUID with
        | error msg => exact ⟨msg, rfl⟩
        | ok resp => rw [hc] at hf; exact absurd hf (by simp)
      have hge : st.failCount + 1 ≥ maxFails := by
        unfold maxFails
        simp only [Nat.cast_zero, add_zero] at hfc
        omega
      unfold pollingLoop
      simp only [hs, Bool.false_eq_true, if_false,
        scan_of_fetch_error toLower unmarshal marshal id st.failCount env.scanEnv msg hmsg,
        if_pos hge, hd, if_true, and_self]
  | succ k ih =>
    cases turns with
    | nil => exact absurd hlen (by simp)
    | cons env rest =>
      obtain ⟨hf, hs, hd⟩ := hall env (List.mem_cons_self env rest)
      obtain ⟨msg, hmsg⟩ : ∃ msg, fetchAndParse unmarshal env.scanEnv.fetchFn id.UUID =
          Except.error msg := by
        unfold fetchFails at hf
        cases hc : fetchAndParse unmarshal env.scanEnv.fetchFn id.UUID with
        | error msg => exact ⟨msg, rfl⟩
        | ok resp => rw [hc] at hf; exact absurd hf (by simp)
      have hlt : ¬ st.failCount + 1 ≥ maxFails := by
        unfold maxFails
        simp only [Nat.cast_add, Nat.cast_one] at hfc
        omega
      have hrest := ih rest
        { failCount := st.failCount + 1
          noChangeCount := if st.failCount + 1 = st.failCount then st.noChangeCount + 1 else 0
          lastKnownETA :=
            refreshETA unmarshal (env.storeAfter.GetSnapshot id.UUID) st.lastKnownETA }
        (by simp only [Nat.cast_add, Nat.cast_one] at hfc ⊢; omega)
        (by simp only [List.length_cons] at hlen; omega)
        (fun t ht => hall t (List.mem_cons_of_mem env ht))
      unfold pollingLoop
      simp only [hs, Bool.false_eq_true, if_false,
        scan_of_fetch_error toLower unmarshal marshal id st.failCount env.scanEnv msg hmsg,
        if_neg hlt, List.nil_append]
      exact ⟨by rw [hrest.1], hrest.2.1, hrest.2.2⟩

/-- C12, as stated, fails: the failed scan that brings `failCount` to 10
finds the context cancelled, requests stop and sends nothing. -/
theorem failed_envelope_dropped_on_cancel :
    fetchFails workerUnmarshal sampleIdentity (scanEnvOf none emptyStore true) = true ∧
    scan asciiToLower workerUnmarshal sampleMarshal sampleIdentity 9
        (scanEnvOf none emptyStore true) =
      Outcome.ok { failCount := 10, sent := [], stop := true } := by
  decide

/-- C12, amended. The `failCount` of a worker is one more than before after
a failed scan (fetch error, decode error or zero orders) and 0 after a
successful fetch, so that while the worker is polling it equals the number
of consecutive failed scans since the last successful fetch. A failed scan
that leaves `failCount` below 10 sends nothing and requests continue; the
failed scan that brings it to 10 requests stop and, if the context is not
cancelled, sends exactly one envelope, with `LastStatus = FAILED`. A worker
whose fetcher always errors and whose context is never cancelled stops after
exactly 10 scans with exactly one emission. -/
theorem failCount_and_failure_cap (toLower : String → String)
    (unmarshal : String → Option Response) (marshal : Response → Option String)
    (id : OrderIdentity) :
    (∀ failCount env, ∃ r, scan toLower unmarshal marshal id failCount env = Outcome.ok r ∧
      r.failCount = (if fetchFails unmarshal id env then failCount + 1 else 0) ∧
      (fetchFails unmarshal id env = true → failCount + 1 < 10 →
        r.sent = [] ∧ r.stop = false) ∧
      (fetchFails unmarshal id env = true → failCount + 1 = 10 →
        r.stop = true ∧ (env.ctxDone = false → r.sent = [failedEnvelope id]))) ∧
    (failedEnvelope id).LastStatus = "FAILED" ∧
    (∀ first turns,
      (StartOrderWorker toLower unmarshal marshal id first turns).ending = WorkerEnd.polling →
      (StartOrderWorker toLower unmarshal marshal id first turns).state.failCount =
        (trailingFailures unmarshal id (first :: turns.map (fun t => t.scanEnv)) : Int)) ∧
    (∀ first turns, fetchFails unmarshal id first = true → 9 ≤ turns.length →
      alwaysFailing unmarshal id turns →
      (StartOrderWorker toLower unmarshal marshal id first turns).scans = 10 ∧
      (StartOrderWorker toLower unmarshal marshal id first turns).sent = [failedEnvelope id] ∧
      (StartOrderWorker toLower unmarshal marshal id first turns).ending =
        WorkerEnd.stopped) := by
  refine ⟨?_, rfl, ?_, ?_⟩
  · intro failCount env
    cases hf : fetchAndParse unmarshal env.fetchFn id.UUID with
    | error msg =>
      have hfails : fetchFails unmarshal id env = true := by simp [fetchFails, hf]
      rw [scan_of_fetch_error toLower unmarshal marshal id failCount env msg hf, hfails]
      by_cases hm : failCount + 1 ≥ maxFails
      · rw [if_pos hm]
        refine ⟨_, rfl, by simp, ?_, ?_⟩
        · intro _ hlt
          unfold maxFails at hm
          omega
        · intro _ _
          refine ⟨rfl, ?_⟩
          intro hd
          simp only [hd, Bool.false_eq_true, if_false]
      · rw [if_neg hm]
        refine ⟨_, rfl, by simp, ?_, ?_⟩
        · intro _ _
          exact ⟨rfl, rfl⟩
        · intro _ heq
          unfold maxFails at hm
          omega
    | ok resp =>
      have hfails : fetchFails unmarshal id env = false := by simp [fetchFails, hf]
      obtain ⟨r, hr, hfc⟩ := scan_failCount toLower unmarshal marshal id failCount env
      refine ⟨r, hr, hfc, ?_, ?_⟩ <;>
        · intro h
          rw [hfails] at h
          exact absurd h (by simp)
  · intro first turns hend
    obtain ⟨r, hscan, hfc⟩ := scan_failCount toLower unmarshal marshal id 0 first
    unfold StartOrderWorker at hend ⊢
    simp only [hscan] at hend ⊢
    by_cases hs : r.stop = true
    · simp only [hs, if_true] at hend
      exact absurd hend (by decide)
    · simp only [hs, Bool.false_eq_true, if_false] at hend ⊢
      rw [pollingLoop_failCount toLower unmarshal marshal id turns _ hend,
        ← failCountAfter_eq_trailing]
      simp only [failCountAfter, hfc]
  · intro first turns hfirst hlen hall
    obtain ⟨msg, hmsg⟩ : ∃ msg, fetchAndParse unmarshal first.fetchFn id.UUID =
        Except.error msg := by
      unfold fetchFails at hfirst
      cases hc : fetchAndParse unmarshal first.fetchFn id.UUID with
      | error msg => exact ⟨msg, rfl⟩
      | ok resp => rw [hc] at hfirst; exact absurd hfirst (by simp)
    have hloop := pollingLoop_always_failing toLower unmarshal marshal id 8 turns
      { failCount := 0 + 1, noChangeCount := 0, lastKnownETA := -1 } (by norm_num)
      (by omega) hall
    have hlt : ¬ (0 : Int) + 1 ≥ maxFails := by unfold maxFails; omega
    unfold StartOrderWorker
    simp only [scan_of_fetch_error toLower unmarshal marshal id 0 first msg hmsg, if_neg hlt,
      Bool.false_eq_true, if_false, List.nil_append]
    exact ⟨by rw [hloop.1], hloop.2.1, hloop.2.2⟩

/-- Witness of the amended C12: a worker whose fetcher always errors makes
the initial scan and nine turns, then stops with one `FAILED` envelope. -/
theorem failCount_and_failure_cap_witness :
    (StartOrderWorker asciiToLower workerUnmarshal sampleMarshal sampleIdentity
      (scanEnvOf none emptyStore false) nineFailingTurns).scans = 10 ∧
    (StartOrderWorker asciiToLower workerUnmarshal sampleMarshal sampleIdentity
      (scanEnvOf none emptyStore false) nineFailingTurns).sent =
        [failedEnvelope sampleIdentity] ∧
    (StartOrderWorker asciiToLower workerUnmarshal sampleMarshal sampleIdentity
      (scanEnvOf none emptyStore false) nineFailingTurns).ending = WorkerEnd.stopped :=
  (failCount_and_failure_cap asciiToLower workerUnmarshal sampleMarshal sampleIdentity).2.2.2
    (scanEnvOf none emptyStore false) nineFailingTurns (by decide) (by decide)
    (fun t ht => by
      rw [List.eq_of_mem_replicate ht]
      decide)

/-! ### Identity fields of the envelopes -/

/-- C19 on the code: the worker of `sampleIdentity`, whose client is `c1`
and whose cuistot is `k1`, sends the `FAILED` envelope after ten failed
scans; that envelope carries the uuid, the channel and the guild of the
identity, and an empty `ClientID` and `CuistotID`. A regular emission built
by `emitUpdate` carries the five fields. -/
theorem failed_envelope_lacks_client_and_cuistot :
    sampleIdentity.ClientID = "c1" ∧ sampleIdentity.CuistotID = "k1" ∧
    (StartOrderWorker asciiToLower workerUnmarshal sampleMarshal sampleIdentity
      (scanEnvOf none emptyStore false) nineFailingTurns).sent =
        [failedEnvelope sampleIdentity] ∧
    (failedEnvelope sampleIdentity).UUID = "uuid-1" ∧
    (failedEnvelope sampleIdentity).ChannelID = "ch-1" ∧
    (failedEnvelope sampleIdentity).GuildID = "g1" ∧
    (failedEnvelope sampleIdentity).ClientID = "" ∧
    (failedEnvelope sampleIdentity).CuistotID = "" ∧
    (emitUpdate emptyStore sampleIdentity sampleResult 1 false).sent.map
        (fun t => (t.UUID, t.ChannelID, t.GuildID, t.ClientID, t.CuistotID)) =
      [("uuid-1", "ch-1", "g1", "c1", "k1")] := by
  decide

/-! ### Fields of the reconcile result -/

theorem reconcile_fields (toLower : String → String) (unmarshal : String → Option Response)
    (marshal : Response → Option String) (store : OrderStore) (uuid : String)
    (resp : Response) (newOrder : Order) (others : List Order) (r : ReconcileResult)
    (horders : resp.Data.Orders = newOrder :: others)
    (hr : Reconcile toLower unmarshal marshal store uuid resp = Outcome.ok r) :
    r.Phase = detectPhase toLower newOrder ∧
    r.Progress = progressOf (firstStatus
      (reconciledOrder toLower unmarshal (store.GetSnapshot uuid) newOrder)) ∧
    r.Text = textOf (firstStatus
      (reconciledOrder toLower unmarshal (store.GetSnapshot uuid) newOrder)) ∧
    r.Eta = ExtractETAFromOrder
      (reconciledOrder toLower unmarshal (store.GetSnapshot uuid) newOrder) ∧
    r.ShouldEmit =
      (!(priorOrder unmarshal (store.GetSnapshot uuid) newOrder).2 ||
        decide (r.Phase ≠ (store.GetSnapshot uuid).status) ||
        decide (r.Progress ≠ (store.GetSnapshot uuid).progress) ||
        decide (r.Text ≠ (store.GetSnapshot uuid).text) || decide (r.Eta ≥ 0)) := by
  unfold Reconcile at hr
  rw [horders] at hr
  simp only [] at hr
  split at hr
  · exact absurd hr (by simp)
  · simp only [Outcome.ok.injEq] at hr
    subst hr
    exact ⟨rfl, rfl, rfl, rfl, rfl⟩

theorem reconcile_returns (toLower : String → String) (unmarshal : String → Option Response)
    (marshal : Response → Option String) (store : OrderStore) (uuid : String)
    (resp : Response) (hresp : resp.Data.Orders ≠ [])
    (hm : ∀ x, (marshal x).isSome = true) :
    ∃ r, Reconcile toLower unmarshal marshal store uuid resp = Outcome.ok r := by
  obtain ⟨newOrder, others, horders⟩ := List.exists_cons_of_ne_nil hresp
  unfold Reconcile
  rw [horders]
  simp only []
  split
  · rename_i heq
    rw [← Option.not_isSome_iff_eq_none] at heq
    exact absurd (hm _) heq
  · exact ⟨_, rfl⟩

theorem mergeOrderData_background (toLower : String → String) (master incoming : Order)
    (hasOldData : Bool) :
    (MergeOrderData toLower master incoming hasOldData).1.BackgroundFeedCards =
      master.BackgroundFeedCards := by
  unfold MergeOrderData restorePreservedInfo
  by_cases hp : detectPhase toLower incoming = phaseCompleted <;>
    by_cases h1 : incoming.ActiveOrderOverview.Title = "" <;>
    by_cases h2 : incoming.Contacts.length > 0 <;>
    cases hin : incoming.FeedCards with
    | nil =>
      simp only [hp, h1, h2]
      split <;> simp_all
    | cons first others =>
      by_cases hs : first.Status.isSome = true <;>
        (simp only [hp, h1, h2, hs]; split <;> simp_all)

theorem extractETA_of_background (o₁ o₂ : Order)
    (h : o₁.BackgroundFeedCards = o₂.BackgroundFeedCards) :
    ExtractETAFromOrder o₁ = ExtractETAFromOrder o₂ := by
  unfold ExtractETAFromOrder
  rw [h]

theorem priorOrder_eq (unmarshal : String → Option Response) (snap : Snapshot)
    (newOrder : Order) :
    ((priorOrder unmarshal snap newOrder).2 = false ∧
      (priorOrder unmarshal snap newOrder).1 = newOrder) ∨
    ((priorOrder unmarshal snap newOrder).2 = true ∧ snap.err = false ∧ snap.rawJSON ≠ "" ∧
      ∃ lastResp rest, unmarshal snap.rawJSON = some lastResp ∧
        lastResp.Data.Orders = (priorOrder unmarshal snap newOrder).1 :: rest) := by
  by_cases he : snap.err = false ∧ snap.rawJSON ≠ ""
  · cases hu : unmarshal snap.rawJSON with
    | none => exact Or.inl (by simp [priorOrder, he, hu])
    | some lastResp =>
      cases ho : lastResp.Data.Orders with
      | nil => exact Or.inl (by simp [priorOrder, he, hu, ho])
      | cons first rest =>
        exact Or.inr ⟨by simp [priorOrder, he, hu, ho], he.1, he.2, lastResp, rest, rfl,
          by simp [priorOrder, he, hu, ho]⟩
  · exact Or.inl (by simp only [priorOrder, if_neg he, and_self])

/-! ### ETA of the reconcile result -/

theorem reconciledOrder_background (toLower : String → String)
    (unmarshal : String → Option Response) (snap : Snapshot) (newOrder : Order) :
    (reconciledOrder toLower unmarshal snap newOrder).BackgroundFeedCards =
      if newOrder.BackgroundFeedCards = [] then
        (priorOrder unmarshal snap newOrder).1.BackgroundFeedCards
      else newOrder.BackgroundFeedCards := by
  unfold reconciledOrder
  simp only []
  cases hb : newOrder.BackgroundFeedCards with
  | nil => simp [mergeOrderData_background]
  | cons card rest => simp

/-- C16, as stated, fails: the stored order has a `LABEL` of 12 minutes, the
incoming order has no background feed card, and the `Eta` returned by
`Reconcile` is 12, the ETA of the stored snapshot, while
`ExtractETAFromOrder` of the incoming order is -1. -/
theorem reconcile_eta_carried_over :
    ∃ r, Reconcile asciiToLower storedUnmarshal sampleMarshal
        (storeWith "ACTIVE" 0 "" labelJSON) "uuid-1" activeResponse = Outcome.ok r ∧
      r.Eta = 12 ∧ ExtractETAFromOrder activeOrder = -1 ∧
      activeResponse.Data.Orders = [activeOrder] :=
  ⟨_, rfl, by decide, by decide, rfl⟩

/-- C16, amended: for every store state and response with at least one
order, the `Eta` returned by `Reconcile` is `ExtractETAFromOrder` of the
incoming order when the incoming order has at least one background feed card
or `has_old_data` is false; when the incoming order has no background feed
card and `has_old_data` is true, it is `ExtractETAFromOrder` of the stored
order, the ETA being carried over. `hempty` is the fact that
`json.Unmarshal` rejects an empty input. -/
theorem reconcile_eta (toLower : String → String) (unmarshal : String → Option Response)
    (marshal : Response → Option String) (store : OrderStore) (uuid : String)
    (resp : Response) (newOrder : Order) (others : List Order)
    (horders : resp.Data.Orders = newOrder :: others) (hempty : unmarshal "" = none) :
    (∀ r, Reconcile toLower unmarshal marshal store uuid resp = Outcome.ok r →
      ((newOrder.BackgroundFeedCards ≠ [] ∨
          ¬ ((store.GetSnapshot uuid).err = false ∧
            storedDecodes unmarshal (store.GetSnapshot uuid))) →
        r.Eta = ExtractETAFromOrder newOrder) ∧
      (newOrder.BackgroundFeedCards = [] → (store.GetSnapshot uuid).err = false →
        ∀ lastResp first rest, unmarshal (store.GetSnapshot uuid).rawJSON = some lastResp →
          lastResp.Data.Orders = first :: rest → r.Eta = ExtractETAFromOrder first)) ∧
    ((∀ x, (marshal x).isSome = true) →
      ∃ r, Reconcile toLower unmarshal marshal store uuid resp = Outcome.ok r) := by
  refine ⟨?_, reconcile_returns toLower unmarshal marshal store uuid resp
    (by rw [horders]; simp)⟩
  intro r hr
  obtain ⟨-, -, -, heta, -⟩ :=
    reconcile_fields toLower unmarshal marshal store uuid resp newOrder others r horders hr
  rw [heta]
  have hbg := reconciledOrder_background toLower unmarshal (store.GetSnapshot uuid) newOrder
  constructor
  · intro h
    apply extractETA_of_background
    rw [hbg]
    by_cases hb : newOrder.BackgroundFeedCards = []
    · rw [if_pos hb]
      rcases h with h | h
      · exact absurd hb h
      · rcases priorOrder_eq unmarshal (store.GetSnapshot uuid) newOrder with ⟨-, h1⟩ | ⟨h2, -⟩
        · rw [h1]
        · exact absurd
            ((priorOrder_snd unmarshal (store.GetSnapshot uuid) newOrder hempty).mp h2) h
    · rw [if_neg hb]
  · intro hb herr lastResp first rest hu ho
    apply extractETA_of_background
    rw [hbg, if_pos hb]
    rcases priorOrder_eq unmarshal (store.GetSnapshot uuid) newOrder with ⟨h1, -⟩ | ⟨-, -, -, h2⟩
    · have hdec : (priorOrder unmarshal (store.GetSnapshot uuid) newOrder).2 = true :=
        (priorOrder_snd unmarshal (store.GetSnapshot uuid) newOrder hempty).mpr
          ⟨herr, lastResp, hu, by rw [ho]; simp⟩
      rw [h1] at hdec
      exact absurd hdec (by simp)
    · obtain ⟨lastResp1, rest1, hu1, ho1⟩ := h2
      rw [hu] at hu1
      simp only [Option.some.injEq] at hu1
      subst hu1
      rw [ho] at ho1
      simp only [List.cons.injEq] at ho1
      rw [← ho1.1]

/-- Witness of the amended C16: with the same stored snapshot, an incoming
order that has a background feed card without any `LABEL` gives `Eta = -1`,
the ETA of the incoming order. -/
theorem reconcile_eta_witness :
    ∃ r, Reconcile asciiToLower storedUnmarshal sampleMarshal
        (storeWith "ACTIVE" 0 "" labelJSON) "uuid-1"
        (responseOf { activeOrder with
          BackgroundFeedCards := [{ Typ := "", MapEntity := [] }] }) = Outcome.ok r ∧
      r.Eta = -1 ∧
      r.Eta = ExtractETAFromOrder { activeOrder with
        BackgroundFeedCards := [{ Typ := "", MapEntity := [] }] } :=
  ⟨_, rfl, by decide,
    ((reconcile_eta asciiToLower storedUnmarshal sampleMarshal
      (storeWith "ACTIVE" 0 "" labelJSON) "uuid-1"
      (responseOf { activeOrder with BackgroundFeedCards := [{ Typ := "", MapEntity := [] }] })
      { activeOrder with BackgroundFeedCards := [{ Typ := "", MapEntity := [] }] } [] rfl
      (by decide)).1 _ rfl).1 (Or.inl (by decide))⟩

/-! ### Progress and text of the reconcile result -/

theorem firstStatus_eq_head (o : Order) :
    firstStatus o = ((o.FeedCards.map (fun c => c.Status)).head?).getD none := by
  unfold firstStatus
  cases o.FeedCards with
  | nil => rfl
  | cons first rest => rfl

theorem reconciledOrder_firstStatus (toLower : String → String)
    (unmarshal : String → Option Response) (snap : Snapshot) (newOrder : Order) :
    firstStatus (reconciledOrder toLower unmarshal snap newOrder) =
      (((updatedCards toLower (priorOrder unmarshal snap newOrder).1 newOrder).map
        (fun c => c.Status)).head?).getD none := by
  rw [firstStatus_eq_head, ← mergeOrderData_statuses toLower
    (priorOrder unmarshal snap newOrder).1 newOrder (priorOrder unmarshal snap newOrder).2]
  unfold reconciledOrder
  simp only []
  split <;> rfl

theorem updatedCards_of_status (toLower : String → String) (master incoming : Order)
    (hp : detectPhase toLower incoming ≠ "COMPLETED")
    (hs : (firstStatus incoming).isSome = true) :
    updatedCards toLower master incoming = incoming.FeedCards := by
  have hp1 : ¬ detectPhase toLower incoming = phaseCompleted := hp
  unfold updatedCards
  rw [if_neg hp1]
  unfold firstStatus at hs
  cases hin : incoming.FeedCards with
  | nil => rw [hin] at hs; exact absurd hs (by simp)
  | cons first rest =>
    rw [hin] at hs
    simp only [] at hs
    simp only [hs, if_true]

/-- When the effective phase is not `COMPLETED` and the first feed card of
the incoming order has a status, the progress and the text of the result are
read from that status. -/
theorem reconciledOrder_firstStatus_incoming (toLower : String → String)
    (unmarshal : String → Option Response) (snap : Snapshot) (newOrder : Order)
    (hp : detectPhase toLower newOrder ≠ "COMPLETED")
    (hs : (firstStatus newOrder).isSome = true) :
    firstStatus (reconciledOrder toLower unmarshal snap newOrder) = firstStatus newOrder := by
  rw [reconciledOrder_firstStatus, updatedCards_of_status toLower _ newOrder hp hs,
    ← firstStatus_eq_head]

theorem updatedCards_self (toLower : String → String) (o : Order)
    (hp : detectPhase toLower o ≠ "COMPLETED") :
    updatedCards toLower o o = o.FeedCards := by
  have hp1 : ¬ detectPhase toLower o = phaseCompleted := hp
  unfold updatedCards
  rw [if_neg hp1]
  cases hin : o.FeedCards with
  | nil => rfl
  | cons first rest => simp only [ite_self]

theorem markCompleted_head_status (cards : List FeedCard) :
    (((markCompleted cards).map (fun c => c.Status)).head?).getD none =
      ((((cards.map (fun c => c.Status)).head?).getD none).map completedStatus) := by
  cases cards with
  | nil => rfl
  | cons first rest =>
    unfold markCompleted
    cases hs : first.Status with
    | none => simp [hs]
    | some s => simp [hs]

/-- C18, as stated, fails: on a first poll of an order in phase `COMPLETED`
whose first feed card has a status at progress 2 with an empty summary text,
`Reconcile` returns the progress 5 and the text `Livraison terminée`. -/
theorem first_poll_completed_progress :
    emptyStore.GetSnapshot "uuid-first" =
      { status := "", progress := 0, text := "", rawJSON := "", err := false } ∧
    progressOf (firstStatus completedOrder) = 2 ∧ textOf (firstStatus completedOrder) = "" ∧
    ∃ r, Reconcile asciiToLower storedUnmarshal sampleMarshal emptyStore "uuid-first"
        (responseOf completedOrder) = Outcome.ok r ∧
      r.Phase = "COMPLETED" ∧ r.Progress = 5 ∧ r.Text = "Livraison terminée" :=
  ⟨rfl, by decide, by decide, _, rfl, by decide, by decide, by decide⟩

/-- C18, amended: on a first poll (the store returns the empty snapshot and
no error), for every response with at least one order, `Reconcile` returns
`ShouldEmit = true`, `Phase` = the effective phase of the incoming order and
`Eta = ExtractETAFromOrder` of the incoming order. When the effective phase
is not `COMPLETED`, `Progress` and `Text` are the `current_progress` and the
`status_summary.text` of the status of the incoming order's first feed card
(0 and empty when that card or its status is absent); when it is `COMPLETED`
they are 5 and `Livraison terminée` if that first feed card carries a status,
and 0 and empty otherwise. `Reconcile` returns a result as soon as
`json.Marshal` does not fail. -/
theorem reconcile_first_poll (toLower : String → String)
    (unmarshal : String → Option Response) (marshal : Response → Option String)
    (store : OrderStore) (uuid : String) (resp : Response) (newOrder : Order)
    (others : List Order) (horders : resp.Data.Orders = newOrder :: others)
    (hsnap : store.GetSnapshot uuid =
      { status := "", progress := 0, text := "", rawJSON := "", err := false }) :
    (∀ r, Reconcile toLower unmarshal marshal store uuid resp = Outcome.ok r →
      r.ShouldEmit = true ∧ r.Phase = detectPhase toLower newOrder ∧
      r.Eta = ExtractETAFromOrder newOrder ∧
      (r.Phase ≠ "COMPLETED" →
        r.Progress = progressOf (firstStatus newOrder) ∧
        r.Text = textOf (firstStatus newOrder)) ∧
      (r.Phase = "COMPLETED" → (firstStatus newOrder).isSome = true →
        r.Progress = 5 ∧ r.Text = "Livraison terminée") ∧
      (r.Phase = "COMPLETED" → firstStatus newOrder = none →
        r.Progress = 0 ∧ r.Text = "")) ∧
    ((∀ x, (marshal x).isSome = true) →
      ∃ r, Reconcile toLower unmarshal marshal store uuid resp = Outcome.ok r) := by
  refine ⟨?_, reconcile_returns toLower unmarshal marshal store uuid resp
    (by rw [horders]; simp)⟩
  intro r hr
  obtain ⟨hphase, hprog, htext, heta, hemit⟩ :=
    reconcile_fields toLower unmarshal marshal store uuid resp newOrder others r horders hr
  have hprior : priorOrder unmarshal (store.GetSnapshot uuid) newOrder = (newOrder, false) := by
    rw [hsnap]
    simp [priorOrder]
  have hbg := reconciledOrder_background toLower unmarshal (store.GetSnapshot uuid) newOrder
  have hfs := reconciledOrder_firstStatus toLower unmarshal (store.GetSnapshot uuid) newOrder
  rw [hprior] at hbg hfs
  simp only [ite_self] at hbg
  refine ⟨?_, hphase, ?_, ?_, ?_, ?_⟩
  · rw [hemit, hprior]; rfl
  · rw [heta]; exact extractETA_of_background _ _ hbg
  · intro hne
    rw [hphase] at hne
    rw [updatedCards_self toLower newOrder hne, ← firstStatus_eq_head] at hfs
    rw [hprog, htext, hfs]
    exact ⟨rfl, rfl⟩
  · intro hc hs
    rw [hphase] at hc
    have hc1 : detectPhase toLower newOrder = phaseCompleted := hc
    unfold updatedCards at hfs
    rw [if_pos hc1, markCompleted_head_status, ← firstStatus_eq_head] at hfs
    obtain ⟨s, hs1⟩ := Option.isSome_iff_exists.mp hs
    rw [hprog, htext, hfs, hs1]
    exact ⟨rfl, rfl⟩
  · intro hc hs
    rw [hphase] at hc
    have hc1 : detectPhase toLower newOrder = phaseCompleted := hc
    unfold updatedCards at hfs
    rw [if_pos hc1, markCompleted_head_status, ← firstStatus_eq_head] at hfs
    rw [hprog, htext, hfs, hs]
    exact ⟨rfl, rfl⟩

/-- Witness of the amended C18: the first poll of
`TestReconcile_ShouldEmit_FirstPoll`. -/
theorem reconcile_first_poll_witness :
    ∃ r, Reconcile asciiToLower storedUnmarshal sampleMarshal emptyStore "uuid-first"
        (responseOf preparingOrder) = Outcome.ok r ∧
      r.ShouldEmit = true ∧ r.Phase = detectPhase asciiToLower preparingOrder ∧
      r.Eta = ExtractETAFromOrder preparingOrder ∧ r.Phase = "ACTIVE" ∧ r.Progress = 2 :=
  have h := (reconcile_first_poll asciiToLower storedUnmarshal sampleMarshal emptyStore
    "uuid-first" (responseOf preparingOrder) preparingOrder [] rfl rfl).1 _ rfl
  ⟨_, rfl, h.1, h.2.1, h.2.2.1, by decide, by decide⟩

/-! ### Emission predicate on an unchanged order -/

set_option maxRecDepth 8000

theorem detectPhase_of_not_completed (toLower : String → String) (o : Order)
    (h : o.OrderStatus.OrderPhase ≠ "COMPLETED") :
    detectPhase toLower o = o.OrderStatus.OrderPhase := by
  have h1 : ¬ o.OrderStatus.OrderPhase = phaseCompleted := h
  unfold detectPhase
  simp only [if_neg h1]

theorem extractETA_of_no_label (o : Order)
    (h : (mapEntities o).find? isEtaLabel = none) : ExtractETAFromOrder o = -1 := by
  unfold ExtractETAFromOrder
  unfold mapEntities at h
  rw [scanCards_find, h]

theorem background_ne_nil_of_eta (o : Order) (h : ExtractETAFromOrder o ≥ 0) :
    o.BackgroundFeedCards ≠ [] := by
  intro hnil
  unfold ExtractETAFromOrder at h
  rw [hnil] at h
  simp only [scanCards] at h
  omega

/-- C17, as stated, fails. First, the store holds the snapshot
`(ACTIVE, 2, "", preparingJSON)` of `preparingOrder`, the incoming order is
the same order with an added `LABEL` entity whose title `-3` parses as an
integer, and `ShouldEmit` is false. Second, the store holds the snapshot
`(CANCELLED, 2, "", storedCancelledJSON)` of `storedCancelledOrder`, the
incoming order is the same order with its phase changed to `COMPLETED`, and
`ShouldEmit` is false, the effective phase being `CANCELLED` again. -/
theorem unchanged_emission_corner_cases :
    (strconvAtoi (stringsTrimSpace "-3") = some (-3) ∧
      ∃ r, Reconcile asciiToLower storedUnmarshal sampleMarshal
          (storeWith "ACTIVE" 2 "" preparingJSON) "uuid-nochange"
          (responseOf { preparingOrder with
            BackgroundFeedCards :=
              [{ Typ := "", MapEntity :=
                  [{ UUID := "", Typ := "LABEL", Title := "-3", Subtitle := [] }] }] })
          = Outcome.ok r ∧
        r.ShouldEmit = false) ∧
    (cancelledOrder =
        { storedCancelledOrder with OrderStatus := { OrderPhase := "COMPLETED" } } ∧
      storedCancelledOrder.OrderStatus.OrderPhase = "CANCELLED" ∧
      ∃ r, Reconcile asciiToLower storedUnmarshal sampleMarshal
          (storeWith "CANCELLED" 2 "" storedCancelledJSON) "uuid-nochange"
          (responseOf cancelledOrder) = Outcome.ok r ∧
        r.ShouldEmit = false) :=
  ⟨⟨by decide, _, rfl, by decide⟩, ⟨by decide, by decide, _, rfl, by decide⟩⟩

/-- C17, amended. Let `o` be an order with no `LABEL` entity that parses as
an integer, a phase `p` other than `COMPLETED`, and a first feed card whose
status has `current_progress` `g` and `status_summary.text` `t`, and let the
store hold the snapshot `(p, g, t, J)` where `J` decodes to a `Response`
whose first order is `o`. When the first order of the response is `o`,
`Reconcile` returns `ShouldEmit = false`. For an incoming order `o'`,
`ShouldEmit` is true when the effective phase of `o'` differs from `p`, when
the effective phase of `o'` is not `COMPLETED` and the status of its first
feed card has another progress or another text, and when
`ExtractETAFromOrder o'` is at least 0. -/
theorem reconcile_no_change (toLower : String → String)
    (unmarshal : String → Option Response) (marshal : Response → Option String)
    (store : OrderStore) (uuid : String) (o : Order) (p : String) (g : Int) (t J : String)
    (prev : Response) (rest0 : List Order) (s : StatusInfo)
    (hsnap : store.GetSnapshot uuid =
      { status := p, progress := g, text := t, rawJSON := J, err := false })
    (hdec : unmarshal J = some prev) (hprev : prev.Data.Orders = o :: rest0)
    (hempty : unmarshal "" = none)
    (hphase : o.OrderStatus.OrderPhase = p) (hpc : p ≠ "COMPLETED")
    (hstatus : firstStatus o = some s) (hg : s.CurrentProgress = g)
    (ht : s.StatusSummary.Text = t)
    (heta : (mapEntities o).find? isEtaLabel = none)
    (hm : ∀ x, (marshal x).isSome = true) :
    (∀ others, ∃ r,
      Reconcile toLower unmarshal marshal store uuid { Data := { Orders := o :: others } } =
        Outcome.ok r ∧ r.ShouldEmit = false) ∧
    (∀ o1 others, ∃ r,
      Reconcile toLower unmarshal marshal store uuid { Data := { Orders := o1 :: others } } =
        Outcome.ok r ∧
      (detectPhase toLower o1 ≠ p → r.ShouldEmit = true) ∧
      (detectPhase toLower o1 ≠ "COMPLETED" → ∀ s1, firstStatus o1 = some s1 →
        (s1.CurrentProgress ≠ g ∨ s1.StatusSummary.Text ≠ t) → r.ShouldEmit = true) ∧
      (ExtractETAFromOrder o1 ≥ 0 → r.ShouldEmit = true)) := by
  have hJ : J ≠ "" := by
    intro hJ
    rw [hJ, hempty] at hdec
    exact absurd hdec (by simp)
  have hprior : ∀ newOrder, priorOrder unmarshal (store.GetSnapshot uuid) newOrder = (o, true) := by
    intro newOrder
    rw [hsnap]
    simp [priorOrder, hJ, hdec, hprev]
  constructor
  · intro others
    obtain ⟨r, hr⟩ := reconcile_returns toLower unmarshal marshal store uuid
      { Data := { Orders := o :: others } } (by simp) hm
    obtain ⟨h1, h2, h3, h4, h5⟩ := reconcile_fields toLower unmarshal marshal store uuid
      { Data := { Orders := o :: others } } o others r rfl hr
    have hdp : detectPhase toLower o = p := by
      rw [detectPhase_of_not_completed toLower o (by rw [hphase]; exact hpc), hphase]
    have hfs := reconciledOrder_firstStatus_incoming toLower unmarshal (store.GetSnapshot uuid) o
      (by rw [hdp]; exact hpc) (by rw [hstatus]; rfl)
    have hbg := reconciledOrder_background toLower unmarshal (store.GetSnapshot uuid) o
    rw [hprior o] at hbg
    simp only [ite_self] at hbg
    have he : r.Eta = -1 := by
      rw [h4, extractETA_of_background _ _ hbg]
      exact extractETA_of_no_label o heta
    have hpg : r.Progress = g := by rw [h2, hfs, hstatus]; exact hg
    have htx : r.Text = t := by rw [h3, hfs, hstatus]; exact ht
    refine ⟨r, hr, ?_⟩
    rw [h5, hprior o, hsnap, h1, hdp, hpg, htx, he]
    simp
  · intro o1 others
    obtain ⟨r, hr⟩ := reconcile_returns toLower unmarshal marshal store uuid
      { Data := { Orders := o1 :: others } } (by simp) hm
    obtain ⟨h1, h2, h3, h4, h5⟩ := reconcile_fields toLower unmarshal marshal store uuid
      { Data := { Orders := o1 :: others } } o1 others r rfl hr
    refine ⟨r, hr, ?_, ?_, ?_⟩
    · intro hne
      rw [h5, hsnap, h1]
      simp [hne]
    · intro hnc s1 hs1 hdiff
      have hfs := reconciledOrder_firstStatus_incoming toLower unmarshal
        (store.GetSnapshot uuid) o1 hnc (by rw [hs1]; rfl)
      have hpg : r.Progress = s1.CurrentProgress := by rw [h2, hfs, hs1]; rfl
      have htx : r.Text = s1.StatusSummary.Text := by rw [h3, hfs, hs1]; rfl
      rw [h5, hsnap, hpg, htx]
      rcases hdiff with hd | hd <;> simp [hd]
    · intro hge
      have hbg := reconciledOrder_background toLower unmarshal (store.GetSnapshot uuid) o1
      rw [if_neg (background_ne_nil_of_eta o1 hge)] at hbg
      have he : r.Eta = ExtractETAFromOrder o1 := by
        rw [h4]; exact extractETA_of_background _ _ hbg
      rw [h5, he]
      simp [hge]

/-- Witness of the amended C17: the unchanged order of
`TestReconcile_ShouldEmit_NoChange_StillEmitsDueToETA`, for which
`ShouldEmit` is false. -/
theorem reconcile_no_change_witness :
    ∃ r, Reconcile asciiToLower storedUnmarshal sampleMarshal
        (storeWith "ACTIVE" 2 "" preparingJSON) "uuid-nochange"
        (responseOf preparingOrder) = Outcome.ok r ∧
      r.ShouldEmit = false :=
  (reconcile_no_change asciiToLower storedUnmarshal sampleMarshal
    (storeWith "ACTIVE" 2 "" preparingJSON) "uuid-nochange" preparingOrder "ACTIVE" 2 ""
    preparingJSON (responseOf preparingOrder) []
    { StatusInfo.zero with CurrentProgress := 2, TotalProgress := 5, Title := "En préparation" }
    rfl (by decide) rfl (by decide) rfl (by decide) rfl rfl rfl (by decide)
    (fun _ => rfl)).1 []

/-! ### Contacts -/

/-- C23: for every master, incoming and `hasOldData`, the contacts of the
merged order are those of incoming when incoming has some, and those of
master otherwise. -/
theorem mergeOrderData_contacts (toLower : String → String) (master incoming : Order)
    (hasOldData : Bool) :
    (incoming.Contacts ≠ [] →
      (MergeOrderData toLower master incoming hasOldData).1.Contacts = incoming.Contacts) ∧
    (incoming.Contacts = [] →
      (MergeOrderData toLower master incoming hasOldData).1.Contacts = master.Contacts) := by
  have key : (MergeOrderData toLower master incoming hasOldData).1.Contacts =
      if incoming.Contacts.length > 0 then incoming.Contacts else master.Contacts := by
    unfold MergeOrderData restorePreservedInfo
    by_cases hp : detectPhase toLower incoming = phaseCompleted <;>
      by_cases h1 : incoming.ActiveOrderOverview.Title = "" <;>
      by_cases h2 : incoming.Contacts.length > 0 <;>
      cases hin : incoming.FeedCards with
      | nil =>
        simp only [hp, h1, h2]
        split <;> simp_all
      | cons first others =>
        by_cases hs : first.Status.isSome = true <;>
          (simp only [hp, h1, h2, hs]; split <;> simp_all)
  rw [key]
  constructor
  · intro h
    rw [if_pos (List.length_pos.mpr h)]
  · intro h
    rw [if_neg (by rw [h]; simp)]

/-- Witness of C23: the merge of `TestMergeOrderData_PreservesContactInfo`,
and a merge in which the incoming order brings its own contact. -/
theorem mergeOrderData_contacts_witness :
    (sampleOrder.Contacts = [] ∧
      (MergeOrderData id contactOrder sampleOrder true).1.Contacts = contactOrder.Contacts) ∧
    (contactOrder.Contacts ≠ [] ∧
      (MergeOrderData id sampleOrder contactOrder true).1.Contacts = contactOrder.Contacts) :=
  ⟨⟨rfl, (mergeOrderData_contacts id contactOrder sampleOrder true).2 rfl⟩,
    ⟨by decide, (mergeOrderData_contacts id sampleOrder contactOrder true).1 (by decide)⟩⟩

/-! ### Replacement of the feed cards -/

theorem restoreCard_filledFrom (fc : FeedCard) (p : preservedInfo) :
    filledFrom fc (restoreCard fc p) := by
  refine ⟨?_, restoreCard_status fc p, ?_, ?_, ?_, ?_, ?_⟩
  · unfold restoreCard
    simp only []
    split_ifs <;> (try split) <;> (try split_ifs) <;> rfl
  · unfold restoreCard
    simp only []
    split_ifs <;> (try split) <;> (try split_ifs) <;> rfl
  · by_cases hp : p.pin = ""
    · unfold restoreCard
      simp only []
      split_ifs <;> (try split) <;> (try split_ifs) <;> simp_all
    · rw [restoreCard_courier fc p hp]
      cases fc.Courier with
      | nil => rfl
      | cons c cs =>
        simp only []
        split_ifs <;> rfl
  · intro h
    have := restoreCard_total_keep fc p h
    cases hr : (restoreCard fc p).OrderSummary with
    | mk total =>
      rw [hr] at this
      simp only [] at this
      rw [this]
  · intro d hd h
    exact restoreCard_delivery_keep fc p d hd h
  · intro c hc h
    cases hcs : fc.Courier with
    | nil => rw [hcs] at hc; exact absurd hc (by simp)
    | cons c1 cs =>
      rw [hcs] at hc
      simp only [List.head?_cons, Option.some.injEq] at hc
      subst hc
      rw [restoreCard_courier_keep fc p c1 cs hcs h]
      rfl

/-- C26: when the effective phase is not `COMPLETED` and the first feed card
of incoming carries a status, the merged order has as many feed cards as
incoming, its cards from index 1 on are incoming's, and its card 0 is
incoming's card 0 up to a total, delivery address or `courier[0]` PIN filled
in by restoration (its status is incoming's). When the phase is not
`COMPLETED` and that condition fails, the merged feed cards are master's, up
to restoration into card 0. -/
theorem mergeOrderData_replaces_cards (toLower : String → String) (master incoming : Order)
    (hasOldData : Bool)
    (hphase : (MergeOrderData toLower master incoming hasOldData).2 ≠ "COMPLETED") :
    (∀ first others, incoming.FeedCards = first :: others → first.Status.isSome = true →
      ∃ card0, (MergeOrderData toLower master incoming hasOldData).1.FeedCards =
          card0 :: others ∧
        filledFrom first card0 ∧ card0.Status = first.Status ∧
        (MergeOrderData toLower master incoming hasOldData).1.FeedCards.length =
          incoming.FeedCards.length) ∧
    ((firstStatus incoming).isSome = false →
      ((master.FeedCards = [] →
          (MergeOrderData toLower master incoming hasOldData).1.FeedCards = []) ∧
        (∀ first others, master.FeedCards = first :: others →
          ∃ card0, (MergeOrderData toLower master incoming hasOldData).1.FeedCards =
              card0 :: others ∧ filledFrom first card0))) := by
  rw [mergeOrderData_snd] at hphase
  have hphase1 : ¬ detectPhase toLower incoming = phaseCompleted := hphase
  constructor
  · intro first others hin hs
    have hu : updatedCards toLower master incoming = first :: others := by
      rw [updatedCards_of_status toLower master incoming hphase
        (by unfold firstStatus; rw [hin]; exact hs), hin]
    refine ⟨restoreCard first (keptInfo master incoming hasOldData), ?_,
      restoreCard_filledFrom _ _, restoreCard_status _ _, ?_⟩
    · rw [mergeOrderData_feedCards, hu]
    · rw [mergeOrderData_feedCards, hu, hin]
      rfl
  · intro hs
    have hu : updatedCards toLower master incoming = master.FeedCards := by
      unfold updatedCards
      rw [if_neg hphase1]
      unfold firstStatus at hs
      cases hin : incoming.FeedCards with
      | nil => rfl
      | cons first others =>
        rw [hin] at hs
        simp only [] at hs
        simp only [hs, Bool.false_eq_true, if_false]
    constructor
    · intro hm
      rw [mergeOrderData_feedCards, hu, hm]
    · intro first others hm
      refine ⟨restoreCard first (keptInfo master incoming hasOldData), ?_,
        restoreCard_filledFrom _ _⟩
      rw [mergeOrderData_feedCards, hu, hm]

/-- Witness of C26: the incoming order of `TestMergeOrderData_RestoresMissing`
replaces the feed cards of master, its card 0 being filled by restoration. -/
theorem mergeOrderData_replaces_cards_witness :
    ∃ card0, (MergeOrderData id (sampleOrderWith "18.50€" "5 Avenue Foch" "9876") sampleOrder
        true).1.FeedCards = card0 :: [] ∧
      filledFrom
        { FeedCard.zero with
          Status := some { StatusInfo.zero with
            CurrentProgress := 2, TotalProgress := 5, Title := "En préparation" } } card0 ∧
      card0.Status = some { StatusInfo.zero with
        CurrentProgress := 2, TotalProgress := 5, Title := "En préparation" } ∧
      (MergeOrderData id (sampleOrderWith "18.50€" "5 Avenue Foch" "9876") sampleOrder
        true).1.FeedCards.length = sampleOrder.FeedCards.length :=
  (mergeOrderData_replaces_cards id (sampleOrderWith "18.50€" "5 Avenue Foch" "9876")
    sampleOrder true (by decide)).1 _ [] rfl rfl

/-! ### Snapshot read errors -/

theorem priorOrder_of_err (unmarshal : String → Option Response) (snap : Snapshot)
    (newOrder : Order) (h : snap.err = true) :
    priorOrder unmarshal snap newOrder = (newOrder, false) := by
  unfold priorOrder
  simp [h]

theorem priorOrder_of_empty (unmarshal : String → Option Response) (snap : Snapshot)
    (newOrder : Order) (h : snap.rawJSON = "") :
    priorOrder unmarshal snap newOrder = (newOrder, false) := by
  unfold priorOrder
  simp [h]

theorem reconcile_of_no_old_data (toLower : String → String)
    (unmarshal : String → Option Response) (marshal : Response → Option String)
    (store₁ store₂ : OrderStore) (uuid : String) (resp : Response)
    (h₁ : ∀ newOrder, priorOrder unmarshal (store₁.GetSnapshot uuid) newOrder = (newOrder, false))
    (h₂ : ∀ newOrder, priorOrder unmarshal (store₂.GetSnapshot uuid) newOrder = (newOrder, false)) :
    Reconcile toLower unmarshal marshal store₁ uuid resp =
      Reconcile toLower unmarshal marshal store₂ uuid resp := by
  unfold Reconcile
  cases resp.Data.Orders with
  | nil => rfl
  | cons newOrder others =>
    simp only [h₁ newOrder, h₂ newOrder, Bool.not_false, Bool.true_or]

/-- C29: if `GetSnapshot` returns an error, `Reconcile` behaves exactly as
on a first poll: its outcome is the one it has when the store returns the
empty snapshot, so the error does not make it fail; `has_old_data` is false,
`ShouldEmit` is true, and the order it serialises is the one built from the
incoming order alone, whatever the snapshot returned with the error holds. -/
theorem reconcile_on_snapshot_error (toLower : String → String)
    (unmarshal : String → Option Response) (marshal : Response → Option String)
    (store : OrderStore) (uuid : String) (resp : Response)
    (herr : (store.GetSnapshot uuid).err = true) :
    (∀ store0 : OrderStore, store0.GetSnapshot uuid = emptySnapshot →
      Reconcile toLower unmarshal marshal store uuid resp =
        Reconcile toLower unmarshal marshal store0 uuid resp) ∧
    (∀ newOrder, priorOrder unmarshal (store.GetSnapshot uuid) newOrder = (newOrder, false)) ∧
    (∀ newOrder, reconciledOrder toLower unmarshal (store.GetSnapshot uuid) newOrder =
      reconciledOrder toLower unmarshal emptySnapshot newOrder) ∧
    (∀ r, Reconcile toLower unmarshal marshal store uuid resp = Outcome.ok r →
      r.ShouldEmit = true) ∧
    (resp.Data.Orders ≠ [] → (∀ x, (marshal x).isSome = true) →
      ∃ r, Reconcile toLower unmarshal marshal store uuid resp = Outcome.ok r) := by
  have hprior := fun newOrder =>
    priorOrder_of_err unmarshal (store.GetSnapshot uuid) newOrder herr
  refine ⟨?_, hprior, ?_, ?_, ?_⟩
  · intro store0 h0
    apply reconcile_of_no_old_data toLower unmarshal marshal store store0 uuid resp hprior
    intro newOrder
    rw [h0]
    exact priorOrder_of_empty unmarshal emptySnapshot newOrder rfl
  · intro newOrder
    unfold reconciledOrder
    rw [hprior newOrder, priorOrder_of_empty unmarshal emptySnapshot newOrder rfl]
  · intro r hr
    cases horders : resp.Data.Orders with
    | nil =>
      unfold Reconcile at hr
      rw [horders] at hr
      exact absurd hr (by simp)
    | cons newOrder others =>
      obtain ⟨-, -, -, -, hemit⟩ := reconcile_fields toLower unmarshal marshal store uuid resp
        newOrder others r horders hr
      rw [hemit, hprior newOrder]
      rfl
  · intro hne hm
    exact reconcile_returns toLower unmarshal marshal store uuid resp hne hm

/-- Witness of C29: `failingStore` returns a decodable snapshot with an
error; the outcome of `Reconcile` is the one of a first poll. -/
theorem reconcile_on_snapshot_error_witness :
    (failingStore.GetSnapshot "uuid-1").err = true ∧
    Reconcile asciiToLower sampleUnmarshal sampleMarshal failingStore "uuid-1" activeResponse =
      Reconcile asciiToLower sampleUnmarshal sampleMarshal emptyStore "uuid-1" activeResponse :=
  ⟨rfl, (reconcile_on_snapshot_error asciiToLower sampleUnmarshal sampleMarshal failingStore
    "uuid-1" activeResponse rfl).1 emptyStore rfl⟩

/-! ### Refresh of the known ETA -/

theorem pollingLoop_lastKnownETA (toLower : String → String)
    (unmarshal : String → Option Response) (marshal : Response → Option String)
    (id : OrderIdentity) (st : WorkerState) (turn : LoopEnv)
    (h : (pollingLoop toLower unmarshal marshal id st [turn]).ending = WorkerEnd.polling) :
    (pollingLoop toLower unmarshal marshal id st [turn]).state.lastKnownETA =
      refreshETA unmarshal (turn.storeAfter.GetSnapshot id.UUID) st.lastKnownETA := by
  obtain ⟨r, hscan, -⟩ := scan_failCount toLower unmarshal marshal id st.failCount turn.scanEnv
  unfold pollingLoop at h ⊢
  by_cases hc : turn.ctxDoneInSleep = true
  · simp only [hc, if_true] at h
    exact absurd h (by decide)
  · simp only [hc, Bool.false_eq_true, if_false, hscan] at h ⊢
    by_cases hs : r.stop = true
    · simp only [hs, if_true] at h
      exact absurd h (by decide)
    · simp only [hs, Bool.false_eq_true, if_false, pollingLoop]

/-- C28, as stated, fails: the known ETA is 5, a turn of the polling loop
makes a non-stopping scan, the snapshot read afterwards has no error and
decodes to a response whose first order has no `LABEL`, so that its
`ExtractETAFromOrder` is -1, and the known ETA is still 5. -/
theorem lastKnownETA_kept_without_label :
    (activeTurn.storeAfter.GetSnapshot "uuid-1").err = false ∧
    storedUnmarshal (activeTurn.storeAfter.GetSnapshot "uuid-1").rawJSON =
      some activeResponse ∧
    activeResponse.Data.Orders = [activeOrder] ∧
    ExtractETAFromOrder activeOrder = -1 ∧
    (pollingLoop asciiToLower storedUnmarshal sampleMarshal sampleIdentity
      { failCount := 0, noChangeCount := 0, lastKnownETA := 5 } [activeTurn]).ending =
        WorkerEnd.polling ∧
    (pollingLoop asciiToLower storedUnmarshal sampleMarshal sampleIdentity
      { failCount := 0, noChangeCount := 0, lastKnownETA := 5 } [activeTurn]).scans = 1 ∧
    (pollingLoop asciiToLower storedUnmarshal sampleMarshal sampleIdentity
      { failCount := 0, noChangeCount := 0, lastKnownETA := 5 }
      [activeTurn]).state.lastKnownETA = 5 := by
  decide

/-- C28, amended: after every non-stopping scan in the polling loop for
which the snapshot is read without error and its `raw_json` decodes to a
`Response` with at least one order, `lastKnownETA` equals
`ExtractETAFromOrder` of that response's first order when this is at least
0; it is left unchanged when this is negative (the snapshot carries no
parsable `LABEL`) and when reading or decoding fails. -/
theorem lastKnownETA_refresh (toLower : String → String)
    (unmarshal : String → Option Response) (marshal : Response → Option String)
    (id : OrderIdentity) (st : WorkerState) (turn : LoopEnv)
    (hrun : (pollingLoop toLower unmarshal marshal id st [turn]).ending = WorkerEnd.polling) :
    (∀ r first others, (turn.storeAfter.GetSnapshot id.UUID).err = false →
      unmarshal (turn.storeAfter.GetSnapshot id.UUID).rawJSON = some r →
      r.Data.Orders = first :: others →
      (ExtractETAFromOrder first ≥ 0 →
        (pollingLoop toLower unmarshal marshal id st [turn]).state.lastKnownETA =
          ExtractETAFromOrder first) ∧
      (ExtractETAFromOrder first < 0 →
        (pollingLoop toLower unmarshal marshal id st [turn]).state.lastKnownETA =
          st.lastKnownETA)) ∧
    (((turn.storeAfter.GetSnapshot id.UUID).err = true ∨
        unmarshal (turn.storeAfter.GetSnapshot id.UUID).rawJSON = none ∨
        ∃ r, unmarshal (turn.storeAfter.GetSnapshot id.UUID).rawJSON = some r ∧
          r.Data.Orders = []) →
      (pollingLoop toLower unmarshal marshal id st [turn]).state.lastKnownETA =
        st.lastKnownETA) := by
  rw [pollingLoop_lastKnownETA toLower unmarshal marshal id st turn hrun]
  constructor
  · intro r first others herr hu ho
    unfold refreshETA
    simp only [herr, if_true, hu, ho]
    constructor
    · intro hge
      rw [if_pos hge]
    · intro hlt
      rw [if_neg (by omega)]
  · intro h
    unfold refreshETA
    rcases h with h | h | ⟨r, hu, ho⟩
    · simp [h]
    · simp only [h, ite_self]
    · simp only [hu, ho, ite_self]

/-- Witness of the amended C28: the known ETA is unknown (-1), the snapshot
read after a non-stopping scan decodes to an order with a `LABEL` of 12, and
the known ETA becomes 12. -/
theorem lastKnownETA_refresh_witness :
    (pollingLoop asciiToLower storedUnmarshal sampleMarshal sampleIdentity
      { failCount := 0, noChangeCount := 0, lastKnownETA := -1 }
      [{ activeTurn with storeAfter := storeWith "ACTIVE" 0 "" labelJSON }]).ending =
        WorkerEnd.polling ∧
    ExtractETAFromOrder labelOrder = 12 ∧
    (pollingLoop asciiToLower storedUnmarshal sampleMarshal sampleIdentity
      { failCount := 0, noChangeCount := 0, lastKnownETA := -1 }
      [{ activeTurn with storeAfter := storeWith "ACTIVE" 0 "" labelJSON }]).state.lastKnownETA =
        ExtractETAFromOrder labelOrder :=
  ⟨by decide, by decide,
    ((lastKnownETA_refresh asciiToLower storedUnmarshal sampleMarshal sampleIdentity
      { failCount := 0, noChangeCount := 0, lastKnownETA := -1 }
      { activeTurn with storeAfter := storeWith "ACTIVE" 0 "" labelJSON } (by decide)).1
      (responseOf labelOrder) labelOrder [] rfl (by decide) rfl).1 (by decide)⟩

/-! ### `SafeTruncate` -/

/-- C21: for every string `s` and every `n ≥ 0`, `SafeTruncate s n` returns
`s` when the length of `s` is at most `n`, and otherwise the prefix of `s`
of length exactly `n`; the empty string gives the empty string. -/
theorem safeTruncate_truncates (s : List UInt8) (n : Int) (hn : 0 ≤ n) :
    ((s.length : Int) ≤ n → SafeTruncate s n = Outcome.ok s) ∧
    (n < (s.length : Int) →
      ∃ t, SafeTruncate s n = Outcome.ok t ∧ (t.length : Int) = n ∧ t <+: s) ∧
    SafeTruncate [] n = Outcome.ok [] := by
  refine ⟨?_, ?_, ?_⟩
  · intro h
    unfold SafeTruncate
    rw [if_pos h]
  · intro h
    unfold SafeTruncate sliceTo
    rw [if_neg (by omega), if_pos ⟨hn, by omega⟩]
    refine ⟨_, rfl, ?_, List.take_prefix _ _⟩
    rw [List.length_take]
    omega
  · unfold SafeTruncate
    rw [if_pos (by simpa using hn)]

/-- Witness of C21: `SafeTruncate("abcdef", 3) = "abc"`, the bytes of
`abcdef` being 97 to 102, and `SafeTruncate("abc", 3) = "abc"`. -/
theorem safeTruncate_truncates_witness :
    (0 : Int) ≤ 3 ∧
    SafeTruncate [97, 98, 99] 3 = Outcome.ok [97, 98, 99] ∧
    ∃ t, SafeTruncate [97, 98, 99, 100, 101, 102] 3 = Outcome.ok t ∧ (t.length : Int) = 3 ∧
      t <+: [97, 98, 99, 100, 101, 102] :=
  ⟨by decide, (safeTruncate_truncates [97, 98, 99] 3 (by decide)).1 (by decide),
    (safeTruncate_truncates [97, 98, 99, 100, 101, 102] 3 (by decide)).2.1 (by decide)⟩

/-- C22 on the code: `SafeTruncate("abc", -1)` passes the test
`len(s) <= maxLen` (3 is not at most -1) and evaluates `s[:-1]`, which
panics; for `maxLen ≥ 0` the call never panics. -/
theorem safeTruncate_negative_panics :
    SafeTruncate [97, 98, 99] (-1) = Outcome.panic ∧
    SafeTruncate [] (-1) = Outcome.panic ∧
    ∀ (s : List UInt8) (n : Int), 0 ≤ n → SafeTruncate s n ≠ Outcome.panic := by
  refine ⟨by decide, by decide, ?_⟩
  intro s n hn
  unfold SafeTruncate sliceTo
  by_cases h : (s.length : Int) ≤ n
  · rw [if_pos h]; simp
  · rw [if_neg h, if_pos ⟨hn, by omega⟩]; simp

/-! ### Resume after a restart -/

theorem startTracking_registry (m : Manager) (id : OrderIdentity) (u : String) :
    (((m.StartTracking id).1.activeOrders u) = none) ↔
      (m.activeOrders u = none ∧ u ≠ id.UUID) := by
  unfold Manager.StartTracking
  cases h : m.activeOrders id.UUID with
  | some token =>
    simp only []
    constructor
    · intro hu
      refine ⟨hu, ?_⟩
      intro heq
      rw [heq, h] at hu
      exact absurd hu (by simp)
    · intro hu
      exact hu.1
  | none =>
    simp only []
    by_cases hu : u = id.UUID
    · simp [hu]
    · simp [hu]

theorem startTracking_snd (m : Manager) (id : OrderIdentity) :
    (m.StartTracking id).2 = true ↔ m.activeOrders id.UUID = none := by
  unfold Manager.StartTracking
  cases h : m.activeOrders id.UUID <;> simp

/-- An operation on another uuid leaves the entry of `u` as it is. -/
theorem step_registry_other (m : Manager) (op : Op) (u : String) (h : op.uuid ≠ u) :
    (m.step op).activeOrders u = m.activeOrders u := by
  cases op with
  | start id =>
    have hu : ¬ u = id.UUID := fun heq => h heq.symm
    simp only [Manager.step, Manager.StartTracking]
    cases hreg : m.activeOrders id.UUID with
    | some token => rfl
    | none =>
      simp only []
      rw [if_neg hu]
  | stop uuid =>
    have hu : ¬ u = uuid := fun heq => h heq.symm
    simp only [Manager.step, Manager.StopTracking]
    cases hreg : m.activeOrders uuid with
    | none => rfl
    | some token =>
      simp only [deleteKey]
      rw [if_neg hu]
  | exit w =>
    have hu : ¬ u = w.id.UUID := fun heq => h heq.symm
    simp only [Manager.step]
    split_ifs
    · simp only [Manager.workerExit, deleteKey]
      rw [if_neg hu]
    · rfl

theorem foldl_step_registry_other (ops : List Op) (m : Manager) (u : String)
    (h : ∀ op ∈ ops, op.uuid ≠ u) :
    (ops.foldl Manager.step m).activeOrders u = m.activeOrders u := by
  induction ops generalizing m with
  | nil => rfl
  | cons op rest ih =>
    rw [List.foldl_cons, ih _ (fun x hx => h x (List.mem_cons_of_mem _ hx)),
      step_registry_other m op u (h op (List.mem_cons_self _ _))]

theorem resumeLoop_calls (m : Manager) (orders : List ResumableOrder)
    (meanwhile : List (List Op)) :
    (resumeLoop m orders meanwhile).calls = orders.map identityOf := by
  induction orders generalizing m meanwhile with
  | nil => rfl
  | cons o rest ih =>
    unfold resumeLoop
    simp only [List.map_cons, ih]

theorem headD_tail_others (keys : List String) (meanwhile : List (List Op))
    (h : ∀ ops ∈ meanwhile, ∀ op ∈ ops, op.uuid ∉ keys) :
    (∀ op ∈ meanwhile.headD [], op.uuid ∉ keys) ∧
    (∀ ops ∈ meanwhile.tail, ∀ op ∈ ops, op.uuid ∉ keys) := by
  cases meanwhile with
  | nil => exact ⟨fun op hop => absurd hop (by simp), fun ops hops => absurd hops (by simp)⟩
  | cons first others =>
    exact ⟨fun op hop => h first (List.mem_cons_self _ _) op hop,
      fun ops hops => h ops (List.mem_cons_of_mem _ hops)⟩

/-- The registry after the loop, on the uuids `keys` that no other goroutine
touches while it runs. -/
theorem resumeLoop_registry (keys : List String) (orders : List ResumableOrder) (m : Manager)
    (meanwhile : List (List Op))
    (hmean : ∀ ops ∈ meanwhile, ∀ op ∈ ops, op.uuid ∉ keys) (u : String) (hu : u ∈ keys) :
    ((resumeLoop m orders meanwhile).manager.activeOrders u = none) ↔
      (m.activeOrders u = none ∧ u ∉ orders.map (fun o => o.UUID)) := by
  induction orders generalizing m meanwhile with
  | nil => simp [resumeLoop]
  | cons o rest ih =>
    obtain ⟨hhead, htail⟩ := headD_tail_others keys meanwhile hmean
    unfold resumeLoop
    simp only []
    rw [ih _ _ htail, foldl_step_registry_other _ _ u
      (fun op hop heq => hhead op hop (heq ▸ hu)), startTracking_registry]
    simp only [List.map_cons, List.mem_cons, not_or]
    constructor
    · rintro ⟨⟨h1, h2⟩, h3⟩
      exact ⟨h1, h2, h3⟩
    · rintro ⟨h1, h2, h3⟩
      exact ⟨⟨h1, h2⟩, h3⟩

/-- The uuids to start among `o :: rest`, from those to start among `rest`
once `o` has been started. -/
theorem freshUUIDs_cons (m : Manager) (o : ResumableOrder) (rest : List ResumableOrder) :
    (if (m.StartTracking (identityOf o)).2 = true then
        ((freshUUIDs (m.StartTracking (identityOf o)).1 rest).card : Int) + 1
      else ((freshUUIDs (m.StartTracking (identityOf o)).1 rest).card : Int)) =
      ((freshUUIDs m (o :: rest)).card : Int) := by
  unfold freshUUIDs
  simp only [List.map_cons, List.toFinset_cons]
  by_cases hreg : m.activeOrders o.UUID = none
  · have hstart : (m.StartTracking (identityOf o)).2 = true :=
      (startTracking_snd m (identityOf o)).mpr hreg
    rw [if_pos hstart, Finset.filter_insert, if_pos hreg]
    have hfilter : Finset.filter (fun u => (m.StartTracking (identityOf o)).1.activeOrders u = none)
        (rest.map (fun o => o.UUID)).toFinset =
        (Finset.filter (fun u => m.activeOrders u = none)
          (rest.map (fun o => o.UUID)).toFinset).erase o.UUID := by
      ext u
      simp only [Finset.mem_filter, Finset.mem_erase, startTracking_registry]
      constructor
      · rintro ⟨h1, h2, h3⟩
        exact ⟨h3, h1, h2⟩
      · rintro ⟨h3, h1, h2⟩
        exact ⟨h1, h2, h3⟩
    rw [hfilter]
    have hins : insert o.UUID (Finset.filter (fun u => m.activeOrders u = none)
        (rest.map (fun o => o.UUID)).toFinset) =
        insert o.UUID ((Finset.filter (fun u => m.activeOrders u = none)
          (rest.map (fun o => o.UUID)).toFinset).erase o.UUID) := by
      ext u
      by_cases hu : u = o.UUID
      · simp [hu]
      · simp [hu]
    rw [hins, Finset.card_insert_of_not_mem (Finset.not_mem_erase _ _)]
    push_cast
    rfl
  · have hstart : ¬ (m.StartTracking (identityOf o)).2 = true := fun h =>
      hreg ((startTracking_snd m (identityOf o)).mp h)
    rw [if_neg hstart, Finset.filter_insert, if_neg hreg]
    congr 2
    ext u
    simp only [Finset.mem_filter, startTracking_registry]
    constructor
    · rintro ⟨h1, h2, -⟩
      exact ⟨h1, h2⟩
    · rintro ⟨h1, h2⟩
      refine ⟨h1, h2, ?_⟩
      intro heq
      rw [heq] at h2
      exact hreg h2

theorem freshUUIDs_congr (m₁ m₂ : Manager) (orders : List ResumableOrder)
    (h : ∀ o ∈ orders, m₁.activeOrders o.UUID = m₂.activeOrders o.UUID) :
    freshUUIDs m₁ orders = freshUUIDs m₂ orders := by
  unfold freshUUIDs
  apply Finset.filter_congr
  intro u hu
  rw [List.mem_toFinset, List.mem_map] at hu
  obtain ⟨o, ho, rfl⟩ := hu
  rw [h o ho]

/-- The count of the loop, when no other goroutine touches the uuids `keys`,
which contain the listed ones. -/
theorem resumeLoop_count (keys : List String) (orders : List ResumableOrder) (m : Manager)
    (meanwhile : List (List Op))
    (hkeys : ∀ o ∈ orders, o.UUID ∈ keys)
    (hmean : ∀ ops ∈ meanwhile, ∀ op ∈ ops, op.uuid ∉ keys) :
    (resumeLoop m orders meanwhile).count = ((freshUUIDs m orders).card : Int) := by
  induction orders generalizing m meanwhile with
  | nil => rfl
  | cons o rest ih =>
    obtain ⟨hhead, htail⟩ := headD_tail_others keys meanwhile hmean
    have hrest : ∀ x ∈ rest, x.UUID ∈ keys := fun x hx => hkeys x (List.mem_cons_of_mem _ hx)
    unfold resumeLoop
    simp only []
    rw [ih _ _ hrest htail, freshUUIDs_congr _ (m.StartTracking (identityOf o)).1 rest
      (fun x hx => foldl_step_registry_other _ _ _
        (fun op hop heq => hhead op hop (heq ▸ hrest x hx)))]
    exact freshUUIDs_cons m o rest

/-- C25, as stated, fails. The mutex is released between two calls of
`StartTracking`, and the worker spawned for `uuid-1` can return before the
loop ends: its clean-up deletes the entry of `uuid-1`, so after
`ResumeActiveOrders` on the two listed orders `uuid-1` is not in the
registry; and when `uuid-1` is listed a second time it is started a second
time, three successful starts for two distinct listed uuids. -/
theorem resume_with_worker_exit :
    (NewManager.StartTracking sampleIdentity).1.workers = [firstResumed] ∧
    (NewManager.ResumeActiveOrders (some resumableOrders)
      [[Op.exit firstResumed]]).manager.activeOrders "uuid-1" = none ∧
    (NewManager.ResumeActiveOrders (some (resumableOrders ++ resumableOrders.take 1))
      [[Op.exit firstResumed]]).count = 3 ∧
    (freshUUIDs NewManager (resumableOrders ++ resumableOrders.take 1)).card = 2 := by
  decide

/-- C25, amended: for every registry state, every list returned by
`store.ListResumableOrders` and whatever other goroutines do meanwhile,
`ResumeActiveOrders` calls `StartTracking` once per listed order, in order,
with the five identity fields of the order. If, while the loop runs, no worker
of a listed uuid exits and no other `StartTracking` or `StopTracking` is made
on a listed uuid, the number of successful starts is the number of distinct
listed uuids that were not in the registry, and afterwards every listed uuid
is in the registry. When the store returns an error, `StartTracking` is not
called and the manager is unchanged. -/
theorem resumeActiveOrders_starts_listed (m : Manager) (orders : List ResumableOrder)
    (meanwhile : List (List Op)) :
    (m.ResumeActiveOrders (some orders) meanwhile).calls = orders.map identityOf ∧
    (∀ o : ResumableOrder, (identityOf o).UUID = o.UUID ∧ (identityOf o).ChannelID = o.ChannelID ∧
      (identityOf o).GuildID = o.GuildID ∧ (identityOf o).ClientID = o.ClientID ∧
      (identityOf o).CuistotID = o.CuistotID) ∧
    ((∀ ops ∈ meanwhile, ∀ op ∈ ops, op.uuid ∉ orders.map (fun o => o.UUID)) →
      (m.ResumeActiveOrders (some orders) meanwhile).count =
        ((freshUUIDs m orders).card : Int) ∧
      ∀ o ∈ orders,
        ((m.ResumeActiveOrders (some orders) meanwhile).manager.activeOrders
          o.UUID).isSome = true) ∧
    (m.ResumeActiveOrders none meanwhile).calls = [] ∧
    (m.ResumeActiveOrders none meanwhile).count = 0 ∧
    (m.ResumeActiveOrders none meanwhile).manager = m := by
  refine ⟨resumeLoop_calls m orders meanwhile, fun o => ⟨rfl, rfl, rfl, rfl, rfl⟩, ?_,
    rfl, rfl, rfl⟩
  intro hmean
  have hkeys : ∀ o ∈ orders, o.UUID ∈ orders.map (fun o => o.UUID) := fun o ho =>
    List.mem_map_of_mem (fun o => o.UUID) ho
  refine ⟨resumeLoop_count _ orders m meanwhile hkeys hmean, ?_⟩
  intro o ho
  by_contra hsome
  have hnone := Option.not_isSome_iff_eq_none.mp hsome
  have h := (resumeLoop_registry _ orders m meanwhile hmean o.UUID (hkeys o ho)).mp hnone
  exact h.2 (hkeys o ho)

/-- Witness of the amended C25, after `TestManager_ResumeActiveOrders`: on a
new manager, while a worker of `uuid-9` is started and stopped by another
goroutine, the two listed orders give two calls and two successful starts,
and both uuids are registered. -/
theorem resumeActiveOrders_starts_listed_witness :
    (∀ ops ∈ [[Op.start { sampleIdentity with UUID := "uuid-9" }], [Op.stop "uuid-9"]],
      ∀ op ∈ ops, op.uuid ∉ resumableOrders.map (fun o => o.UUID)) ∧
    (NewManager.ResumeActiveOrders (some resumableOrders)
      [[Op.start { sampleIdentity with UUID := "uuid-9" }], [Op.stop "uuid-9"]]).calls =
      resumableOrders.map identityOf ∧
    (NewManager.ResumeActiveOrders (some resumableOrders)
      [[Op.start { sampleIdentity with UUID := "uuid-9" }], [Op.stop "uuid-9"]]).count = 2 ∧
    ∀ o ∈ resumableOrders,
      ((NewManager.ResumeActiveOrders (some resumableOrders)
        [[Op.start { sampleIdentity with UUID := "uuid-9" }],
          [Op.stop "uuid-9"]]).manager.activeOrders o.UUID).isSome = true :=
  ⟨by decide,
    (resumeActiveOrders_starts_listed NewManager resumableOrders
      [[Op.start { sampleIdentity with UUID := "uuid-9" }], [Op.stop "uuid-9"]]).1,
    ((resumeActiveOrders_starts_listed NewManager resumableOrders
      [[Op.start { sampleIdentity with UUID := "uuid-9" }], [Op.stop "uuid-9"]]).2.2.1
        (by decide)).1.trans (by decide),
    ((resumeActiveOrders_starts_listed NewManager resumableOrders
      [[Op.start { sampleIdentity with UUID := "uuid-9" }], [Op.stop "uuid-9"]]).2.2.1
        (by decide)).2⟩

/-! ### The registry and the running workers -/

theorem startTracking_registryBacked (m : Manager) (id : OrderIdentity)
    (h : registryBacked m) : registryBacked (m.StartTracking id).1 := by
  unfold Manager.StartTracking
  cases hreg : m.activeOrders id.UUID with
  | some token => exact h
  | none =>
    intro u t hu
    simp only [] at hu
    by_cases hk : u = id.UUID
    · rw [if_pos hk] at hu
      refine ⟨{ id := id, token := m.created }, by simp, hk.symm, ?_⟩
      exact Option.some.inj hu
    · rw [if_neg hk] at hu
      obtain ⟨w, hw, h1, h2⟩ := h u t hu
      exact ⟨w, List.mem_append_left _ hw, h1, h2⟩

theorem stopTracking_registryBacked (m : Manager) (uuid : String)
    (h : registryBacked m) : registryBacked (m.StopTracking uuid) := by
  unfold Manager.StopTracking
  cases hreg : m.activeOrders uuid with
  | none => exact h
  | some token =>
    intro u t hu
    simp only [deleteKey] at hu
    by_cases hk : u = uuid
    · rw [if_pos hk] at hu
      exact absurd hu (by simp)
    · rw [if_neg hk] at hu
      exact h u t hu

theorem workerExit_registryBacked (m : Manager) (w : Worker)
    (h : registryBacked m) : registryBacked (m.workerExit w) := by
  intro u t hu
  simp only [Manager.workerExit, deleteKey] at hu
  by_cases hk : u = w.id.UUID
  · rw [if_pos hk] at hu
    exact absurd hu (by simp)
  · rw [if_neg hk] at hu
    obtain ⟨x, hx, h1, h2⟩ := h u t hu
    refine ⟨x, ?_, h1, h2⟩
    simp only [Manager.workerExit, List.mem_filter, decide_eq_true_eq]
    refine ⟨hx, ?_⟩
    intro hxw
    rw [hxw] at h1
    exact hk h1.symm

theorem managerStep_registryBacked (m : Manager) (op : Op)
    (h : registryBacked m) : registryBacked (m.step op) := by
  cases op with
  | start id => exact startTracking_registryBacked m id h
  | stop uuid => exact stopTracking_registryBacked m uuid h
  | exit w =>
    simp only [Manager.step]
    split_ifs
    · exact workerExit_registryBacked m w h
    · exact h

theorem foldl_managerStep_registryBacked (ops : List Op) (m : Manager)
    (h : registryBacked m) : registryBacked (ops.foldl Manager.step m) := by
  induction ops generalizing m with
  | nil => exact h
  | cons op rest ih =>
    rw [List.foldl_cons]
    exact ih _ (managerStep_registryBacked m op h)

theorem resumeLoop_registryBacked (orders : List ResumableOrder) (m : Manager)
    (meanwhile : List (List Op))
    (h : registryBacked m) : registryBacked (resumeLoop m orders meanwhile).manager := by
  induction orders generalizing m meanwhile with
  | nil => exact h
  | cons o rest ih =>
    unfold resumeLoop
    exact ih _ _ (foldl_managerStep_registryBacked _ _
      (startTracking_registryBacked m (identityOf o) h))

theorem release_manager (s : ChannelManager) : s.release.manager = s.manager := by
  unfold ChannelManager.release
  split_ifs <;> rfl

theorem step_registryBacked (s : ChannelManager) (c : Call)
    (h : registryBacked s.manager) : registryBacked (s.step c).manager := by
  unfold ChannelManager.step
  split_ifs
  · exact h
  · cases c with
    | start id =>
      simp only [release_manager]
      exact startTracking_registryBacked _ id h
    | stop uuid =>
      simp only [release_manager]
      exact stopTracking_registryBacked _ uuid h
    | resume listed meanwhile =>
      simp only [release_manager]
      cases listed with
      | none => exact h
      | some orders => exact resumeLoop_registryBacked orders _ meanwhile h
    | exit w =>
      simp only [release_manager]
      exact managerStep_registryBacked _ (Op.exit w) h
    | shutdown =>
      simp only [ChannelManager.Shutdown, release_manager]
      intro u t hu
      exact absurd hu (by simp [cancelAll])

/-- On every reachable state the registry is backed by running workers, so
the loop of `Shutdown` cancels every registered context. -/
theorem run_registryBacked (calls : List Call) :
    registryBacked (ChannelManager.run calls).manager ∧
    ∀ u t, (ChannelManager.run calls).manager.activeOrders u = some t →
      t ∈ (cancelAll (ChannelManager.run calls).manager).cancelled := by
  have hinv : ∀ (l : List Call) (s : ChannelManager), registryBacked s.manager →
      registryBacked (l.foldl ChannelManager.step s).manager := by
    intro l
    induction l with
    | nil => intro s hs; exact hs
    | cons c rest ih =>
      intro s hs
      rw [List.foldl_cons]
      exact ih _ (step_registryBacked s c hs)
  have hnew : registryBacked NewChannelManager.manager := by
    intro u t hu
    exact absurd hu (by simp [NewChannelManager, NewManager])
  have hrun := hinv calls NewChannelManager hnew
  refine ⟨hrun, ?_⟩
  intro u t hu
  obtain ⟨w, hw, h1, h2⟩ := hrun u t hu
  simp only [cancelAll, List.mem_append, List.mem_map, List.mem_filter, decide_eq_true_eq]
  refine Or.inl ⟨w, ⟨hw, ?_⟩, h2⟩
  rw [h1, h2]
  exact hu

/-! ### Shutdown and the update channel -/

/-- A step closes the channel only when no worker goroutine is left. -/
theorem step_closes_without_workers (s : ChannelManager) (c : Call)
    (hopen : s.closed = false) (hclosed : (s.step c).closed = true) :
    (s.step c).manager.workers = [] := by
  have hrel : ∀ x : ChannelManager, x.closed = false → x.release.closed = true →
      x.release.manager.workers = [] := by
    intro x hx hr
    unfold ChannelManager.release at hr ⊢
    by_cases hw : x.waiting = 0 ∨ x.manager.workers ≠ []
    · rw [if_pos hw] at hr
      rw [hx] at hr
      exact absurd hr (by simp)
    · rw [if_neg hw]
      simp only []
      by_contra hne
      exact hw (Or.inr hne)
  unfold ChannelManager.step at hclosed ⊢
  by_cases hp : s.panicked = true
  · rw [if_pos hp] at hclosed
    rw [hopen] at hclosed
    exact absurd hclosed (by simp)
  · rw [if_neg hp] at hclosed ⊢
    cases c with
    | start id => exact hrel _ hopen hclosed
    | stop uuid => exact hrel _ hopen hclosed
    | resume listed meanwhile => exact hrel _ hopen hclosed
    | exit w => exact hrel _ hopen hclosed
    | shutdown => exact hrel _ hopen hclosed

/-- C24 on the code. After `StartTracking`, `StopTracking`, `StartTracking`
on `uuid-1` and the return of the first worker, the second worker runs and is
not in the registry. `Shutdown` then cancels no context: the second worker is
still running with a context that nobody cancelled, the call is blocked in
`m.wg.Wait()` and the channel is not closed; it is closed only when that
worker returns by itself. Without the stale clean-up, `Shutdown` cancels the
context of the worker and closes the channel when it has returned; with no
worker it closes at once. A second `Shutdown` panics on the closed channel. -/
theorem shutdown_waits_for_unregistered_worker :
    (ChannelManager.run orphanCalls).manager.workers =
      [{ id := sampleIdentity, token := 1 }] ∧
    1 ∉ (ChannelManager.run orphanCalls).manager.cancelled ∧
    (ChannelManager.run orphanCalls).manager.activeOrders "uuid-1" = none ∧
    (ChannelManager.run orphanCalls).waiting = 1 ∧
    (ChannelManager.run orphanCalls).closed = false ∧
    (ChannelManager.run
      (orphanCalls ++ [Call.exit { id := sampleIdentity, token := 1 }])).closed = true ∧
    0 ∈ (ChannelManager.run [Call.start sampleIdentity, Call.shutdown]).manager.cancelled ∧
    (ChannelManager.run [Call.start sampleIdentity, Call.shutdown]).closed = false ∧
    (ChannelManager.run [Call.start sampleIdentity, Call.shutdown,
      Call.exit { id := sampleIdentity, token := 0 }]).closed = true ∧
    (ChannelManager.run [Call.start sampleIdentity, Call.shutdown,
      Call.exit { id := sampleIdentity, token := 0 }]).panicked = false ∧
    (ChannelManager.run [Call.shutdown]).closed = true ∧
    (ChannelManager.run [Call.shutdown]).panicked = false ∧
    (ChannelManager.run [Call.shutdown, Call.shutdown]).panicked = true := by
  decide

/-! ### Totality of the merge -/

theorem extractCardChecked_eq (p : preservedInfo) (card : FeedCard) :
    extractCardChecked p card = Outcome.ok (extractCard p card) := by
  unfold extractCardChecked extractCard
  cases card.Delivery with
  | none => rfl
  | some d => rfl

theorem foldl_extractCardChecked (cards : List FeedCard) (p : preservedInfo) :
    cards.foldl (fun acc card => acc.andThen fun p => extractCardChecked p card)
      (Outcome.ok p) = Outcome.ok (cards.foldl extractCard p) := by
  induction cards generalizing p with
  | nil => rfl
  | cons card rest ih =>
    rw [List.foldl_cons, List.foldl_cons]
    have h : (Outcome.ok p).andThen (fun p => extractCardChecked p card) =
        Outcome.ok (extractCard p card) := extractCardChecked_eq p card
    rw [h, ih]

theorem extractPreservedInfoChecked_eq (o : Order) :
    extractPreservedInfoChecked o = Outcome.ok (extractPreservedInfo o) :=
  foldl_extractCardChecked o.FeedCards _

theorem annulChecked_eq (toLower : String → String) (cards : List FeedCard) :
    annulChecked toLower cards = Outcome.ok (cards.any (fun card =>
      match card.CallToAction with
      | some cta => stringsContains (toLower cta.Title) "annul"
      | none => false)) := by
  induction cards with
  | nil => rfl
  | cons card rest ih =>
    unfold annulChecked
    rw [ih, List.any_cons]
    cases hcta : card.CallToAction with
    | none => simp [Outcome.andThen]
    | some cta =>
      simp only [Option.isSome_some, if_true, deref, Outcome.andThen]
      cases stringsContains (toLower cta.Title) "annul" <;> simp

theorem detectPhaseChecked_eq (toLower : String → String) (o : Order) :
    detectPhaseChecked toLower o = Outcome.ok (detectPhase toLower o) := by
  unfold detectPhaseChecked detectPhase
  simp only [annulChecked_eq, Outcome.andThen]
  split_ifs <;> simp_all

theorem markCompletedChecked_eq (pre cards : List FeedCard) :
    markCompletedChecked (pre ++ cards) cards pre.length =
      Outcome.ok (pre ++ markCompleted cards) := by
  induction cards generalizing pre with
  | nil => simp [markCompletedChecked, markCompleted]
  | cons card rest ih =>
    unfold markCompletedChecked markCompleted
    cases hs : card.Status with
    | none =>
      simp only [Option.isSome_none, Bool.false_eq_true, if_false]
      have h := ih (pre ++ [card])
      simp only [List.append_assoc, List.singleton_append, List.length_append,
        List.length_singleton] at h
      exact h
    | some s =>
      simp only [Option.isSome_some, if_true]
      have hidx : indexAt (pre ++ card :: rest) pre.length = Outcome.ok card := by
        unfold indexAt
        rw [List.get?_eq_getElem?, List.getElem?_append_right (le_refl _), Nat.sub_self,
          List.getElem?_cons_zero]
      rw [hidx]
      simp only [Outcome.andThen, hs, deref, setAt]
      rw [if_pos (by simp)]
      simp

theorem restorePreservedInfoChecked_eq (o : Order) (p : preservedInfo) :
    restorePreservedInfoChecked o p = Outcome.ok (restorePreservedInfo o p) := by
  unfold restorePreservedInfoChecked restorePreservedInfo
  cases hcards : o.FeedCards with
  | nil => simp
  | cons fc rest =>
    simp only [List.length_cons, Nat.succ_ne_zero, if_false, indexAt, List.get?_cons_zero,
      Outcome.andThen, restoreCard]
    rcases fc with ⟨typ, status, cta, courier, delivery, ⟨total⟩⟩
    by_cases ht : total = "" <;>
      by_cases hpt : p.total = "" <;>
      by_cases ha : p.address = "" <;>
      by_cases hp : p.pin = "" <;>
      cases delivery with
      | none =>
        cases courier with
        | nil => simp [ht, hpt, ha, hp, deref, setAt, indexAt, Outcome.andThen]
        | cons c cs =>
          by_cases hpin : c.PinInfo.Pin = "" <;>
            simp [ht, hpt, ha, hp, hpin, deref, setAt, indexAt, Outcome.andThen]
      | some d =>
        by_cases had : d.Address = "" <;>
        cases courier with
        | nil => simp [ht, hpt, ha, hp, had, deref, setAt, indexAt, Outcome.andThen]
        | cons c cs =>
          by_cases hpin : c.PinInfo.Pin = "" <;>
            simp [ht, hpt, ha, hp, had, hpin, deref, setAt, indexAt, Outcome.andThen]

theorem mergeOrderDataChecked_eq (toLower : String → String) (master incoming : Order)
    (hasOldData : Bool) :
    MergeOrderDataChecked toLower master incoming hasOldData =
      Outcome.ok (MergeOrderData toLower master incoming hasOldData) := by
  unfold MergeOrderDataChecked MergeOrderData
  have hmark : ∀ cards : List FeedCard,
      markCompletedChecked cards cards 0 = Outcome.ok (markCompleted cards) := fun cards =>
    markCompletedChecked_eq [] cards
  cases hasOldData <;>
    by_cases hphase : detectPhase toLower incoming = phaseCompleted <;>
    cases hin : incoming.FeedCards with
    | nil =>
      simp [extractPreservedInfoChecked_eq, detectPhaseChecked_eq, hmark,
        restorePreservedInfoChecked_eq, Outcome.andThen, hphase, hin]
    | cons first others =>
      simp [extractPreservedInfoChecked_eq, detectPhaseChecked_eq, hmark,
        restorePreservedInfoChecked_eq, Outcome.andThen, hphase, hin, indexAt]

/-- C27: `MergeOrderData` is total. For every master, incoming and
`hasOldData`, the merge over the checked index and pointer operations ends
without a panic and returns the merged order and the phase of
`MergeOrderData`; on an order with no feed card the restoration returns the
order as it is, and when the feed cards after step 4 are empty the merged
feed cards are empty. -/
theorem mergeOrderData_total (toLower : String → String) (master incoming : Order)
    (hasOldData : Bool) :
    MergeOrderDataChecked toLower master incoming hasOldData =
      Outcome.ok (MergeOrderData toLower master incoming hasOldData) ∧
    MergeOrderDataChecked toLower master incoming hasOldData ≠ Outcome.panic ∧
    (∀ (o : Order) (p : preservedInfo), o.FeedCards = [] →
      restorePreservedInfoChecked o p = Outcome.ok o ∧ restorePreservedInfo o p = o) ∧
    (updatedCards toLower master incoming = [] →
      (MergeOrderData toLower master incoming hasOldData).1.FeedCards = []) := by
  refine ⟨mergeOrderDataChecked_eq toLower master incoming hasOldData, ?_, ?_, ?_⟩
  · rw [mergeOrderDataChecked_eq]
    exact fun h => Outcome.noConfusion h
  · intro o p ho
    have hr : restorePreservedInfo o p = o := by
      unfold restorePreservedInfo
      rw [ho]
    rw [restorePreservedInfoChecked_eq, hr]
    exact ⟨rfl, rfl⟩
  · intro hcards
    obtain ⟨m, hm, hfc⟩ := mergeOrderData_fst toLower master incoming hasOldData
    rw [hm, restorePreservedInfo_feedCards, hfc, hcards]

/-- Witness of C27, after `TestMergeOrderData_EmptyFeedCards_NoPanic` and
`TestMergeOrderData_PreservesEmpty_NoData`: an incoming order without feed
cards merged into an order with a total and a PIN, and two orders without
feed cards. -/
theorem mergeOrderData_total_witness :
    MergeOrderDataChecked asciiToLower (sampleOrderWith "5.00€" "" "1234") noCardsOrder true ≠
      Outcome.panic ∧
    MergeOrderDataChecked asciiToLower Order.zero sampleOrder false ≠ Outcome.panic ∧
    noCardsOrder.FeedCards = [] ∧
    restorePreservedInfoChecked noCardsOrder { total := "5.00€", address := "", pin := "1234" } =
      Outcome.ok noCardsOrder ∧
    updatedCards asciiToLower noCardsOrder noCardsOrder = [] ∧
    (MergeOrderData asciiToLower noCardsOrder noCardsOrder true).1.FeedCards = [] :=
  ⟨(mergeOrderData_total asciiToLower (sampleOrderWith "5.00€" "" "1234") noCardsOrder true).2.1,
    (mergeOrderData_total asciiToLower Order.zero sampleOrder false).2.1,
    rfl,
    ((mergeOrderData_total asciiToLower noCardsOrder noCardsOrder true).2.2.1 noCardsOrder
      { total := "5.00€", address := "", pin := "1234" } rfl).1,
    by decide,
    (mergeOrderData_total asciiToLower noCardsOrder noCardsOrder true).2.2.2 (by decide)⟩

/-! ### Replaying a snapshot -/

theorem mergeOrderData_eq (toLower : String → String) (master incoming : Order)
    (hasOldData : Bool) :
    MergeOrderData toLower master incoming hasOldData =
      ({ Contacts := if incoming.Contacts.length > 0 then incoming.Contacts else master.Contacts
         ActiveOrderOverview :=
           if incoming.ActiveOrderOverview.Title ≠ "" then incoming.ActiveOrderOverview
           else master.ActiveOrderOverview
         FeedCards := restoreFirst (updatedCards toLower master incoming)
           (keptInfo master incoming hasOldData)
         BackgroundFeedCards := master.BackgroundFeedCards
         OrderStatus := { OrderPhase := detectPhase toLower incoming } },
        detectPhase toLower incoming) := by
  unfold MergeOrderData updatedCards keptInfo restorePreservedInfo restoreFirst
  by_cases hp : detectPhase toLower incoming = phaseCompleted <;>
    by_cases h1 : incoming.ActiveOrderOverview.Title = "" <;>
    by_cases h2 : incoming.Contacts.length > 0 <;>
    cases hin : incoming.FeedCards with
    | nil =>
      cases hm : master.FeedCards with
      | nil => simp [hp, h1, h2, hm, markCompleted]
      | cons fc rest =>
        cases hmc : markCompleted (fc :: rest) <;> simp [hp, h1, h2, hm, hmc]
    | cons first others =>
      by_cases hs : first.Status.isSome = true <;>
      cases hm : master.FeedCards with
      | nil => simp [hp, h1, h2, hs, hm, markCompleted]
      | cons fc rest =>
        cases hmc : markCompleted (fc :: rest) <;> simp [hp, h1, h2, hs, hm, hmc]

theorem completedStatus_idem (s : StatusInfo) :
    completedStatus (completedStatus s) = completedStatus s := rfl

theorem markCompleted_idem (cards : List FeedCard) :
    markCompleted (markCompleted cards) = markCompleted cards := by
  induction cards with
  | nil => rfl
  | cons card rest ih =>
    cases hs : card.Status with
    | none =>
      have h1 : markCompleted (card :: rest) = card :: markCompleted rest := by
        simp [markCompleted, hs]
      rw [h1]
      simp [markCompleted, hs, ih]
    | some s =>
      have h1 : markCompleted (card :: rest) =
          { card with Status := some (completedStatus s) } :: rest := by
        simp [markCompleted, hs]
      rw [h1]
      simp [markCompleted, completedStatus_idem]

theorem restoreCard_idem (fc : FeedCard) (p : preservedInfo) :
    restoreCard (restoreCard fc p) p = restoreCard fc p := by
  rcases fc with ⟨typ, status, cta, courier, delivery, ⟨total⟩⟩
  unfold restoreCard
  by_cases ht : total = "" <;>
    by_cases hpt : p.total = "" <;>
    by_cases ha : p.address = "" <;>
    by_cases hp : p.pin = "" <;>
    cases delivery with
    | none =>
      cases courier with
      | nil => simp [ht, hpt, ha, hp]
      | cons c cs => by_cases hpin : c.PinInfo.Pin = "" <;> simp [ht, hpt, ha, hp, hpin]
    | some d =>
      by_cases had : d.Address = "" <;>
      cases courier with
      | nil => simp [ht, hpt, ha, hp, had]
      | cons c cs => by_cases hpin : c.PinInfo.Pin = "" <;> simp [ht, hpt, ha, hp, had, hpin]

theorem restoreFirst_idem (cards : List FeedCard) (p : preservedInfo) :
    restoreFirst (restoreFirst cards p) p = restoreFirst cards p := by
  cases cards with
  | nil => rfl
  | cons fc rest => simp [restoreFirst, restoreCard_idem]

theorem markCompleted_of_completed (card : FeedCard) (rest : List FeedCard) (s : StatusInfo)
    (hs : card.Status = some (completedStatus s)) :
    markCompleted (card :: rest) = card :: rest := by
  rcases card with ⟨typ, status, cta, courier, delivery, summary⟩
  simp only at hs
  subst hs
  simp [markCompleted, completedStatus_idem]

/-- Marking the restored cards of a completed order changes nothing: the
first status is already the completed one. -/
theorem markCompleted_restoreFirst (cards : List FeedCard) (p : preservedInfo) :
    markCompleted (restoreFirst (markCompleted cards) p) =
      restoreFirst (markCompleted cards) p := by
  cases cards with
  | nil => rfl
  | cons card rest =>
    cases hs : card.Status with
    | none =>
      have h1 : markCompleted (card :: rest) = card :: markCompleted rest := by
        simp [markCompleted, hs]
      rw [h1]
      have h2 : (restoreCard card p).Status = none := by rw [restoreCard_status, hs]
      simp [restoreFirst, markCompleted, h2, markCompleted_idem]
    | some s =>
      have h1 : markCompleted (card :: rest) =
          { card with Status := some (completedStatus s) } :: rest := by
        simp [markCompleted, hs]
      rw [h1]
      have h2 : (restoreCard { card with Status := some (completedStatus s) } p).Status =
          some (completedStatus s) := by rw [restoreCard_status]
      simp only [restoreFirst]
      exact markCompleted_of_completed _ _ s h2

theorem markCompleted_map {α : Type} (g : FeedCard → α)
    (hg : ∀ (card : FeedCard) (s : Option StatusInfo), g { card with Status := s } = g card)
    (cards : List FeedCard) : (markCompleted cards).map g = cards.map g := by
  induction cards with
  | nil => rfl
  | cons card rest ih =>
    cases hs : card.Status with
    | none => simp [markCompleted, hs, ih]
    | some s => simp [markCompleted, hs, hg]

theorem restoreFirst_map {α : Type} (g : FeedCard → α) (p : preservedInfo)
    (hg : ∀ fc : FeedCard, g (restoreCard fc p) = g fc) (cards : List FeedCard) :
    (restoreFirst cards p).map g = cards.map g := by
  cases cards with
  | nil => rfl
  | cons fc rest => simp [restoreFirst, hg]

theorem restoreCard_summary_of_empty (fc : FeedCard) (p : preservedInfo) (h : p.total = "") :
    (restoreCard fc p).OrderSummary = fc.OrderSummary := by
  unfold restoreCard
  simp only []
  split_ifs <;> (try split) <;> (try split_ifs) <;> simp_all

theorem restoreCard_delivery_of_empty (fc : FeedCard) (p : preservedInfo)
    (h : p.address = "") : (restoreCard fc p).Delivery = fc.Delivery := by
  unfold restoreCard
  simp only []
  split_ifs <;> (try split) <;> (try split_ifs) <;> simp_all

theorem restoreCard_courier_of_empty (fc : FeedCard) (p : preservedInfo) (h : p.pin = "") :
    (restoreCard fc p).Courier = fc.Courier := by
  unfold restoreCard
  simp only []
  split_ifs <;> (try split) <;> (try split_ifs) <;> simp_all

/-- The feed cards of `x` merged with itself on a first poll. -/
theorem updatedCards_replay (toLower : String → String) (x : Order) :
    updatedCards toLower x x =
      if detectPhase toLower x = phaseCompleted then markCompleted x.FeedCards
      else x.FeedCards := by
  unfold updatedCards
  cases hin : x.FeedCards with
  | nil => rfl
  | cons first rest => simp only [ite_self]

theorem keptInfo_first_poll (x : Order) : keptInfo x x false = extractPreservedInfo x := by
  unfold keptInfo
  rcases hE : extractPreservedInfo x with ⟨t, a, p⟩
  by_cases ht : t = "" <;> by_cases ha : a = "" <;> by_cases hp : p = "" <;>
    simp [ht, ha, hp]

/-- The preserved values of an order are those of any order whose feed
cards carry the same totals, addresses and PINs. -/
theorem extractPreservedInfo_congr (o₁ o₂ : Order) :
    (cardTotals o₁ = cardTotals o₂ →
      (extractPreservedInfo o₁).total = (extractPreservedInfo o₂).total) ∧
    (cardAddresses o₁ = cardAddresses o₂ →
      (extractPreservedInfo o₁).address = (extractPreservedInfo o₂).address) ∧
    (cardPins o₁ = cardPins o₂ →
      (extractPreservedInfo o₁).pin = (extractPreservedInfo o₂).pin) := by
  rw [extractPreservedInfo_eq, extractPreservedInfo_eq]
  refine ⟨fun h => ?_, fun h => ?_, fun h => ?_⟩
  · simp only [h]
  · simp only [h]
  · simp only [h]

theorem preservedInfo_eq_of_fields (a b : preservedInfo) (h1 : a.total = b.total)
    (h2 : a.address = b.address) (h3 : a.pin = b.pin) : a = b := by
  cases a
  cases b
  simp_all

/-- The values kept when `x` is merged again into the result `m` of its
first poll are the values of `x`. -/
theorem keptInfo_replay (x m : Order) (cards : List FeedCard)
    (hcards : cards = x.FeedCards ∨ cards = markCompleted x.FeedCards)
    (hm : m.FeedCards = restoreFirst cards (extractPreservedInfo x)) :
    keptInfo m x true = extractPreservedInfo x := by
  have htotals : (extractPreservedInfo x).total = "" → cardTotals m = cardTotals x := by
    intro h
    unfold cardTotals
    rw [hm, restoreFirst_map _ _ (fun fc => by rw [restoreCard_summary_of_empty fc _ h])]
    rcases hcards with hc | hc
    · rw [hc]
    · rw [hc]
      exact markCompleted_map (fun card : FeedCard => card.OrderSummary.Total)
        (by intro _ _; rfl) x.FeedCards
  have haddresses : (extractPreservedInfo x).address = "" →
      cardAddresses m = cardAddresses x := by
    intro h
    unfold cardAddresses
    rw [hm, restoreFirst_map _ _ (fun fc => by rw [restoreCard_delivery_of_empty fc _ h])]
    rcases hcards with hc | hc
    · rw [hc]
    · rw [hc]
      exact markCompleted_map (fun card : FeedCard =>
        match card.Delivery with
        | some d => d.Address
        | none => "")
        (by intro _ _; rfl) x.FeedCards
  have hpins : (extractPreservedInfo x).pin = "" → cardPins m = cardPins x := by
    intro h
    unfold cardPins
    rw [hm, restoreFirst_map _ _ (fun fc => by rw [restoreCard_courier_of_empty fc _ h])]
    rcases hcards with hc | hc
    · rw [hc]
    · rw [hc]
      exact congrArg _ (markCompleted_map (fun card : FeedCard => card.Courier.map (fun c => c.PinInfo.Pin))
        (by intro _ _; rfl) x.FeedCards)
  apply preservedInfo_eq_of_fields
  · unfold keptInfo
    simp only [if_true]
    by_cases h : (extractPreservedInfo x).total = ""
    · rw [if_neg (by simp [h])]
      exact (extractPreservedInfo_congr m x).1 (htotals h)
    · rw [if_pos h]
  · unfold keptInfo
    simp only [if_true]
    by_cases h : (extractPreservedInfo x).address = ""
    · rw [if_neg (by simp [h])]
      exact (extractPreservedInfo_congr m x).2.1 (haddresses h)
    · rw [if_pos h]
  · unfold keptInfo
    simp only [if_true]
    by_cases h : (extractPreservedInfo x).pin = ""
    · rw [if_neg (by simp [h])]
      exact (extractPreservedInfo_congr m x).2.2 (hpins h)
    · rw [if_pos h]

/-- The feed cards after restoration when `x` is merged again into the
result `m` of its first poll. -/
theorem restoreFirst_replay (toLower : String → String) (x m : Order)
    (hm : m.FeedCards = restoreFirst (updatedCards toLower x x) (extractPreservedInfo x)) :
    restoreFirst (updatedCards toLower m x) (extractPreservedInfo x) =
      restoreFirst (updatedCards toLower x x) (extractPreservedInfo x) := by
  rw [updatedCards_replay] at hm ⊢
  unfold updatedCards
  by_cases hp : detectPhase toLower x = phaseCompleted
  · rw [if_pos hp] at hm ⊢
    rw [if_pos hp, hm, markCompleted_restoreFirst, restoreFirst_idem]
  · rw [if_neg hp] at hm ⊢
    rw [if_neg hp]
    cases hx : x.FeedCards with
    | nil =>
      rw [hx] at hm
      simp only [hm]
      rfl
    | cons first rest =>
      rw [hx] at hm
      simp only []
      by_cases hs : first.Status.isSome = true
      · rw [if_pos hs]
      · rw [if_neg hs, hm, restoreFirst_idem]

/-- C30: replaying the same snapshot is idempotent for the merge. For every
order `x`, with `(m1, p1) = MergeOrderData(x, x, false)` and
`(m2, p2) = MergeOrderData(m1, x, true)`: `m2 = m1` and `p2 = p1`. -/
theorem mergeOrderData_replay (toLower : String → String) (x : Order) :
    (MergeOrderData toLower (MergeOrderData toLower x x false).1 x true).1 =
      (MergeOrderData toLower x x false).1 ∧
    (MergeOrderData toLower (MergeOrderData toLower x x false).1 x true).2 =
      (MergeOrderData toLower x x false).2 := by
  have h1 := mergeOrderData_eq toLower x x false
  rw [keptInfo_first_poll] at h1
  have hm : (MergeOrderData toLower x x false).1.FeedCards =
      restoreFirst (updatedCards toLower x x) (extractPreservedInfo x) := by
    rw [h1]
  have hcards : updatedCards toLower x x = x.FeedCards ∨
      updatedCards toLower x x = markCompleted x.FeedCards := by
    rw [updatedCards_replay]
    by_cases hp : detectPhase toLower x = phaseCompleted
    · rw [if_pos hp]; exact Or.inr rfl
    · rw [if_neg hp]; exact Or.inl rfl
  have h2 := mergeOrderData_eq toLower (MergeOrderData toLower x x false).1 x true
  rw [keptInfo_replay x _ _ hcards hm, restoreFirst_replay toLower x _ hm] at h2
  rw [h2]
  constructor
  · rw [h1]
    simp
  · rw [h1]

end Tracker
